import Mathlib

/-!
# Observation blocks and observation data sets (`lib/enkf/obs_data.cpp`)

A shallow embedding of the observation bookkeeping of `obs_data.cpp`.

* C arrays (`value`, `std`, `active_mode`) are lists; an index outside the
  allocated range is undefined behaviour in C, and the statements below carry
  the range precondition of the source where the result depends on it.
* Sizes and offsets are natural numbers; the cached `active_size` is an
  integer, as it is decremented. The lookup by total index comes twice: on the
  natural numbers, and on the integers (`obs_data_lookup_block_int`) as the
  source has it, with the two agreeing on every index that is not negative.
* `double` is an abstract scalar type `α`; theorems that need algebra ask for
  a field, the others hold for any scalar type with the operations used.
* Mutation through a pointer is a function returning the updated value.
-/

namespace ObsData

/-! ## Data model -/

/-- The activation state of one observation (`active_type`). The source names
the initial state `LOCAL_INACTIVE`. -/
inductive active_type where
  | ACTIVE
  | LOCAL_INACTIVE
  | DEACTIVATED
  | MISSING
  deriving DecidableEq, Repr

open active_type

/-- The two ways a lookup can abort: `util_abort` in the `else` branch of
`obs_data_lookup_block`, and the index check of `vector_iget_const`. The third
value marks a read before the start of an array, which is undefined behaviour
in C and not an abort. -/
inductive fault where
  | lookup_abort
  | vector_index_abort
  | undefined_read
  deriving DecidableEq, Repr

/-- Modelled from the spec: the dense matrix container (`matrix_type`), a
2-D numeric container with `rows * columns` entries. Entries are read through
`data`; only positions inside the shape are meaningful. -/
structure matrix (α : Type) where
  rows : Nat
  columns : Nat
  data : Nat → Nat → α

/-- The fields of `struct obs_block_struct`. -/
structure obs_block (α : Type) where
  obs_key : String
  size : Nat
  value : List α
  std : List α
  active_mode : List active_type
  active_size : Int
  error_covar : Option (matrix α)
  error_covar_owner : Bool
  global_std_scaling : α

/-- The fields of `struct obs_data_struct`. -/
structure obs_data (α : Type) where
  data : List (obs_block α)
  mask : List Bool
  global_std_scaling : α

section block
variable {α : Type}

/-- Embedding of `obs_block_alloc`: arrays of `obs_size` zeros (`util_calloc`), every
element `LOCAL_INACTIVE`, `active_size = 0`. -/
def obs_block_alloc [Zero α] (obs_key : String) (obs_size : Nat)
    (error_covar : Option (matrix α)) (error_covar_owner : Bool)
    (global_std_scaling : α) : obs_block α :=
  { obs_key := obs_key
    size := obs_size
    value := List.replicate obs_size 0
    std := List.replicate obs_size 0
    active_mode := List.replicate obs_size LOCAL_INACTIVE
    active_size := 0
    error_covar := error_covar
    error_covar_owner := error_covar_owner
    global_std_scaling := global_std_scaling }

/-- Embedding of `obs_block_deactivate`; `verbose` and `msg` only drive a `printf`. -/
def obs_block_deactivate (b : obs_block α) (iobs : Nat) (_verbose : Bool)
    (_msg : String) : obs_block α :=
  if b.active_mode[iobs]? = some ACTIVE then
    { b with
      active_mode := b.active_mode.set iobs DEACTIVATED
      active_size := b.active_size - 1 }
  else b

/-- Embedding of `obs_block_iset`. -/
def obs_block_iset (b : obs_block α) (iobs : Nat) (value std : α) : obs_block α :=
  let b1 : obs_block α :=
    { b with value := b.value.set iobs value, std := b.std.set iobs std }
  if b1.active_mode[iobs]? ≠ some ACTIVE then
    { b1 with
      active_mode := b1.active_mode.set iobs ACTIVE
      active_size := b1.active_size + 1 }
  else b1

/-- Embedding of `obs_block_iset_missing`. -/
def obs_block_iset_missing (b : obs_block α) (iobs : Nat) : obs_block α :=
  let b1 : obs_block α :=
    if b.active_mode[iobs]? = some ACTIVE then
      { b with active_size := b.active_size - 1 }
    else b
  { b1 with active_mode := b1.active_mode.set iobs MISSING }

/-- Embedding of `obs_block_iget_std`: the stored std times the block's scaling. -/
def obs_block_iget_std [Zero α] [Mul α] (b : obs_block α) (iobs : Nat) : α :=
  b.std.getD iobs 0 * b.global_std_scaling

/-- Embedding of `obs_block_iget_value`. -/
def obs_block_iget_value [Zero α] (b : obs_block α) (iobs : Nat) : α :=
  b.value.getD iobs 0

/-- Embedding of `obs_block_iget_active_mode`. -/
def obs_block_iget_active_mode (b : obs_block α) (iobs : Nat) : active_type :=
  b.active_mode.getD iobs LOCAL_INACTIVE

/-- Embedding of `obs_block_get_size`. -/
def obs_block_get_size (b : obs_block α) : Nat := b.size

/-- Embedding of `obs_block_get_active_size`. -/
def obs_block_get_active_size (b : obs_block α) : Int := b.active_size

/-- One mutating call on a block, as data: `obs_block_iset`,
`obs_block_iset_missing` or `obs_block_deactivate`. -/
inductive block_op (α : Type) where
  | iset (iobs : Nat) (value std : α)
  | iset_missing (iobs : Nat)
  | deactivate (iobs : Nat) (verbose : Bool) (msg : String)

/-- The local index a call addresses. -/
def block_op.index : block_op α → Nat
  | .iset i _ _ => i
  | .iset_missing i => i
  | .deactivate i _ _ => i

/-- Perform one call on a block. -/
def block_op.run (b : obs_block α) : block_op α → obs_block α
  | .iset i v s => obs_block_iset b i v s
  | .iset_missing i => obs_block_iset_missing b i
  | .deactivate i verbose msg => obs_block_deactivate b i verbose msg

/-- Perform a finite sequence of calls on a block, first call first. -/
def block_run (b : obs_block α) (ops : List (block_op α)) : obs_block α :=
  ops.foldl block_op.run b

/-- The three arrays of a block have `size` elements. -/
def obs_block.shaped (b : obs_block α) : Prop :=
  b.value.length = b.size ∧ b.std.length = b.size ∧ b.active_mode.length = b.size

/-- The number of elements whose state is `ACTIVE`, by full scan. -/
def obs_block.count_active (b : obs_block α) : Nat :=
  b.active_mode.count ACTIVE

/-- The block invariant: arrays of length `size`, and the cached
`active_size` equal to the number of `ACTIVE` elements. -/
def obs_block.wf (b : obs_block α) : Prop :=
  b.shaped ∧ b.active_size = (b.count_active : Int)

end block

/-! ## The observation data set -/

section data
variable {α : Type}

/-- A counted loop `for (k = 0; k < n; k++) body`, threading the state. -/
def for_range {σ : Type} (n : Nat) (body : Nat → σ → σ) (init : σ) : σ :=
  match n with
  | 0 => init
  | k + 1 => body k (for_range k body init)

/-- Embedding of `obs_data_reset`: `vector_clear` on the block vector. -/
def obs_data_reset (d : obs_data α) : obs_data α :=
  { d with data := [] }

/-- Embedding of `obs_data_alloc`: no blocks, an empty mask, the given scaling. -/
def obs_data_alloc (global_std_scaling : α) : obs_data α :=
  obs_data_reset { data := [], mask := [], global_std_scaling := global_std_scaling }

/-- Embedding of `obs_data_add_block`: the new block is appended; the handle the source
returns is the block at position `d.data.length` of the result. -/
def obs_data_add_block [Zero α] (d : obs_data α) (obs_key : String) (obs_size : Nat)
    (error_covar : Option (matrix α)) (error_covar_owner : Bool) : obs_data α :=
  let new_block :=
    obs_block_alloc obs_key obs_size error_covar error_covar_owner d.global_std_scaling
  { d with data := d.data ++ [new_block] }

/-- Embedding of `obs_data_iget_block`: `vector_iget` aborts on an index that is not a
position of the vector. -/
def obs_data_iget_block (d : obs_data α) (index : Nat) : Except fault (obs_block α) :=
  match d.data[index]? with
  | some b => .ok b
  | none => .error .vector_index_abort

/-- A call on the block handle at position `block_nr` of the data set. -/
def obs_data_on_block (d : obs_data α) (block_nr : Nat) (op : block_op α) : obs_data α :=
  match d.data[block_nr]? with
  | some b => { d with data := d.data.set block_nr (op.run b) }
  | none => d

/-- Embedding of `obs_data_get_active_size`: the loop adds the cached `active_size` of
every block. -/
def obs_data_get_active_size (d : obs_data α) : Int :=
  d.data.foldl (fun active_size b => active_size + b.active_size) 0

/-- Embedding of `obs_data_get_num_blocks`. -/
def obs_data_get_num_blocks (d : obs_data α) : Nat := d.data.length

/-- Embedding of `obs_data_get_total_size`: the loop adds the `size` of every block. -/
def obs_data_get_total_size (d : obs_data α) : Nat :=
  d.data.foldl (fun total_size b => total_size + b.size) 0

/-- The `while (true)` loop of `obs_data_lookup_block`. The list is the part
of the block vector from `block_index` on: `vector_iget_const` at a position
past the end aborts. The result is the final `block_index`, the block and
`total_offset`. -/
def lookup_scan (total_index : Nat) :
    List (obs_block α) → Nat → Nat → Except fault (Nat × obs_block α × Nat)
  | [], _, _ => .error .vector_index_abort
  | b :: rest, total_offset, block_index =>
    if b.size + total_offset > total_index then .ok (block_index, b, total_offset)
    else lookup_scan total_index rest (total_offset + b.size) (block_index + 1)

/-- Embedding of `obs_data_lookup_block` on the total indices that are not
negative: the block and `*block_offset`. `obs_data_lookup_block_int` takes the
`int total_index` of the source. -/
def obs_data_lookup_block (d : obs_data α) (total_index : Nat) :
    Except fault (obs_block α × Nat) :=
  if total_index < obs_data_get_total_size d then
    match lookup_scan total_index d.data 0 0 with
    | .ok (_, b, total_offset) => .ok (b, total_offset)
    | .error e => .error e
  else .error .lookup_abort

/-- Embedding of `obs_data_iget_value` on the total indices that are not
negative. -/
def obs_data_iget_value [Zero α] (d : obs_data α) (total_index : Nat) : Except fault α :=
  match obs_data_lookup_block d total_index with
  | .ok (b, total_offset) => .ok (obs_block_iget_value b (total_index - total_offset))
  | .error e => .error e

/-- Embedding of `obs_data_iget_std` on the total indices that are not
negative. -/
def obs_data_iget_std [Zero α] [Mul α] (d : obs_data α) (total_index : Nat) :
    Except fault α :=
  match obs_data_lookup_block d total_index with
  | .ok (b, total_offset) => .ok (obs_block_iget_std b (total_index - total_offset))
  | .error e => .error e

/-- The `while (true)` loop of `obs_data_lookup_block` on the `int
total_index` of the source, which may be negative; the comparison is the
integer comparison of the source. -/
def lookup_scan_int (total_index : Int) :
    List (obs_block α) → Nat → Nat → Except fault (Nat × obs_block α × Nat)
  | [], _, _ => .error .vector_index_abort
  | b :: rest, total_offset, block_index =>
    if ((b.size + total_offset : Nat) : Int) > total_index then
      .ok (block_index, b, total_offset)
    else lookup_scan_int total_index rest (total_offset + b.size) (block_index + 1)

/-- Embedding of `obs_data_lookup_block` with the `int total_index` of the
source: the guard compares integers, so a negative index passes it.
`obs_data_lookup_block` is the restriction to the indices that are not
negative. -/
def obs_data_lookup_block_int (d : obs_data α) (total_index : Int) :
    Except fault (obs_block α × Nat) :=
  if total_index < (obs_data_get_total_size d : Int) then
    match lookup_scan_int total_index d.data 0 0 with
    | .ok (_, b, total_offset) => .ok (b, total_offset)
    | .error e => .error e
  else .error .lookup_abort

/-- Embedding of `obs_data_iget_value` with the `int total_index` of the
source; a negative `total_index - total_offset` reads before the array. -/
def obs_data_iget_value_int [Zero α] (d : obs_data α) (total_index : Int) :
    Except fault α :=
  match obs_data_lookup_block_int d total_index with
  | .ok (b, total_offset) =>
    if total_index - (total_offset : Int) < 0 then .error .undefined_read
    else .ok (obs_block_iget_value b (total_index - (total_offset : Int)).toNat)
  | .error e => .error e

/-- Embedding of `obs_data_iget_std` with the `int total_index` of the source;
a negative `total_index - total_offset` reads before the array. -/
def obs_data_iget_std_int [Zero α] [Mul α] (d : obs_data α) (total_index : Int) :
    Except fault α :=
  match obs_data_lookup_block_int d total_index with
  | .ok (b, total_offset) =>
    if total_index - (total_offset : Int) < 0 then .error .undefined_read
    else .ok (obs_block_iget_std b (total_index - (total_offset : Int)).toNat)
  | .error e => .error e

/-- Modelled from the spec: `bool_vector_resize`, the resizable boolean mask
vector; new positions hold `default_value`. -/
def bool_vector_resize (v : List Bool) (new_size : Nat) (default_value : Bool) : List Bool :=
  v.take new_size ++ List.replicate (new_size - v.length) default_value

/-- Modelled from the spec: `bool_vector_iset`, `set(i, bool)` on the mask
vector; a position past the end grows the vector. -/
def bool_vector_iset (v : List Bool) (i : Nat) (x : Bool) : List Bool :=
  if i < v.length then v.set i x
  else v ++ List.replicate (i - v.length) false ++ [x]

/-- Embedding of `obs_block_set_active_mask`: the mask and `*offset`. -/
def obs_block_set_active_mask (b : obs_block α) (mask : List Bool) (offset : Nat) :
    List Bool × Nat :=
  for_range b.size
    (fun i st =>
      if b.active_mode[i]? = some ACTIVE then (bool_vector_iset st.1 st.2 true, st.2 + 1)
      else (bool_vector_iset st.1 st.2 false, st.2 + 1))
    (mask, offset)

/-- Embedding of `obs_data_get_active_mask`: the returned vector, which the source also
keeps in `obs_data->mask`. -/
def obs_data_get_active_mask (d : obs_data α) : List Bool :=
  let total_size := obs_data_get_total_size d
  let mask := bool_vector_resize d.mask total_size false
  (d.data.foldl (fun st b => obs_block_set_active_mask b st.1 st.2) (mask, 0)).1

/-- One call of the produced interface that changes a data set. -/
inductive obs_data_call (α : Type) where
  | add_block (obs_key : String) (obs_size : Nat) (error_covar : Option (matrix α))
      (error_covar_owner : Bool)
  | reset
  | on_block (block_nr : Nat) (op : block_op α)
  | get_active_mask

/-- Perform one call on a data set. -/
def obs_data_call.run [Zero α] (d : obs_data α) : obs_data_call α → obs_data α
  | .add_block key n covar owner => obs_data_add_block d key n covar owner
  | .reset => obs_data_reset d
  | .on_block block_nr op => obs_data_on_block d block_nr op
  | .get_active_mask => { d with mask := obs_data_get_active_mask d }

/-- Perform a finite sequence of calls on a data set, first call first. -/
def obs_data_run [Zero α] (d : obs_data α) (calls : List (obs_data_call α)) : obs_data α :=
  calls.foldl obs_data_call.run d

/-- The local indices of the `ACTIVE` elements of a block, increasing. -/
def obs_block.active_indices (b : obs_block α) : List Nat :=
  (List.range b.size).filter (fun i => decide (b.active_mode[i]? = some ACTIVE))

/-- The local indices below `n` of the `ACTIVE` elements of a block. -/
def obs_block.active_upto (b : obs_block α) (n : Nat) : List Nat :=
  (List.range n).filter (fun i => decide (b.active_mode[i]? = some ACTIVE))

/-- The mask entries of one block: one entry per local index, true for an
`ACTIVE` element. -/
def block_mask (b : obs_block α) : List Bool :=
  (List.range b.size).map (fun i => decide (b.active_mode[i]? = some ACTIVE))

/-- The mask entries of a list of blocks, block after block. -/
def mask_of : List (obs_block α) → List Bool
  | [] => []
  | b :: rest => block_mask b ++ mask_of rest

/-- The number of `ACTIVE` elements in the blocks before position `k`. -/
def obs_data.active_offset_of (d : obs_data α) (k : Nat) : Nat :=
  ((d.data.take k).map (fun b => b.active_indices.length)).sum

/-- The sum of the sizes of the blocks before position `k`. -/
def obs_data.offset_of (d : obs_data α) (k : Nat) : Nat :=
  ((d.data.take k).map obs_block.size).sum

/-- Every block of a data set carries the scaling of the data set. -/
def obs_data.scaling_inherited (d : obs_data α) : Prop :=
  ∀ b ∈ d.data, b.global_std_scaling = d.global_std_scaling

/-- The data set invariant: every block satisfies the block invariant. -/
def obs_data.wf (d : obs_data α) : Prop :=
  ∀ b ∈ d.data, b.wf

/-- A call addresses an element of its block: the local index of a call on
a block handle is below the size of that block. -/
def obs_data_call.in_range (d : obs_data α) : obs_data_call α → Prop
  | .on_block block_nr op => ∀ b, d.data[block_nr]? = some b → op.index < b.size
  | _ => True

/-- Every call of a sequence addresses an element of its block, in the data
set the call is made on. -/
def calls_in_range [Zero α] : obs_data α → List (obs_data_call α) → Prop
  | _, [] => True
  | d, c :: rest => c.in_range d ∧ calls_in_range (obs_data_call.run d c) rest

instance obs_block.wf_decidable (b : obs_block α) : Decidable b.wf := by
  unfold obs_block.wf obs_block.shaped
  infer_instance

instance obs_data.wf_decidable (d : obs_data α) : Decidable d.wf := by
  unfold obs_data.wf
  infer_instance

end data

/-! ## Matrices and matrix assembly -/

section assembly
variable {α : Type}

/-- Modelled from the spec: `matrix_alloc`, construct with (rows, cols); the
new matrix is filled with zeros. -/
def matrix_alloc [Zero α] (rows columns : Nat) : matrix α :=
  { rows := rows, columns := columns, data := fun _ _ => 0 }

/-- Modelled from the spec: `matrix_get_rows`. -/
def matrix_get_rows (m : matrix α) : Nat := m.rows

/-- Modelled from the spec: `matrix_get_columns`. -/
def matrix_get_columns (m : matrix α) : Nat := m.columns

/-- Modelled from the spec: `matrix_iget`, `get(i,j)`. -/
def matrix_iget (m : matrix α) (i j : Nat) : α := m.data i j

/-- Modelled from the spec: `matrix_iset`, `set(i,j,v)`. -/
def matrix_iset (m : matrix α) (i j : Nat) (v : α) : matrix α :=
  { m with data := fun r c => if r = i ∧ c = j then v else m.data r c }

/-- Modelled from the spec: `matrix_iadd`, `add(i,j,v)`. -/
def matrix_iadd [Add α] (m : matrix α) (i j : Nat) (v : α) : matrix α :=
  matrix_iset m i j (matrix_iget m i j + v)

/-- Modelled from the spec: `matrix_imul`, `multiplyInPlace(i,j,v)`. -/
def matrix_imul [Mul α] (m : matrix α) (i j : Nat) (v : α) : matrix α :=
  matrix_iset m i j (matrix_iget m i j * v)

/-- Modelled from the spec: `matrix_iset_safe`, the bounds-checked variant
whose out-of-range writes are silently ignored. -/
def matrix_iset_safe (m : matrix α) (i j : Nat) (v : α) : matrix α :=
  if i < m.rows ∧ j < m.columns then matrix_iset m i j v else m

/-- Modelled from the spec: `matrix_alloc_copy`, a new matrix with the same
shape and entries. -/
def matrix_alloc_copy (m : matrix α) : matrix α := m

/-- Modelled from the spec: `matrix_inplace_sub`, entrywise `A -= B` for
matrices of one shape. -/
def matrix_inplace_sub [Sub α] (A B : matrix α) : matrix α :=
  { A with data := fun r c => A.data r c - B.data r c }

/-- Embedding of `obs_block_init_scaling`: the array and `*__obs_offset`. -/
def obs_block_init_scaling [Zero α] [One α] [Mul α] [Div α] (b : obs_block α)
    (scale_factor : List α) (obs_offset : Nat) : List α × Nat :=
  for_range b.size
    (fun iobs st =>
      if b.active_mode[iobs]? = some ACTIVE then
        (st.1.set st.2 (1 / obs_block_iget_std b iobs), st.2 + 1)
      else st)
    (scale_factor, obs_offset)

/-- Embedding of `obs_block_initdObs`: the matrix and `*__obs_offset`. -/
def obs_block_initdObs [Zero α] (b : obs_block α) (dObs : matrix α) (obs_offset : Nat) :
    matrix α × Nat :=
  for_range b.size
    (fun iobs st =>
      if b.active_mode[iobs]? = some ACTIVE then
        (matrix_iset (matrix_iset st.1 st.2 0 (b.value.getD iobs 0)) st.2 1
          (b.std.getD iobs 0), st.2 + 1)
      else st)
    (dObs, obs_offset)

/-- Embedding of `obs_block_initR`: the matrix and `*__obs_offset`. The new offset adds the
cached `active_size`, which is not negative under the block invariant. The
`matrix_free` of an owned covariance has no counterpart here. -/
def obs_block_initR [Zero α] [Mul α] (b : obs_block α) (R : matrix α) (obs_offset : Nat) :
    matrix α × Nat :=
  let R1 : matrix α :=
    match b.error_covar with
    | none =>
      (for_range b.size
        (fun iobs st =>
          if b.active_mode[iobs]? = some ACTIVE then
            (matrix_iset_safe st.1 (obs_offset + st.2) (obs_offset + st.2)
              (obs_block_iget_std b iobs * obs_block_iget_std b iobs), st.2 + 1)
          else st)
        (R, 0)).1
    | some error_covar =>
      (for_range b.size
        (fun row st =>
          if b.active_mode[row]? = some ACTIVE then
            ((for_range b.size
              (fun col st2 =>
                if b.active_mode[col]? = some ACTIVE then
                  (matrix_iset_safe st2.1 (obs_offset + st.2) (obs_offset + st2.2)
                    (matrix_iget error_covar row col), st2.2 + 1)
                else st2)
              (st.1, 0)).1, st.2 + 1)
          else st)
        (R, 0)).1
  (R1, obs_offset + b.active_size.toNat)

/-- Embedding of `obs_block_initE`: the matrix and `*__obs_offset`; `sqrt` is the square
root of the C library. -/
def obs_block_initE [Zero α] [Mul α] [Div α] [NatCast α] (sqrt : α → α) (b : obs_block α)
    (E : matrix α) (pert_var : Nat → α) (obs_offset : Nat) : matrix α × Nat :=
  let ens_size := matrix_get_columns E
  for_range b.size
    (fun iobs st =>
      if b.active_mode[iobs]? = some ACTIVE then
        (for_range ens_size
          (fun iens E1 =>
            matrix_imul E1 st.2 iens
              (obs_block_iget_std b iobs * sqrt ((ens_size : α) / pert_var st.2)))
          st.1, st.2 + 1)
      else st)
    (E, obs_offset)

/-- Embedding of `obs_block_initE_non_centred`: the matrix and `*__obs_offset`. -/
def obs_block_initE_non_centred [Zero α] [Mul α] (b : obs_block α) (E : matrix α)
    (obs_offset : Nat) : matrix α × Nat :=
  let ens_size := matrix_get_columns E
  for_range b.size
    (fun iobs st =>
      if b.active_mode[iobs]? = some ACTIVE then
        (for_range ens_size
          (fun iens E1 => matrix_imul E1 st.2 iens (obs_block_iget_std b iobs))
          st.1, st.2 + 1)
      else st)
    (E, obs_offset)

/-- Embedding of `obs_block_initD`: the matrix and `*__obs_offset`. -/
def obs_block_initD [Zero α] [Add α] (b : obs_block α) (D : matrix α) (obs_offset : Nat) :
    matrix α × Nat :=
  let ens_size := matrix_get_columns D
  for_range b.size
    (fun iobs st =>
      if b.active_mode[iobs]? = some ACTIVE then
        (for_range ens_size
          (fun iens D1 => matrix_iadd D1 st.2 iens (b.value.getD iobs 0))
          st.1, st.2 + 1)
      else st)
    (D, obs_offset)

/-- The first loop nest of `obs_data_allocE`: one standard-normal draw per
entry, the ensemble index in the outer loop. The state is the matrix and the
number of draws taken; `rng k` is the `k`-th draw of the random source. -/
def allocE_draw (E : matrix α) (rng : Nat → α) (active_obs_size active_ens_size : Nat) :
    matrix α × Nat :=
  for_range active_ens_size
    (fun j st =>
      for_range active_obs_size
        (fun i st1 => (matrix_iset st1.1 i j (rng st1.2), st1.2 + 1))
        st)
    (E, 0)

/-- The loops of `obs_data_allocE` that fill `pert_mean`: zero, accumulate
over the ensemble, divide by the ensemble size. -/
def allocE_mean [Zero α] [Add α] [Div α] [NatCast α] (E : matrix α)
    (active_obs_size active_ens_size : Nat) : Nat → α :=
  let pert_mean0 : Nat → α :=
    for_range active_obs_size (fun iobs_active pm => Function.update pm iobs_active 0)
      (fun _ => 0)
  let pert_mean1 : Nat → α :=
    for_range active_ens_size
      (fun iens pm =>
        for_range active_obs_size
          (fun iobs_active pm1 =>
            Function.update pm1 iobs_active (pm1 iobs_active + matrix_iget E iobs_active iens))
          pm)
      pert_mean0
  for_range active_obs_size
    (fun iobs_active pm =>
      Function.update pm iobs_active (pm iobs_active / (active_ens_size : α)))
    pert_mean1

/-- The loop nest of `obs_data_allocE` that subtracts the row mean from every
entry and accumulates the squares in `pert_var`. -/
def allocE_centre [Zero α] [Add α] [Mul α] [Neg α] (E : matrix α) (pert_mean : Nat → α)
    (active_obs_size active_ens_size : Nat) : matrix α × (Nat → α) :=
  let pert_var0 : Nat → α :=
    for_range active_obs_size (fun iobs_active pv => Function.update pv iobs_active 0)
      (fun _ => 0)
  for_range active_ens_size
    (fun iens st =>
      for_range active_obs_size
        (fun iobs_active st1 =>
          let E1 := matrix_iadd st1.1 iobs_active iens (-pert_mean iobs_active)
          let tmp := matrix_iget E1 iobs_active iens
          (E1, Function.update st1.2 iobs_active (st1.2 iobs_active + tmp * tmp)))
        st)
    (E, pert_var0)

/-- Embedding of `obs_data_allocE`. `matrix_assert_finite` has no counterpart: the scalars
here are exact, and the statements about this function exclude the division
by zero that produces a non-finite entry. -/
def obs_data_allocE [Zero α] [Add α] [Mul α] [Neg α] [Div α] [NatCast α] (sqrt : α → α)
    (d : obs_data α) (rng : Nat → α) (active_ens_size : Nat) : matrix α :=
  let active_obs_size := (obs_data_get_active_size d).toNat
  let E := matrix_alloc active_obs_size active_ens_size
  let E1 := (allocE_draw E rng active_obs_size active_ens_size).1
  let pert_mean := allocE_mean E1 active_obs_size active_ens_size
  let st := allocE_centre E1 pert_mean active_obs_size active_ens_size
  (d.data.foldl (fun acc b => obs_block_initE sqrt b acc.1 st.2 acc.2) (st.1, 0)).1

/-- The perturbation step of the non-centred policy:
`obs_block_initE_non_centred` applied over the blocks in insertion order with
a running offset that starts at 0. The source has the block routine only; this
is the loop over the blocks that every other assembly routine uses. -/
def obs_data_initE_non_centred [Zero α] [Mul α] (d : obs_data α) (E : matrix α) :
    matrix α × Nat :=
  d.data.foldl (fun acc b => obs_block_initE_non_centred b acc.1 acc.2) (E, 0)

/-- Embedding of `obs_data_allocD`. -/
def obs_data_allocD [Zero α] [Add α] [Sub α] (d : obs_data α) (E S : matrix α) : matrix α :=
  let D := matrix_inplace_sub (matrix_alloc_copy E) S
  (d.data.foldl (fun acc b => obs_block_initD b acc.1 acc.2) (D, 0)).1

/-- Embedding of `obs_data_allocR`. -/
def obs_data_allocR [Zero α] [Mul α] (d : obs_data α) : matrix α :=
  let active_size := (obs_data_get_active_size d).toNat
  let R := matrix_alloc active_size active_size
  (d.data.foldl (fun acc b => obs_block_initR b acc.1 acc.2) (R, 0)).1

/-- Embedding of `obs_data_allocdObs`. -/
def obs_data_allocdObs [Zero α] (d : obs_data α) : matrix α :=
  let active_size := (obs_data_get_active_size d).toNat
  let dObs := matrix_alloc active_size 2
  (d.data.foldl (fun acc b => obs_block_initdObs b acc.1 acc.2) (dObs, 0)).1

/-- Embedding of `obs_data_scale_matrix__`: the column index in the outer loop. -/
def obs_data_scale_matrix__ [Zero α] [Mul α] (m : matrix α) (scale_factor : List α) :
    matrix α :=
  let rows := matrix_get_rows m
  let columns := matrix_get_columns m
  for_range columns
    (fun i m1 => for_range rows (fun j m2 => matrix_imul m2 j i (scale_factor.getD j 0)) m1)
    m

/-- Embedding of `obs_data_scale_Rmatrix__`. -/
def obs_data_scale_Rmatrix__ [Zero α] [Mul α] (R : matrix α) (scale_factor : List α) :
    matrix α :=
  let nrobs_active := matrix_get_rows R
  for_range nrobs_active
    (fun i R1 =>
      for_range nrobs_active
        (fun j R2 => matrix_imul R2 i j (scale_factor.getD i 0 * scale_factor.getD j 0))
        R1)
    R

/-- Embedding of `obs_data_alloc_scale_factor`: an array of `nrobs_active` zeros
(`util_calloc`) filled block by block. -/
def obs_data_alloc_scale_factor [Zero α] [One α] [Mul α] [Div α] (d : obs_data α) : List α :=
  let nrobs_active := (obs_data_get_active_size d).toNat
  let scale_factor : List α := List.replicate nrobs_active 0
  (d.data.foldl (fun acc b => obs_block_init_scaling b acc.1 acc.2) (scale_factor, 0)).1

/-- Embedding of `obs_data_scale_matrix`. -/
def obs_data_scale_matrix [Zero α] [One α] [Mul α] [Div α] (d : obs_data α)
    (m : matrix α) : matrix α :=
  obs_data_scale_matrix__ m (obs_data_alloc_scale_factor d)

/-- Embedding of `obs_data_scale_Rmatrix`. -/
def obs_data_scale_Rmatrix [Zero α] [One α] [Mul α] [Div α] (d : obs_data α)
    (R : matrix α) : matrix α :=
  obs_data_scale_Rmatrix__ R (obs_data_alloc_scale_factor d)

/-- Embedding of `obs_data_scale`: `S` is always scaled, each of `E`, `D`, `R`, `dObs` when
it is not `NULL`. The result is `(S, E, D, R, dObs)`. -/
def obs_data_scale [Zero α] [One α] [Mul α] [Div α] (d : obs_data α) (S : matrix α)
    (E D R dObs : Option (matrix α)) :
    matrix α × Option (matrix α) × Option (matrix α) × Option (matrix α) ×
      Option (matrix α) :=
  let scale_factor := obs_data_alloc_scale_factor d
  let S1 := obs_data_scale_matrix__ S scale_factor
  let D1 := D.map (fun m => obs_data_scale_matrix__ m scale_factor)
  let E1 := E.map (fun m => obs_data_scale_matrix__ m scale_factor)
  let dObs1 := dObs.map (fun m => obs_data_scale_matrix__ m scale_factor)
  let R1 := R.map (fun m => obs_data_scale_Rmatrix__ m scale_factor)
  (S1, E1, D1, R1, dObs1)

/-- Row `r` of `R` after `obs_block_initR` on a block with active offset `o`,
for the `ACTIVE` local index `a` of the block, given the row before: a block
without covariance writes the squared scaled std on the diagonal, a block with
covariance writes the entries of the covariance row `a` at the `ACTIVE`
columns. `nr` and `nc` are the shape of `R`. -/
def initR_row [Zero α] [Mul α] (nr nc : Nat) (b : obs_block α) (o a r : Nat)
    (old : Nat → α) : Nat → α :=
  fun c =>
    match b.error_covar with
    | none =>
      if c = r ∧ r < nr ∧ r < nc then obs_block_iget_std b a * obs_block_iget_std b a
      else old c
    | some error_covar =>
      if o ≤ c ∧ c < o + b.active_indices.length ∧ r < nr ∧ c < nc then
        error_covar.data a (b.active_indices.getD (c - o) 0)
      else old c

/-- Every entry of `M1` inside the shape is the entry of `M` times the scale
factor of its row; the shape is that of `M`. -/
def row_scaled [Zero α] [Mul α] (f : List α) (M M1 : matrix α) : Prop :=
  M1.rows = M.rows ∧ M1.columns = M.columns ∧
  ∀ r c, r < M.rows → c < M.columns → M1.data r c = M.data r c * f.getD r 0

/-- Every entry `R1[i, j]` with `i` and `j` below the number of rows is
`R[i, j] * f[i] * f[j]`; the shape is that of `R`. -/
def both_scaled [Zero α] [Mul α] (f : List α) (R R1 : matrix α) : Prop :=
  R1.rows = R.rows ∧ R1.columns = R.columns ∧
  ∀ i j, i < R.rows → j < R.rows → R1.data i j = R.data i j * f.getD i 0 * f.getD j 0

/-- The sample mean of the first `n` entries of a row. -/
def sample_mean [Field α] (x : Nat → α) (n : Nat) : α :=
  (∑ j in Finset.range n, x j) / (n : α)

/-- The sum over the first `n` entries of a row of the squared deviations
from the sample mean. -/
def centred_sum_squares [Field α] (x : Nat → α) (n : Nat) : α :=
  ∑ j in Finset.range n, (x j - sample_mean x n) * (x j - sample_mean x n)

/-- The `ACTIVE` elements of a list of blocks in active-index order (block
order, then local index), each as (block, active offset of the block, local
index); `off` is the active offset of the first block. -/
def active_rows_from : List (obs_block α) → Nat → List (obs_block α × Nat × Nat)
  | [], _ => []
  | b :: rest, off =>
    b.active_indices.map (fun a => (b, off, a)) ++
      active_rows_from rest (off + b.active_indices.length)

/-- The `ACTIVE` elements of a data set in active-index order: entry `k` is
the `k`-th `ACTIVE` element, as (block, active offset of the block, local
index). -/
def obs_data.active_rows (d : obs_data α) : List (obs_block α × Nat × Nat) :=
  active_rows_from d.data 0

end assembly

/-! ## Scenario data -/

/-- The block of the end-to-end scenario before any value is written: key
`"WOPR"`, three elements, no covariance. -/
def wopr_empty : obs_block Int :=
  obs_block_alloc "WOPR" 3 none false 1

/-- The scenario block with values `[10, 20, 30]` and std `[1, 2, 3]`. -/
def wopr_block : obs_block Int :=
  block_run wopr_empty [.iset 0 10 1, .iset 1 20 2, .iset 2 30 3]

/-- The data set of the second end-to-end scenario: two blocks, of size 2
and of size 3, added to a fresh data set. -/
def two_blocks : obs_data Int :=
  obs_data_add_block (obs_data_add_block (obs_data_alloc 1) "A" 2 none false) "B" 3 none false

/-- The first scenario as a data set: the `"WOPR"` block populated, then
index 1 deactivated. -/
def wopr_data : obs_data Int :=
  obs_data_run (obs_data_alloc 1)
    [.add_block "WOPR" 3 none false, .on_block 0 (.iset 0 10 1), .on_block 0 (.iset 1 20 2),
      .on_block 0 (.iset 2 30 3), .on_block 0 (.deactivate 1 false "outlier")]

/-- The calls that build `scaled_data` from a fresh data set. -/
def scaled_calls : List (obs_data_call Int) :=
  [.add_block "WOPR" 1 none false, .on_block 0 (.iset 0 10 3)]

/-- A data set with scaling 2 holding one block of one element, written with
value 10 and std 3. -/
def scaled_data : obs_data Int :=
  obs_data_on_block (obs_data_add_block (obs_data_alloc 2) "WOPR" 1 none false) 0
    (.iset 0 10 3)

/-- A perturbation matrix for the scenario data set: 2 rows, 2 columns. -/
def scenario_E : matrix Int :=
  { rows := 2, columns := 2, data := fun r c => 3 * (r : Int) + c }

/-- A forecast matrix for the scenario data set: 2 rows, 2 columns. -/
def scenario_S : matrix Int :=
  { rows := 2, columns := 2, data := fun r c => 100 + 10 * (r : Int) + c }

/-- A 2 x 2 covariance with entries `11, 12 / 21, 22`. -/
def cov2 : matrix Int :=
  { rows := 2, columns := 2, data := fun r c => 10 * (r : Int) + c + 11 }

/-- One block of two elements with the covariance `cov2`; both values are set
and element 0 is deactivated. -/
def cov_one : obs_data Int :=
  obs_data_run (obs_data_alloc 1)
    [.add_block "B" 2 (some cov2) false, .on_block 0 (.iset 0 7 1), .on_block 0 (.iset 1 8 1),
      .on_block 0 (.deactivate 0 false "outlier")]

/-- A data set with scaling 2 and two blocks: `"A"` without covariance (std 3
and 4, element 0 deactivated) and `"B"` with the covariance `cov2` (both
elements active). -/
def cov_data : obs_data Int :=
  obs_data_run (obs_data_alloc 2)
    [.add_block "A" 2 none false, .on_block 0 (.iset 0 5 3), .on_block 0 (.iset 1 6 4),
      .on_block 0 (.deactivate 0 false "outlier"),
      .add_block "B" 2 (some cov2) false, .on_block 1 (.iset 0 7 1), .on_block 1 (.iset 1 8 1)]

/-- A data set over the rationals with scaling 2: one block without
covariance, std 3 and 4, element 0 deactivated. -/
def rat_data : obs_data Rat :=
  obs_data_run (obs_data_alloc 2)
    [.add_block "A" 2 none false, .on_block 0 (.iset 0 5 3), .on_block 0 (.iset 1 6 4),
      .on_block 0 (.deactivate 0 false "outlier")]

/-- A data set over the rationals with scaling 2: one block without
covariance, both elements active with std 3 and 4. -/
def rat_pair : obs_data Rat :=
  obs_data_run (obs_data_alloc 2)
    [.add_block "A" 2 none false, .on_block 0 (.iset 0 5 3), .on_block 0 (.iset 1 6 4)]

/-- A forecast matrix over the rationals: 2 rows, 3 columns. -/
def rat_S : matrix Rat :=
  { rows := 2, columns := 3, data := fun r c => (r : Rat) + 2 * c + 1 }

/-- A data set over the reals with scaling 2: one block without covariance,
both elements active with std 3 and 4. -/
def real_pair : obs_data Real :=
  obs_data_run (obs_data_alloc 2)
    [.add_block "A" 2 none false, .on_block 0 (.iset 0 5 3), .on_block 0 (.iset 1 6 4)]

/-- The data set `cov_data` with scaling 5 instead of 2 and std 7 and 9
instead of 1 and 1 in the block that has the covariance. -/
def cov_data_rescaled : obs_data Int :=
  obs_data_run (obs_data_alloc 5)
    [.add_block "A" 2 none false, .on_block 0 (.iset 0 5 3), .on_block 0 (.iset 1 6 4),
      .on_block 0 (.deactivate 0 false "outlier"),
      .add_block "B" 2 (some cov2) false, .on_block 1 (.iset 0 7 7), .on_block 1 (.iset 1 8 9)]

section block_lemmas
variable {α : Type}

theorem count_set_of_ne {l : List active_type} {i : Nat} {x : active_type}
    (hi : i < l.length) (hold : l[i]? ≠ some ACTIVE) (hx : x ≠ ACTIVE) :
    (l.set i x).count ACTIVE = l.count ACTIVE := by
  induction l generalizing i with
  | nil => simp
  | cons a t ih =>
    cases i with
    | zero =>
      simp only [List.getElem?_cons_zero, ne_eq, Option.some.injEq] at hold
      simp [List.count_cons, hold, hx]
    | succ j =>
      simp only [List.length_cons, Nat.add_lt_add_iff_right] at hi
      simp only [List.getElem?_cons_succ] at hold
      simp [List.count_cons, ih hi hold]

theorem count_set_active_of_ne {l : List active_type} {i : Nat}
    (hi : i < l.length) (hold : l[i]? ≠ some ACTIVE) :
    (l.set i ACTIVE).count ACTIVE = l.count ACTIVE + 1 := by
  induction l generalizing i with
  | nil => simp at hi
  | cons a t ih =>
    cases i with
    | zero =>
      simp only [List.getElem?_cons_zero, ne_eq, Option.some.injEq] at hold
      simp [List.count_cons, hold]
    | succ j =>
      simp only [List.length_cons, Nat.add_lt_add_iff_right] at hi
      simp only [List.getElem?_cons_succ] at hold
      simp only [List.set_cons_succ, List.count_cons, ih hi hold]
      omega

theorem count_set_of_active {l : List active_type} {i : Nat} {x : active_type}
    (hold : l[i]? = some ACTIVE) (hx : x ≠ ACTIVE) :
    (l.set i x).count ACTIVE + 1 = l.count ACTIVE := by
  induction l generalizing i with
  | nil => simp at hold
  | cons a t ih =>
    cases i with
    | zero =>
      simp only [List.getElem?_cons_zero, Option.some.injEq] at hold
      simp [List.count_cons, hold, hx]
    | succ j =>
      simp only [List.getElem?_cons_succ] at hold
      simp only [List.set_cons_succ, List.count_cons]
      have := ih hold
      omega

theorem obs_block_iset_of_active {b : obs_block α} {i : Nat} (v s : α)
    (ha : b.active_mode[i]? = some ACTIVE) :
    obs_block_iset b i v s =
      { b with value := b.value.set i v, std := b.std.set i s } := by
  simp [obs_block_iset, ha]

theorem obs_block_iset_of_not_active {b : obs_block α} {i : Nat} (v s : α)
    (ha : b.active_mode[i]? ≠ some ACTIVE) :
    obs_block_iset b i v s =
      { b with
        value := b.value.set i v
        std := b.std.set i s
        active_mode := b.active_mode.set i ACTIVE
        active_size := b.active_size + 1 } := by
  simp [obs_block_iset, ha]

theorem obs_block_deactivate_of_active {b : obs_block α} {i : Nat} (verbose : Bool)
    (msg : String) (ha : b.active_mode[i]? = some ACTIVE) :
    obs_block_deactivate b i verbose msg =
      { b with
        active_mode := b.active_mode.set i DEACTIVATED
        active_size := b.active_size - 1 } := by
  simp [obs_block_deactivate, ha]

theorem obs_block_deactivate_of_not_active {b : obs_block α} {i : Nat} (verbose : Bool)
    (msg : String) (ha : b.active_mode[i]? ≠ some ACTIVE) :
    obs_block_deactivate b i verbose msg = b := by
  simp [obs_block_deactivate, ha]

theorem obs_block_iset_missing_of_active {b : obs_block α} {i : Nat}
    (ha : b.active_mode[i]? = some ACTIVE) :
    obs_block_iset_missing b i =
      { b with
        active_mode := b.active_mode.set i MISSING
        active_size := b.active_size - 1 } := by
  simp [obs_block_iset_missing, ha]

theorem obs_block_iset_missing_of_not_active {b : obs_block α} {i : Nat}
    (ha : b.active_mode[i]? ≠ some ACTIVE) :
    obs_block_iset_missing b i =
      { b with active_mode := b.active_mode.set i MISSING } := by
  simp [obs_block_iset_missing, ha]

theorem foldl_add_eq_sum {β γ : Type} [AddMonoid γ] (f : β → γ) (l : List β) (init : γ) :
    l.foldl (fun acc b => acc + f b) init = init + (l.map f).sum := by
  induction l generalizing init with
  | nil => simp
  | cons a t ih => simp [ih, add_assoc]

theorem obs_data_get_total_size_eq (d : obs_data α) :
    obs_data_get_total_size d = (d.data.map obs_block.size).sum := by
  simp [obs_data_get_total_size, foldl_add_eq_sum]

theorem obs_data_get_active_size_eq (d : obs_data α) :
    obs_data_get_active_size d = (d.data.map obs_block.active_size).sum := by
  simp [obs_data_get_active_size, foldl_add_eq_sum]

theorem obs_block_iset_wf {b : obs_block α} {i : Nat} (v s : α)
    (h : b.wf) (hi : i < b.size) : (obs_block_iset b i v s).wf := by
  obtain ⟨⟨hv, hs, hm⟩, hc⟩ := h
  unfold obs_block_iset
  by_cases ha : b.active_mode[i]? = some ACTIVE
  · simp [ha, obs_block.wf, obs_block.shaped, obs_block.count_active, hv, hs, hm]
    simpa [obs_block.count_active] using hc
  · have hcount := count_set_active_of_ne (hm ▸ hi : i < b.active_mode.length) ha
    simp [ha, obs_block.wf, obs_block.shaped, obs_block.count_active, hv, hs, hm, hcount]
    simpa [obs_block.count_active] using hc

theorem obs_block_iset_missing_wf {b : obs_block α} {i : Nat}
    (h : b.wf) (hi : i < b.size) : (obs_block_iset_missing b i).wf := by
  obtain ⟨⟨hv, hs, hm⟩, hc⟩ := h
  unfold obs_block_iset_missing
  by_cases ha : b.active_mode[i]? = some ACTIVE
  · have hcount := count_set_of_active (x := MISSING) ha (by decide)
    simp only [obs_block.count_active] at hc
    simp [ha, obs_block.wf, obs_block.shaped, obs_block.count_active, hv, hs, hm]
    omega
  · have hcount := count_set_of_ne (x := MISSING)
      (hm ▸ hi : i < b.active_mode.length) ha (by decide)
    simp [ha, obs_block.wf, obs_block.shaped, obs_block.count_active, hv, hs, hm, hcount]
    simpa [obs_block.count_active] using hc

theorem obs_block_deactivate_wf {b : obs_block α} {i : Nat} (verbose : Bool)
    (msg : String) (h : b.wf) : (obs_block_deactivate b i verbose msg).wf := by
  obtain ⟨⟨hv, hs, hm⟩, hc⟩ := h
  unfold obs_block_deactivate
  by_cases ha : b.active_mode[i]? = some ACTIVE
  · have hcount := count_set_of_active (x := DEACTIVATED) ha (by decide)
    simp only [obs_block.count_active] at hc
    simp [ha, obs_block.wf, obs_block.shaped, obs_block.count_active, hv, hs, hm]
    omega
  · simp [ha, obs_block.wf, obs_block.shaped, hv, hs, hm, hc]

theorem obs_block_alloc_wf [Zero α] (key : String) (n : Nat)
    (covar : Option (matrix α)) (owner : Bool) (g : α) :
    (obs_block_alloc key n covar owner g).wf := by
  simp [obs_block_alloc, obs_block.wf, obs_block.shaped, obs_block.count_active,
    List.count_replicate]

theorem block_op_run_wf {b : obs_block α} (op : block_op α) (h : b.wf)
    (hi : op.index < b.size) : (block_op.run b op).wf := by
  cases op with
  | iset i v s => exact obs_block_iset_wf v s h hi
  | iset_missing i => exact obs_block_iset_missing_wf h hi
  | deactivate i verbose msg => exact obs_block_deactivate_wf verbose msg h

theorem block_op_run_size (b : obs_block α) (op : block_op α) :
    (block_op.run b op).size = b.size := by
  cases op with
  | iset i v s =>
    simp only [block_op.run, obs_block_iset]; split <;> rfl
  | iset_missing i =>
    simp only [block_op.run, obs_block_iset_missing]; split <;> rfl
  | deactivate i verbose msg =>
    simp only [block_op.run, obs_block_deactivate]; split <;> rfl

theorem block_op_run_scaling (b : obs_block α) (op : block_op α) :
    (block_op.run b op).global_std_scaling = b.global_std_scaling := by
  cases op with
  | iset i v s =>
    simp only [block_op.run, obs_block_iset]; split <;> rfl
  | iset_missing i =>
    simp only [block_op.run, obs_block_iset_missing]; split <;> rfl
  | deactivate i verbose msg =>
    simp only [block_op.run, obs_block_deactivate]; split <;> rfl

theorem block_run_size (b : obs_block α) (ops : List (block_op α)) :
    (block_run b ops).size = b.size := by
  induction ops generalizing b with
  | nil => rfl
  | cons op rest ih =>
    simp only [block_run, List.foldl_cons]
    exact (ih (block_op.run b op)).trans (block_op_run_size b op)

theorem block_run_wf {b : obs_block α} (ops : List (block_op α)) (h : b.wf)
    (hi : ∀ op ∈ ops, op.index < b.size) : (block_run b ops).wf := by
  induction ops generalizing b with
  | nil => exact h
  | cons op rest ih =>
    simp only [block_run, List.foldl_cons]
    apply ih (block_op_run_wf op h (hi op (List.mem_cons_self _ _)))
    intro o ho
    rw [block_op_run_size]
    exact hi o (List.mem_cons_of_mem _ ho)

theorem filter_range_length_eq_count (l : List active_type) :
    ((List.range l.length).filter
      (fun i => decide (l[i]? = some ACTIVE))).length = l.count ACTIVE := by
  induction l with
  | nil => simp
  | cons a t ih =>
    rw [List.length_cons, List.range_succ_eq_map, List.filter_cons, List.filter_map,
      List.count_cons]
    have hfun : ((fun i => decide ((a :: t)[i]? = some ACTIVE)) ∘ Nat.succ)
        = (fun i => decide (t[i]? = some ACTIVE)) := by
      funext i; simp
    rw [hfun]
    by_cases ha : a = ACTIVE
    · simp [ha, ih]
    · simp [ha, ih]

theorem active_indices_length {b : obs_block α} (h : b.active_mode.length = b.size) :
    b.active_indices.length = b.count_active := by
  unfold obs_block.active_indices obs_block.count_active
  rw [← h]
  exact filter_range_length_eq_count b.active_mode

end block_lemmas

/-! ## Lookup lemmas -/

section lookup_lemmas
variable {α : Type}

theorem getElem?_lt_length {β : Type} {l : List β} {k : Nat} {x : β}
    (h : l[k]? = some x) : k < l.length := by
  by_contra hge
  rw [List.getElem?_eq_none (Nat.le_of_not_lt hge)] at h
  exact absurd h (by simp)

theorem mem_of_getElem?_some {β : Type} {l : List β} {k : Nat} {x : β}
    (h : l[k]? = some x) : x ∈ l := by
  have hlt := getElem?_lt_length h
  rw [List.getElem?_eq_getElem hlt, Option.some.injEq] at h
  rw [← h]
  exact List.getElem_mem hlt

/-- The scan stops at block `k` when `total_index` lies in the range of block
`k`, counted from the running offset. -/
theorem lookup_scan_at (t : Nat) (l : List (obs_block α)) (k : Nat) (b : obs_block α)
    (off idx : Nat) (hk : l[k]? = some b)
    (hlo : off + ((l.take k).map obs_block.size).sum ≤ t)
    (hhi : t < off + ((l.take k).map obs_block.size).sum + b.size) :
    lookup_scan t l off idx =
      .ok (idx + k, b, off + ((l.take k).map obs_block.size).sum) := by
  induction l generalizing k off idx with
  | nil => simp at hk
  | cons a rest ih =>
    cases k with
    | zero =>
      simp only [List.getElem?_cons_zero, Option.some.injEq] at hk
      subst hk
      simp only [List.take_zero, List.map_nil, List.sum_nil, Nat.add_zero] at hlo hhi ⊢
      have : a.size + off > t := by omega
      simp [lookup_scan, this]
    | succ j =>
      simp only [List.getElem?_cons_succ] at hk
      simp only [List.take_succ_cons, List.map_cons, List.sum_cons] at hlo hhi ⊢
      have hnot : ¬ (a.size + off > t) := by omega
      rw [lookup_scan, if_neg hnot]
      rw [ih j (off + a.size) (idx + 1) hk (by omega) (by omega)]
      congr 2
      · omega
      · congr 1; omega

/-- An index below the total size lies in the range of exactly one block. -/
theorem exists_block_of_lt (l : List (obs_block α)) (t : Nat)
    (h : t < (l.map obs_block.size).sum) :
    ∃ k b, l[k]? = some b ∧ ((l.take k).map obs_block.size).sum ≤ t ∧
      t < ((l.take k).map obs_block.size).sum + b.size := by
  induction l generalizing t with
  | nil => simp at h
  | cons a rest ih =>
    simp only [List.map_cons, List.sum_cons] at h
    by_cases hlt : t < a.size
    · exact ⟨0, a, by simp, by simp, by simpa using hlt⟩
    · obtain ⟨k, b, hk, hlo, hhi⟩ := ih (t - a.size) (by omega)
      refine ⟨k + 1, b, by simpa using hk, ?_, ?_⟩
      · simp only [List.take_succ_cons, List.map_cons, List.sum_cons]; omega
      · simp only [List.take_succ_cons, List.map_cons, List.sum_cons]; omega

theorem obs_data_lookup_block_at (d : obs_data α) (t k : Nat) (b : obs_block α)
    (hk : d.data[k]? = some b) (hlo : d.offset_of k ≤ t) (hhi : t < d.offset_of k + b.size) :
    lookup_scan t d.data 0 0 = .ok (k, b, d.offset_of k) ∧
    obs_data_lookup_block d t = .ok (b, d.offset_of k) := by
  have hscan : lookup_scan t d.data 0 0 = .ok (k, b, d.offset_of k) := by
    have := lookup_scan_at t d.data k b 0 0 hk (by simpa [obs_data.offset_of] using hlo)
      (by simpa [obs_data.offset_of] using hhi)
    simpa [obs_data.offset_of] using this
  refine ⟨hscan, ?_⟩
  have htot : t < obs_data_get_total_size d := by
    rw [obs_data_get_total_size_eq]
    have hsplit : d.data = d.data.take k ++ b :: d.data.drop (k + 1) := by
      have hlt := getElem?_lt_length hk
      rw [List.getElem?_eq_getElem hlt, Option.some.injEq] at hk
      rw [← hk]
      simp
    rw [hsplit]
    simp only [List.map_append, List.sum_append, List.map_cons, List.sum_cons]
    unfold obs_data.offset_of at hhi
    omega
  simp [obs_data_lookup_block, htot, hscan]

/-- An index below the total size resolves to the block whose range holds
it. -/
theorem lookup_block_of_lt (d : obs_data α) (t : Nat)
    (h : t < obs_data_get_total_size d) :
    ∃ k b, k < obs_data_get_num_blocks d ∧ d.data[k]? = some b ∧
      lookup_scan t d.data 0 0 = .ok (k, b, d.offset_of k) ∧
      obs_data_lookup_block d t = .ok (b, d.offset_of k) ∧
      d.offset_of k ≤ t ∧ t < d.offset_of k + b.size := by
  rw [obs_data_get_total_size_eq] at h
  obtain ⟨k, b, hk, hlo, hhi⟩ := exists_block_of_lt d.data t h
  have hat := obs_data_lookup_block_at d t k b hk hlo hhi
  exact ⟨k, b, getElem?_lt_length hk, hk, hat.1, hat.2, hlo, hhi⟩

theorem obs_block_iset_get (b : obs_block α) (i : Nat) (v s : α)
    (hi : i < b.size) (hs : b.shaped) :
    (obs_block_iset b i v s).value[i]? = some v ∧
    (obs_block_iset b i v s).std[i]? = some s ∧
    (obs_block_iset b i v s).size = b.size := by
  obtain ⟨hv, hsd, -⟩ := hs
  have hiv : i < b.value.length := hv ▸ hi
  have his : i < b.std.length := hsd ▸ hi
  by_cases ha : b.active_mode[i]? = some ACTIVE
  · rw [obs_block_iset_of_active v s ha]
    exact ⟨by simp [hiv], by simp [his], rfl⟩
  · rw [obs_block_iset_of_not_active v s ha]
    exact ⟨by simp [hiv], by simp [his], rfl⟩

theorem take_set_self {β : Type} (l : List β) (k : Nat) (x : β) :
    (l.set k x).take k = l.take k := by
  induction l generalizing k with
  | nil => simp
  | cons a rest ih =>
    cases k with
    | zero => simp
    | succ j => simp [ih]

theorem getElem?_set_self_of_some {β : Type} {l : List β} {k : Nat} {y : β} (x : β)
    (h : l[k]? = some y) : (l.set k x)[k]? = some x := by
  simp [getElem?_lt_length h]

theorem obs_data_on_block_data (d : obs_data α) (k : Nat) (b : obs_block α)
    (op : block_op α) (hk : d.data[k]? = some b) :
    (obs_data_on_block d k op).data = d.data.set k (op.run b) ∧
    (obs_data_on_block d k op).data[k]? = some (op.run b) ∧
    (obs_data_on_block d k op).offset_of k = d.offset_of k ∧
    (obs_data_on_block d k op).global_std_scaling = d.global_std_scaling := by
  have hdata : (obs_data_on_block d k op).data = d.data.set k (op.run b) := by
    simp [obs_data_on_block, hk]
  refine ⟨hdata, ?_, ?_, ?_⟩
  · rw [hdata]; exact getElem?_set_self_of_some _ hk
  · simp [obs_data.offset_of, hdata, take_set_self]
  · simp [obs_data_on_block, hk]

theorem obs_data_call_run_scaling [Zero α] (d : obs_data α) (c : obs_data_call α)
    (h : d.scaling_inherited) :
    (obs_data_call.run d c).scaling_inherited ∧
    (obs_data_call.run d c).global_std_scaling = d.global_std_scaling := by
  cases c with
  | add_block key n covar owner =>
    refine ⟨?_, rfl⟩
    intro b hb
    simp only [obs_data_call.run, obs_data_add_block, List.mem_append,
      List.mem_singleton] at hb ⊢
    rcases hb with hb | hb
    · exact h b hb
    · rw [hb]; rfl
  | reset =>
    refine ⟨?_, rfl⟩
    intro b hb
    simp [obs_data_call.run, obs_data_reset] at hb
  | on_block k op =>
    simp only [obs_data_call.run]
    cases hk : d.data[k]? with
    | none =>
      have hd : obs_data_on_block d k op = d := by simp [obs_data_on_block, hk]
      rw [hd]
      exact ⟨h, rfl⟩
    | some b0 =>
      obtain ⟨hdata, -, -, hg⟩ := obs_data_on_block_data d k b0 op hk
      refine ⟨?_, hg⟩
      intro b hb
      rw [hdata] at hb
      rw [hg]
      rcases List.mem_or_eq_of_mem_set hb with hb | hb
      · exact h b hb
      · rw [hb, block_op_run_scaling]
        exact h b0 (mem_of_getElem?_some hk)
  | get_active_mask => exact ⟨h, rfl⟩

theorem obs_data_run_scaling [Zero α] (d : obs_data α) (calls : List (obs_data_call α))
    (h : d.scaling_inherited) :
    (obs_data_run d calls).scaling_inherited ∧
    (obs_data_run d calls).global_std_scaling = d.global_std_scaling := by
  induction calls generalizing d with
  | nil => exact ⟨h, rfl⟩
  | cons c rest ih =>
    simp only [obs_data_run, List.foldl_cons]
    have hc := obs_data_call_run_scaling d c h
    have hr := ih (obs_data_call.run d c) hc.1
    exact ⟨hr.1, hr.2.trans hc.2⟩

end lookup_lemmas

/-! ## Block contracts -/

section block_claims
variable {α : Type}

/-- C1: a block produced by `obs_block_alloc` and then modified by any finite
sequence of `obs_block_iset`, `obs_block_iset_missing` and
`obs_block_deactivate` calls with local indices below `size` has a cached
`active_size` equal to the number of local indices in `[0, size)` whose
`active_mode` is `ACTIVE`. -/
theorem obs_block_active_size_eq_count [Zero α] (key : String) (n : Nat)
    (covar : Option (matrix α)) (owner : Bool) (g : α) (ops : List (block_op α))
    (h : ∀ op ∈ ops, op.index < n) :
    (block_run (obs_block_alloc key n covar owner g) ops).size = n ∧
    (block_run (obs_block_alloc key n covar owner g) ops).active_mode.length = n ∧
    (block_run (obs_block_alloc key n covar owner g) ops).active_size =
      ((block_run (obs_block_alloc key n covar owner g) ops).active_indices.length : Int) := by
  have hwf := block_run_wf ops (obs_block_alloc_wf key n covar owner g) h
  have hsize : (block_run (obs_block_alloc key n covar owner g) ops).size = n :=
    block_run_size _ ops
  refine ⟨hsize, ?_, ?_⟩
  · rw [hwf.1.2.2, hsize]
  · rw [active_indices_length hwf.1.2.2]
    exact hwf.2

/-- C1 at a block of three elements: two values set, one of them deactivated,
the third element marked missing. -/
theorem obs_block_active_size_eq_count_witness :
    (∀ op ∈ [block_op.iset 0 (10 : Int) 1, block_op.iset 1 20 2,
        block_op.deactivate 1 false "outlier", block_op.iset_missing 2], op.index < 3) ∧
    (block_run (obs_block_alloc "WOPR" 3 none false (1 : Int))
      [block_op.iset 0 (10 : Int) 1, block_op.iset 1 20 2,
        block_op.deactivate 1 false "outlier", block_op.iset_missing 2]).active_size =
      ((block_run (obs_block_alloc "WOPR" 3 none false (1 : Int))
        [block_op.iset 0 (10 : Int) 1, block_op.iset 1 20 2,
          block_op.deactivate 1 false "outlier",
          block_op.iset_missing 2]).active_indices.length : Int) :=
  ⟨by simp [block_op.index],
   (obs_block_active_size_eq_count "WOPR" 3 none false (1 : Int) _
      (by simp [block_op.index])).2.2⟩

/-- C3: for a local index `i` below `size`, `obs_block_iset b i v s` leaves
`value[i] = v`, `std[i] = s` and `active_mode[i] = ACTIVE`; `active_size` grows
by exactly 1 if the prior state of `i` was not `ACTIVE` and is unchanged if it
was; value, std and state of every other index are unchanged. -/
theorem obs_block_iset_spec (b : obs_block α) (i : Nat) (v s : α)
    (hi : i < b.size) (hs : b.shaped) :
    (obs_block_iset b i v s).value[i]? = some v ∧
    (obs_block_iset b i v s).std[i]? = some s ∧
    (obs_block_iset b i v s).active_mode[i]? = some ACTIVE ∧
    (b.active_mode[i]? ≠ some ACTIVE →
      (obs_block_iset b i v s).active_size = b.active_size + 1) ∧
    (b.active_mode[i]? = some ACTIVE →
      (obs_block_iset b i v s).active_size = b.active_size) ∧
    (∀ j, j ≠ i →
      (obs_block_iset b i v s).value[j]? = b.value[j]? ∧
      (obs_block_iset b i v s).std[j]? = b.std[j]? ∧
      (obs_block_iset b i v s).active_mode[j]? = b.active_mode[j]?) ∧
    (obs_block_iset b i v s).size = b.size := by
  obtain ⟨hv, hsd, hm⟩ := hs
  have hiv : i < b.value.length := hv ▸ hi
  have his : i < b.std.length := hsd ▸ hi
  have him : i < b.active_mode.length := hm ▸ hi
  by_cases ha : b.active_mode[i]? = some ACTIVE
  · rw [obs_block_iset_of_active v s ha]
    refine ⟨by simp [hiv], by simp [his], ha, fun h => absurd ha h, fun _ => rfl, ?_, rfl⟩
    intro j hj
    simp [List.getElem?_set, Ne.symm hj]
  · rw [obs_block_iset_of_not_active v s ha]
    refine ⟨by simp [hiv], by simp [his], by simp [him], fun _ => rfl,
      fun h => absurd h ha, ?_, rfl⟩
    intro j hj
    simp [List.getElem?_set, Ne.symm hj]

/-- C3 on the scenario block: writing `(20, 2)` at index 1 of the fresh block
activates it, writing `(25, 4)` at index 1 of the populated block does not
change the count. -/
theorem obs_block_iset_spec_witness :
    (1 < wopr_empty.size ∧ wopr_empty.shaped ∧
      wopr_empty.active_mode[1]? ≠ some ACTIVE ∧
      (obs_block_iset wopr_empty 1 20 2).value[1]? = some 20 ∧
      (obs_block_iset wopr_empty 1 20 2).active_size = wopr_empty.active_size + 1) ∧
    (1 < wopr_block.size ∧ wopr_block.shaped ∧
      wopr_block.active_mode[1]? = some ACTIVE ∧
      (obs_block_iset wopr_block 1 25 4).std[1]? = some 4 ∧
      (obs_block_iset wopr_block 1 25 4).active_size = wopr_block.active_size) :=
  have h0 : wopr_empty.shaped := ⟨rfl, rfl, rfl⟩
  have h1 : wopr_block.shaped := ⟨rfl, rfl, rfl⟩
  have a0 : wopr_empty.active_mode[1]? ≠ some ACTIVE := by decide
  have a1 : wopr_block.active_mode[1]? = some ACTIVE := by decide
  ⟨⟨by decide, h0, a0,
      (obs_block_iset_spec wopr_empty 1 20 2 (by decide) h0).1,
      (obs_block_iset_spec wopr_empty 1 20 2 (by decide) h0).2.2.2.1 a0⟩,
   ⟨by decide, h1, a1,
      (obs_block_iset_spec wopr_block 1 25 4 (by decide) h1).2.1,
      (obs_block_iset_spec wopr_block 1 25 4 (by decide) h1).2.2.2.2.1 a1⟩⟩

/-- C4: `obs_block_deactivate` changes an `ACTIVE` element to `DEACTIVATED`
and decrements `active_size` by 1, and leaves the whole block unchanged when
the element is not `ACTIVE`; deactivating twice equals deactivating once, and
deactivating an already `DEACTIVATED` element of a block of a data set leaves
the data set's active size unchanged. -/
theorem obs_block_deactivate_spec (d : obs_data α) (k : Nat) (b : obs_block α) (i : Nat)
    (verbose : Bool) (msg : String) (hk : d.data[k]? = some b) :
    (b.active_mode[i]? = some ACTIVE →
      (obs_block_deactivate b i verbose msg).active_mode[i]? = some DEACTIVATED ∧
      (obs_block_deactivate b i verbose msg).active_size = b.active_size - 1 ∧
      (obs_block_deactivate b i verbose msg).value = b.value ∧
      (obs_block_deactivate b i verbose msg).std = b.std ∧
      (obs_block_deactivate b i verbose msg).size = b.size ∧
      (∀ j, j ≠ i →
        (obs_block_deactivate b i verbose msg).active_mode[j]? = b.active_mode[j]?)) ∧
    (b.active_mode[i]? ≠ some ACTIVE → obs_block_deactivate b i verbose msg = b) ∧
    obs_block_deactivate (obs_block_deactivate b i verbose msg) i verbose msg =
      obs_block_deactivate b i verbose msg ∧
    (b.active_mode[i]? = some DEACTIVATED →
      obs_data_on_block d k (.deactivate i verbose msg) = d ∧
      obs_data_get_active_size (obs_data_on_block d k (.deactivate i verbose msg)) =
        obs_data_get_active_size d) := by
  refine ⟨?_, ?_, ?_, ?_⟩
  · intro ha
    have hlt : i < b.active_mode.length := by
      by_contra hge
      rw [List.getElem?_eq_none (Nat.le_of_not_lt hge)] at ha
      exact absurd ha (by simp)
    rw [obs_block_deactivate_of_active verbose msg ha]
    refine ⟨by simp [hlt], rfl, rfl, rfl, rfl, ?_⟩
    intro j hj
    simp [List.getElem?_set, Ne.symm hj]
  · intro ha
    exact obs_block_deactivate_of_not_active verbose msg ha
  · by_cases ha : b.active_mode[i]? = some ACTIVE
    · have hlt : i < b.active_mode.length := by
        by_contra hge
        rw [List.getElem?_eq_none (Nat.le_of_not_lt hge)] at ha
        exact absurd ha (by simp)
      apply obs_block_deactivate_of_not_active
      rw [obs_block_deactivate_of_active verbose msg ha]
      simp [hlt]
    · rw [obs_block_deactivate_of_not_active verbose msg ha]
      exact obs_block_deactivate_of_not_active verbose msg ha
  · intro ha
    have hna : b.active_mode[i]? ≠ some ACTIVE := by rw [ha]; decide
    have hd : obs_data_on_block d k (.deactivate i verbose msg) = d := by
      simp only [obs_data_on_block, hk, block_op.run,
        obs_block_deactivate_of_not_active verbose msg hna]
      have hset : d.data.set k b = d.data := by
        apply List.ext_getElem?
        intro n
        by_cases hn : k = n
        · subst hn
          have hlt : k < d.data.length := by
            by_contra hge
            rw [List.getElem?_eq_none (Nat.le_of_not_lt hge)] at hk
            exact absurd hk (by simp)
          simp [hlt, hk]
        · simp [List.getElem?_set, hn]
      rw [hset]
    exact ⟨hd, by rw [hd]⟩

/-- C4 on the scenario block: index 1 is `ACTIVE` and becomes `DEACTIVATED`;
a second deactivation of the same element changes nothing. -/
theorem obs_block_deactivate_spec_witness :
    ([wopr_block][0]? = some wopr_block ∧ wopr_block.active_mode[1]? = some ACTIVE ∧
      (obs_block_deactivate wopr_block 1 false "outlier").active_mode[1]? = some DEACTIVATED ∧
      (obs_block_deactivate wopr_block 1 false "outlier").active_size =
        wopr_block.active_size - 1) ∧
    ((obs_block_deactivate wopr_block 1 false "outlier").active_mode[1]? ≠ some ACTIVE ∧
      obs_block_deactivate (obs_block_deactivate wopr_block 1 false "outlier") 1 false "again" =
        obs_block_deactivate wopr_block 1 false "outlier") :=
  have a1 : wopr_block.active_mode[1]? = some ACTIVE := by decide
  have a2 : (obs_block_deactivate wopr_block 1 false "outlier").active_mode[1]?
      ≠ some ACTIVE := by decide
  ⟨⟨rfl, a1,
      ((obs_block_deactivate_spec ⟨[wopr_block], [], 1⟩ 0 wopr_block 1 false "outlier"
        rfl).1 a1).1,
      ((obs_block_deactivate_spec ⟨[wopr_block], [], 1⟩ 0 wopr_block 1 false "outlier"
        rfl).1 a1).2.1⟩,
   ⟨a2,
      (obs_block_deactivate_spec
        ⟨[obs_block_deactivate wopr_block 1 false "outlier"], [], 1⟩ 0
        (obs_block_deactivate wopr_block 1 false "outlier") 1 false "again" rfl).2.1 a2⟩⟩

/-- C5: for a local index `i` below `size`, `obs_block_iset_missing b i` sets
`active_mode[i]` to `MISSING` whatever the prior state was, decrements
`active_size` by 1 exactly when the prior state was `ACTIVE`, and changes no
value, no std and no other element's state. -/
theorem obs_block_iset_missing_spec (b : obs_block α) (i : Nat)
    (hi : i < b.size) (hs : b.shaped) :
    (obs_block_iset_missing b i).active_mode[i]? = some MISSING ∧
    (b.active_mode[i]? = some ACTIVE →
      (obs_block_iset_missing b i).active_size = b.active_size - 1) ∧
    (b.active_mode[i]? ≠ some ACTIVE →
      (obs_block_iset_missing b i).active_size = b.active_size) ∧
    (obs_block_iset_missing b i).value = b.value ∧
    (obs_block_iset_missing b i).std = b.std ∧
    (∀ j, j ≠ i →
      (obs_block_iset_missing b i).active_mode[j]? = b.active_mode[j]?) ∧
    (obs_block_iset_missing b i).size = b.size := by
  have him : i < b.active_mode.length := hs.2.2 ▸ hi
  by_cases ha : b.active_mode[i]? = some ACTIVE
  · rw [obs_block_iset_missing_of_active ha]
    refine ⟨by simp [him], fun _ => rfl, fun h => absurd ha h, rfl, rfl, ?_, rfl⟩
    intro j hj
    simp [List.getElem?_set, Ne.symm hj]
  · rw [obs_block_iset_missing_of_not_active ha]
    refine ⟨by simp [him], fun h => absurd h ha, fun _ => rfl, rfl, rfl, ?_, rfl⟩
    intro j hj
    simp [List.getElem?_set, Ne.symm hj]

/-- C5 on the scenario block: an `ACTIVE` element and a never-written element
both end `MISSING`; only the first changes the count. -/
theorem obs_block_iset_missing_spec_witness :
    (2 < wopr_block.size ∧ wopr_block.shaped ∧ wopr_block.active_mode[2]? = some ACTIVE ∧
      (obs_block_iset_missing wopr_block 2).active_mode[2]? = some MISSING ∧
      (obs_block_iset_missing wopr_block 2).active_size = wopr_block.active_size - 1) ∧
    (2 < wopr_empty.size ∧ wopr_empty.shaped ∧ wopr_empty.active_mode[2]? ≠ some ACTIVE ∧
      (obs_block_iset_missing wopr_empty 2).active_mode[2]? = some MISSING ∧
      (obs_block_iset_missing wopr_empty 2).active_size = wopr_empty.active_size) :=
  have h0 : wopr_empty.shaped := ⟨rfl, rfl, rfl⟩
  have h1 : wopr_block.shaped := ⟨rfl, rfl, rfl⟩
  have a0 : wopr_empty.active_mode[2]? ≠ some ACTIVE := by decide
  have a1 : wopr_block.active_mode[2]? = some ACTIVE := by decide
  ⟨⟨by decide, h1, a1,
      (obs_block_iset_missing_spec wopr_block 2 (by decide) h1).1,
      (obs_block_iset_missing_spec wopr_block 2 (by decide) h1).2.1 a1⟩,
   ⟨by decide, h0, a0,
      (obs_block_iset_missing_spec wopr_empty 2 (by decide) h0).1,
      (obs_block_iset_missing_spec wopr_empty 2 (by decide) h0).2.2.1 a0⟩⟩

end block_claims

/-! ## Data set contracts -/

section data_claims
variable {α : Type}

/-- C2: for every data set, before and after any sequence of calls on it and
on its blocks, `obs_data_get_total_size` returns the sum of the blocks' `size`
fields and `obs_data_get_active_size` returns the sum of the blocks'
`active_size` fields. -/
theorem obs_data_sizes_are_sums [Zero α] (d : obs_data α) (calls : List (obs_data_call α)) :
    (obs_data_get_total_size d = (d.data.map obs_block.size).sum ∧
      obs_data_get_active_size d = (d.data.map obs_block.active_size).sum) ∧
    (obs_data_get_total_size (obs_data_run d calls) =
        ((obs_data_run d calls).data.map obs_block.size).sum ∧
      obs_data_get_active_size (obs_data_run d calls) =
        ((obs_data_run d calls).data.map obs_block.active_size).sum) :=
  ⟨⟨obs_data_get_total_size_eq d, obs_data_get_active_size_eq d⟩,
   ⟨obs_data_get_total_size_eq _, obs_data_get_active_size_eq _⟩⟩

/-- C6: for a total index `t` below the total size, `obs_data_lookup_block`
returns the block `b` at a position `k` of the block vector and the offset `o`
with `o` the sum of the sizes of the blocks before `b` and `o ≤ t < o + size b`;
the scan ends at position `k` below the number of blocks and does not reach the
index abort of the vector, whatever the sizes of the blocks (zero included). -/
theorem obs_data_lookup_block_spec (d : obs_data α) (t : Nat)
    (h : t < obs_data_get_total_size d) :
    ∃ k b, k < obs_data_get_num_blocks d ∧ d.data[k]? = some b ∧
      lookup_scan t d.data 0 0 = .ok (k, b, d.offset_of k) ∧
      obs_data_lookup_block d t = .ok (b, d.offset_of k) ∧
      d.offset_of k ≤ t ∧ t < d.offset_of k + b.size := by
  rw [obs_data_get_total_size_eq] at h
  obtain ⟨k, b, hk, hlo, hhi⟩ := exists_block_of_lt d.data t h
  have hat := obs_data_lookup_block_at d t k b hk hlo hhi
  exact ⟨k, b, getElem?_lt_length hk, hk, hat.1, hat.2, hlo, hhi⟩

/-- C6 on the scenario with blocks of size 2 and 3: total index 4 resolves to
the second block with offset 2, that is local index 2; a block of size 0 in
front changes neither the block found nor its local index. -/
theorem obs_data_lookup_block_spec_witness :
    (4 < obs_data_get_total_size two_blocks ∧
      ∃ k b, k < obs_data_get_num_blocks two_blocks ∧ two_blocks.data[k]? = some b ∧
        lookup_scan 4 two_blocks.data 0 0 = .ok (k, b, two_blocks.offset_of k) ∧
        obs_data_lookup_block two_blocks 4 = .ok (b, two_blocks.offset_of k) ∧
        two_blocks.offset_of k ≤ 4 ∧ 4 < two_blocks.offset_of k + b.size) ∧
    (lookup_scan 4 two_blocks.data 0 0).map (fun r => (r.1, r.2.1.obs_key, r.2.2, 4 - r.2.2))
      = .ok (1, "B", 2, 2) ∧
    (lookup_scan 4 (obs_block_alloc "Z" 0 none false 1 :: two_blocks.data) 0 0).map
      (fun r => (r.1, r.2.1.obs_key, r.2.2, 4 - r.2.2)) = .ok (2, "B", 2, 2) :=
  ⟨⟨by decide, obs_data_lookup_block_spec two_blocks 4 (by decide)⟩, rfl, rfl⟩

/-- On the indices that are not negative `obs_data_lookup_block`,
`obs_data_iget_value` and `obs_data_iget_std` fail, and fail with the abort of
the lookup, if and only if the total index is not below the total size; on a
data set without blocks they fail for every such index. -/
theorem lookup_fails_iff_nat [Zero α] [Mul α] (d : obs_data α) (t : Nat) :
    (obs_data_lookup_block d t = .error .lookup_abort ↔ obs_data_get_total_size d ≤ t) ∧
    ((∃ e, obs_data_lookup_block d t = .error e) ↔ obs_data_get_total_size d ≤ t) ∧
    (obs_data_iget_value d t = .error .lookup_abort ↔ obs_data_get_total_size d ≤ t) ∧
    ((∃ e, obs_data_iget_value d t = .error e) ↔ obs_data_get_total_size d ≤ t) ∧
    (obs_data_iget_std d t = .error .lookup_abort ↔ obs_data_get_total_size d ≤ t) ∧
    ((∃ e, obs_data_iget_std d t = .error e) ↔ obs_data_get_total_size d ≤ t) ∧
    obs_data_lookup_block (obs_data_reset d) t = .error .lookup_abort ∧
    obs_data_iget_value (obs_data_reset d) t = .error .lookup_abort ∧
    obs_data_iget_std (obs_data_reset d) t = .error .lookup_abort := by
  have hempty : obs_data_lookup_block (obs_data_reset d) t = .error .lookup_abort := by
    simp [obs_data_lookup_block, obs_data_reset, obs_data_get_total_size]
  by_cases h : t < obs_data_get_total_size d
  · obtain ⟨k, b, -, -, -, hl, -, -⟩ := lookup_block_of_lt d t h
    have hn : ¬ obs_data_get_total_size d ≤ t := Nat.not_le.mpr h
    simp [obs_data_iget_value, obs_data_iget_std, hl, hn, hempty]
  · have hl : obs_data_lookup_block d t = .error .lookup_abort := by
      simp [obs_data_lookup_block, h]
    have hn : obs_data_get_total_size d ≤ t := Nat.le_of_not_lt h
    simp [obs_data_iget_value, obs_data_iget_std, hl, hn, hempty]

/-- C8, as the code has it: after `obs_block_iset b i v s` on block `b` of a
data set, the queries at total index (sum of the sizes of the blocks before
`b`) `+ i` return `v` for the value and `s` times the block's
`global_std_scaling` for the std. -/
theorem obs_data_iset_then_iget [Zero α] [Mul α] (d : obs_data α) (k : Nat)
    (b : obs_block α) (i : Nat) (v s : α) (hk : d.data[k]? = some b) (hi : i < b.size)
    (hs : b.shaped) :
    obs_data_iget_value (obs_data_on_block d k (.iset i v s)) (d.offset_of k + i) = .ok v ∧
    obs_data_iget_std (obs_data_on_block d k (.iset i v s)) (d.offset_of k + i) =
      .ok (s * b.global_std_scaling) := by
  obtain ⟨-, hk2, hoff, -⟩ := obs_data_on_block_data d k b (.iset i v s) hk
  obtain ⟨hv, hsd, hsize⟩ := obs_block_iset_get b i v s hi hs
  have hg : (obs_block_iset b i v s).global_std_scaling = b.global_std_scaling :=
    block_op_run_scaling b (.iset i v s)
  have hl := (obs_data_lookup_block_at (obs_data_on_block d k (.iset i v s))
    (d.offset_of k + i) k _ hk2 (by rw [hoff]; omega)
    (by rw [hoff]; simp only [block_op.run, hsize]; omega)).2
  rw [hoff] at hl
  simp only [block_op.run] at hl
  simp [obs_data_iget_value, obs_data_iget_std, hl, obs_block_iget_value,
    obs_block_iget_std, List.getD_eq_getElem?_getD, hv, hsd, hg]

/-- The amended C8 on a data set with scaling 2: after writing value 10 and
std 3 the queries return 10 and 6. -/
theorem obs_data_iset_then_iget_witness :
    (obs_data_add_block (obs_data_alloc (2 : Int)) "WOPR" 1 none false).data[0]? =
      some (obs_block_alloc "WOPR" 1 none false 2) ∧
    0 < (obs_block_alloc "WOPR" 1 none false (2 : Int)).size ∧
    (obs_block_alloc "WOPR" 1 none false (2 : Int)).shaped ∧
    obs_data_iget_value scaled_data 0 = .ok 10 ∧
    obs_data_iget_std scaled_data 0 = .ok 6 :=
  ⟨rfl, by decide, ⟨rfl, rfl, rfl⟩,
    (obs_data_iset_then_iget
      (obs_data_add_block (obs_data_alloc (2 : Int)) "WOPR" 1 none false) 0
      (obs_block_alloc "WOPR" 1 none false 2) 0 10 3 rfl (by decide) ⟨rfl, rfl, rfl⟩).1,
    (obs_data_iset_then_iget
      (obs_data_add_block (obs_data_alloc (2 : Int)) "WOPR" 1 none false) 0
      (obs_block_alloc "WOPR" 1 none false 2) 0 10 3 rfl (by decide) ⟨rfl, rfl, rfl⟩).2⟩

/-- C8 as stated fails: on a data set with scaling 2, `obs_data_iget_std`
after writing std 3 returns 6, not 3. -/
theorem obs_data_iget_std_not_written_std :
    ¬ (∀ (d : obs_data Int) (k : Nat) (b : obs_block Int) (i : Nat) (v s : Int),
        d.data[k]? = some b → i < b.size → b.shaped →
        obs_data_iget_value (obs_data_on_block d k (.iset i v s)) (d.offset_of k + i) = .ok v ∧
        obs_data_iget_std (obs_data_on_block d k (.iset i v s)) (d.offset_of k + i) = .ok s) := by
  intro h
  have h2 := (h (obs_data_add_block (obs_data_alloc (2 : Int)) "WOPR" 1 none false) 0
    (obs_block_alloc "WOPR" 1 none false 2) 0 10 3 rfl (by decide) ⟨rfl, rfl, rfl⟩).2
  have h6 : obs_data_iget_std (obs_data_on_block
      (obs_data_add_block (obs_data_alloc (2 : Int)) "WOPR" 1 none false) 0 (.iset 0 10 3))
      ((obs_data_add_block (obs_data_alloc (2 : Int)) "WOPR" 1 none false).offset_of 0 + 0)
      = .ok 6 := rfl
  rw [h6] at h2
  exact absurd h2 (by simp)

/-- C9: in a data set created by `obs_data_alloc g` and changed through any
sequence of calls, every total index `t` below the total size resolves to a
block `b` carrying the scaling `g` and a local index `i = t - o`, and
`obs_data_iget_std t` is `std_b[i] * g` while `obs_data_iget_value t` is
`value_b[i]`, unscaled. -/
theorem obs_data_iget_std_scaled [Zero α] [Mul α] (g : α) (calls : List (obs_data_call α))
    (t : Nat) (h : t < obs_data_get_total_size (obs_data_run (obs_data_alloc g) calls)) :
    ∃ k b, (obs_data_run (obs_data_alloc g) calls).data[k]? = some b ∧
      obs_data_lookup_block (obs_data_run (obs_data_alloc g) calls) t =
        .ok (b, (obs_data_run (obs_data_alloc g) calls).offset_of k) ∧
      b.global_std_scaling = g ∧
      obs_data_iget_std (obs_data_run (obs_data_alloc g) calls) t =
        .ok (b.std.getD (t - (obs_data_run (obs_data_alloc g) calls).offset_of k) 0 * g) ∧
      obs_data_iget_value (obs_data_run (obs_data_alloc g) calls) t =
        .ok (b.value.getD (t - (obs_data_run (obs_data_alloc g) calls).offset_of k) 0) := by
  have hinit : (obs_data_alloc g).scaling_inherited := by
    intro b hb
    simp [obs_data_alloc, obs_data_reset] at hb
  obtain ⟨hinv, hg⟩ := obs_data_run_scaling (obs_data_alloc g) calls hinit
  obtain ⟨k, b, -, hk, -, hl, -, -⟩ :=
    lookup_block_of_lt (obs_data_run (obs_data_alloc g) calls) t h
  have hbg : b.global_std_scaling = g := by
    rw [hinv b (mem_of_getElem?_some hk), hg]
    rfl
  refine ⟨k, b, hk, hl, hbg, ?_, ?_⟩
  · simp [obs_data_iget_std, hl, obs_block_iget_std, hbg]
  · simp [obs_data_iget_value, hl, obs_block_iget_value]

/-- C9 on the scenario data set with scaling 2, one element with value 10 and
std 3: the std query returns `3 * 2`, the value query 10. -/
theorem obs_data_iget_std_scaled_witness :
    0 < obs_data_get_total_size (obs_data_run (obs_data_alloc (2 : Int)) scaled_calls) ∧
    (∃ (k : Nat) (b : obs_block Int),
      (obs_data_run (obs_data_alloc (2 : Int)) scaled_calls).data[k]? = some b ∧
      b.global_std_scaling = 2) ∧
    obs_data_iget_std (obs_data_run (obs_data_alloc (2 : Int)) scaled_calls) 0 = .ok (3 * 2) ∧
    obs_data_iget_value (obs_data_run (obs_data_alloc (2 : Int)) scaled_calls) 0 = .ok 10 :=
  ⟨by decide,
    by
      obtain ⟨k, b, hk, -, hg, -, -⟩ :=
        obs_data_iget_std_scaled (2 : Int) scaled_calls 0 (by decide)
      exact ⟨k, b, hk, hg⟩,
    rfl, rfl⟩

end data_claims

/-! ## The active mask -/

section mask_lemmas
variable {α : Type}

theorem bool_vector_resize_length (v : List Bool) (n : Nat) (x : Bool) :
    (bool_vector_resize v n x).length = n := by
  simp only [bool_vector_resize, List.length_append, List.length_take, List.length_replicate]
  omega

theorem bool_vector_iset_of_lt (v : List Bool) (i : Nat) (x : Bool) (h : i < v.length) :
    (bool_vector_iset v i x).length = v.length ∧
    ∀ j, (bool_vector_iset v i x)[j]? = if j = i then some x else v[j]? := by
  simp only [bool_vector_iset, h, if_true, List.length_set, true_and]
  intro j
  by_cases hj : j = i
  · subst hj; simp [h]
  · simp [List.getElem?_set, hj, Ne.symm hj]

/-- The block loop writes the positions `offset .. offset + n - 1` and no
other. -/
theorem set_active_mask_loop (b : obs_block α) (mask : List Bool) (offset n : Nat)
    (h : offset + n ≤ mask.length) :
    (for_range n
      (fun i (st : List Bool × Nat) =>
        if b.active_mode[i]? = some ACTIVE then (bool_vector_iset st.1 st.2 true, st.2 + 1)
        else (bool_vector_iset st.1 st.2 false, st.2 + 1))
      (mask, offset)).2 = offset + n ∧
    (for_range n
      (fun i (st : List Bool × Nat) =>
        if b.active_mode[i]? = some ACTIVE then (bool_vector_iset st.1 st.2 true, st.2 + 1)
        else (bool_vector_iset st.1 st.2 false, st.2 + 1))
      (mask, offset)).1.length = mask.length ∧
    ∀ j, (for_range n
      (fun i (st : List Bool × Nat) =>
        if b.active_mode[i]? = some ACTIVE then (bool_vector_iset st.1 st.2 true, st.2 + 1)
        else (bool_vector_iset st.1 st.2 false, st.2 + 1))
      (mask, offset)).1[j]? =
      if offset ≤ j ∧ j < offset + n then
        some (decide (b.active_mode[j - offset]? = some ACTIVE))
      else mask[j]? := by
  induction n with
  | zero =>
    refine ⟨rfl, rfl, ?_⟩
    intro j
    have : ¬ (offset ≤ j ∧ j < offset + 0) := by omega
    rw [if_neg this]
    rfl
  | succ m ih =>
    obtain ⟨h2, hlen, hget⟩ := ih (by omega)
    simp only [for_range]
    generalize for_range m _ (mask, offset) = st at h2 hlen hget
    obtain ⟨st1, st2⟩ := st
    simp only at h2 hlen hget
    subst h2
    have hlt : offset + m < st1.length := by omega
    by_cases ha : b.active_mode[m]? = some ACTIVE
    · obtain ⟨hl, hg⟩ := bool_vector_iset_of_lt st1 (offset + m) true hlt
      simp only [ha, if_true]
      refine ⟨by omega, by rw [hl, hlen], ?_⟩
      intro j
      rw [hg j, hget j]
      by_cases hj : j = offset + m
      · subst hj
        have : offset ≤ offset + m ∧ offset + m < offset + (m + 1) := by omega
        simp [this, ha]
      · by_cases hr : offset ≤ j ∧ j < offset + m
        · have : offset ≤ j ∧ j < offset + (m + 1) := by omega
          simp [hj, hr, this]
        · have : ¬ (offset ≤ j ∧ j < offset + (m + 1)) := by omega
          simp [hj, hr, this]
    · obtain ⟨hl, hg⟩ := bool_vector_iset_of_lt st1 (offset + m) false hlt
      simp only [ha, if_false]
      refine ⟨by omega, by rw [hl, hlen], ?_⟩
      intro j
      rw [hg j, hget j]
      by_cases hj : j = offset + m
      · subst hj
        have : offset ≤ offset + m ∧ offset + m < offset + (m + 1) := by omega
        simp [this, ha]
      · by_cases hr : offset ≤ j ∧ j < offset + m
        · have : offset ≤ j ∧ j < offset + (m + 1) := by omega
          simp [hj, hr, this]
        · have : ¬ (offset ≤ j ∧ j < offset + (m + 1)) := by omega
          simp [hj, hr, this]

theorem obs_block_set_active_mask_spec (b : obs_block α) (mask : List Bool) (offset : Nat)
    (h : offset + b.size ≤ mask.length) :
    (obs_block_set_active_mask b mask offset).2 = offset + b.size ∧
    (obs_block_set_active_mask b mask offset).1.length = mask.length ∧
    ∀ j, (obs_block_set_active_mask b mask offset).1[j]? =
      if offset ≤ j ∧ j < offset + b.size then
        some (decide (b.active_mode[j - offset]? = some ACTIVE))
      else mask[j]? :=
  set_active_mask_loop b mask offset b.size h

/-- The loop over the blocks writes, for block `k` and local index `i`, the
position (running offset) + (sizes of the blocks before `k`) + `i`. -/
theorem active_mask_fold (l : List (obs_block α)) (mask : List Bool) (offset : Nat)
    (h : offset + (l.map obs_block.size).sum ≤ mask.length) :
    (l.foldl (fun st b => obs_block_set_active_mask b st.1 st.2) (mask, offset)).1.length
      = mask.length ∧
    (∀ j, j < offset →
      (l.foldl (fun st b => obs_block_set_active_mask b st.1 st.2) (mask, offset)).1[j]?
        = mask[j]?) ∧
    ∀ k b i, l[k]? = some b → i < b.size →
      (l.foldl (fun st b => obs_block_set_active_mask b st.1 st.2) (mask, offset)).1[
        offset + ((l.take k).map obs_block.size).sum + i]?
        = some (decide (b.active_mode[i]? = some ACTIVE)) := by
  induction l generalizing mask offset with
  | nil =>
    refine ⟨rfl, fun _ _ => rfl, ?_⟩
    intro k b i hk
    simp at hk
  | cons a rest ih =>
    simp only [List.map_cons, List.sum_cons] at h
    obtain ⟨h2, hlen, hget⟩ := obs_block_set_active_mask_spec a mask offset (by omega)
    simp only [List.foldl_cons]
    generalize obs_block_set_active_mask a mask offset = st at h2 hlen hget
    obtain ⟨st1, st2⟩ := st
    simp only at h2 hlen hget
    subst h2
    obtain ⟨ihlen, ihlow, ihget⟩ := ih st1 (offset + a.size) (by rw [hlen]; omega)
    refine ⟨by rw [ihlen, hlen], ?_, ?_⟩
    · intro j hj
      rw [ihlow j (by omega), hget j]
      have : ¬ (offset ≤ j ∧ j < offset + a.size) := by omega
      simp [this]
    · intro k b i hk hi
      cases k with
      | zero =>
        simp only [List.getElem?_cons_zero, Option.some.injEq] at hk
        subst hk
        simp only [List.take_zero, List.map_nil, List.sum_nil, Nat.add_zero]
        rw [ihlow (offset + i) (by omega), hget (offset + i)]
        have : offset ≤ offset + i ∧ offset + i < offset + a.size := by omega
        simp [this]
      | succ m =>
        simp only [List.getElem?_cons_succ] at hk
        simp only [List.take_succ_cons, List.map_cons, List.sum_cons]
        have := ihget m b i hk hi
        rw [← this]
        congr 1
        omega

end mask_lemmas

section mask_claims
variable {α : Type}

/-- C10: `obs_data_get_active_mask` returns a vector of length the total size
in which entry `t` is true if and only if the element at total index `t` (the
block and local index `obs_data_lookup_block` resolves `t` to) has state
`ACTIVE`, whatever the mask buffer held before. -/
theorem obs_data_get_active_mask_spec (d : obs_data α) :
    (obs_data_get_active_mask d).length = obs_data_get_total_size d ∧
    ∀ t, t < obs_data_get_total_size d →
      ∃ b o, obs_data_lookup_block d t = .ok (b, o) ∧
        ((obs_data_get_active_mask d)[t]? = some true ↔
          b.active_mode[t - o]? = some ACTIVE) ∧
        ((obs_data_get_active_mask d)[t]? = some false ↔
          b.active_mode[t - o]? ≠ some ACTIVE) := by
  have hlen0 := bool_vector_resize_length d.mask (obs_data_get_total_size d) false
  obtain ⟨hlen, -, hget⟩ := active_mask_fold d.data
    (bool_vector_resize d.mask (obs_data_get_total_size d) false) 0
    (by rw [hlen0, obs_data_get_total_size_eq]; omega)
  refine ⟨by simp only [obs_data_get_active_mask]; rw [hlen, hlen0], ?_⟩
  intro t ht
  obtain ⟨k, b, -, hk, -, hl, hlo, hhi⟩ := lookup_block_of_lt d t ht
  refine ⟨b, d.offset_of k, hl, ?_⟩
  have hentry := hget k b (t - d.offset_of k) hk (by omega)
  have hidx : 0 + ((d.data.take k).map obs_block.size).sum + (t - d.offset_of k) = t := by
    unfold obs_data.offset_of at hlo ⊢
    omega
  rw [hidx] at hentry
  simp only [obs_data_get_active_mask]
  rw [hentry]
  by_cases ha : b.active_mode[t - d.offset_of k]? = some ACTIVE
  · simp [ha]
  · simp [ha]

/-- C10 on the scenario: one block `"WOPR"` of size 3 with all values set and
index 1 deactivated gives active size 2 and mask `[true, false, true]`, also
when the buffer held five stale entries. -/
theorem obs_data_get_active_mask_spec_witness :
    (1 < obs_data_get_total_size wopr_data ∧
      ∃ b o, obs_data_lookup_block wopr_data 1 = .ok (b, o) ∧
        ((obs_data_get_active_mask wopr_data)[1]? = some true ↔
          b.active_mode[1 - o]? = some ACTIVE) ∧
        ((obs_data_get_active_mask wopr_data)[1]? = some false ↔
          b.active_mode[1 - o]? ≠ some ACTIVE)) ∧
    obs_data_get_total_size wopr_data = 3 ∧
    obs_data_get_active_size wopr_data = 2 ∧
    obs_data_get_active_mask wopr_data = [true, false, true] ∧
    obs_data_get_active_mask { wopr_data with mask := [true, true, true, true, true] }
      = [true, false, true] :=
  ⟨⟨by decide, (obs_data_get_active_mask_spec wopr_data).2 1 (by decide)⟩,
    by decide, by decide, by decide, by decide⟩

end mask_claims

/-! ## Loops over the active elements -/

section scan_lemmas
variable {α σ β : Type}

theorem for_range_induction (I : Nat → σ → Prop) (n : Nat) (body : Nat → σ → σ) (init : σ)
    (h0 : I 0 init) (hstep : ∀ k, k < n → ∀ s, I k s → I (k + 1) (body k s)) :
    I n (for_range n body init) := by
  induction n with
  | zero => exact h0
  | succ m ih =>
    exact hstep m (Nat.lt_succ_self m) _
      (ih (fun k hk s hs => hstep k (Nat.lt_succ_of_lt hk) s hs))

theorem active_upto_succ (b : obs_block α) (n : Nat) :
    b.active_upto (n + 1) =
      b.active_upto n ++ (if b.active_mode[n]? = some ACTIVE then [n] else []) := by
  unfold obs_block.active_upto
  rw [List.range_succ, List.filter_append]
  by_cases h : b.active_mode[n]? = some ACTIVE
  · simp [h]
  · simp [h]

theorem active_upto_size (b : obs_block α) : b.active_upto b.size = b.active_indices := rfl

/-- The loop shape shared by the block routines: for every `ACTIVE` local
index, in increasing order, `w` works on the row at the running offset and the
offset advances by one. `obs s r` is what is observed of row `r`. -/
theorem block_scan_spec (b : obs_block α) (w : Nat → Nat → σ → σ) (obs : σ → Nat → β)
    (F : Nat → Nat → β → β) (Inv : σ → Prop) (s : σ) (off n : Nat)
    (hInv : ∀ i r s, Inv s → Inv (w i r s))
    (hw : ∀ q a, (b.active_upto n)[q]? = some a → ∀ s r, Inv s →
      obs (w a (off + q) s) r =
        if r = off + q then F a (off + q) (obs s (off + q)) else obs s r)
    (hs : Inv s) :
    (for_range n (fun i st =>
        if b.active_mode[i]? = some ACTIVE then (w i st.2 st.1, st.2 + 1) else st)
      (s, off)).2 = off + (b.active_upto n).length ∧
    Inv (for_range n (fun i st =>
        if b.active_mode[i]? = some ACTIVE then (w i st.2 st.1, st.2 + 1) else st)
      (s, off)).1 ∧
    (∀ q a, (b.active_upto n)[q]? = some a →
      obs (for_range n (fun i st =>
          if b.active_mode[i]? = some ACTIVE then (w i st.2 st.1, st.2 + 1) else st)
        (s, off)).1 (off + q) = F a (off + q) (obs s (off + q))) ∧
    (∀ r, (r < off ∨ off + (b.active_upto n).length ≤ r) →
      obs (for_range n (fun i st =>
          if b.active_mode[i]? = some ACTIVE then (w i st.2 st.1, st.2 + 1) else st)
        (s, off)).1 r = obs s r) := by
  induction n with
  | zero =>
    refine ⟨rfl, hs, ?_, fun _ _ => rfl⟩
    intro q a hq
    simp [obs_block.active_upto] at hq
  | succ m ih =>
    have hsucc := active_upto_succ b m
    have hw_m : ∀ q a, (b.active_upto m)[q]? = some a → ∀ s r, Inv s →
        obs (w a (off + q) s) r =
          if r = off + q then F a (off + q) (obs s (off + q)) else obs s r := by
      intro q a hq
      apply hw q a
      rw [hsucc, List.getElem?_append_left (getElem?_lt_length hq)]
      exact hq
    obtain ⟨h2, hI, hrow, hframe⟩ := ih hw_m
    simp only [for_range]
    generalize for_range m _ (s, off) = st at h2 hI hrow hframe
    obtain ⟨s1, off1⟩ := st
    simp only at h2 hI hrow hframe
    subst h2
    by_cases ha : b.active_mode[m]? = some ACTIVE
    · rw [if_pos ha] at hsucc
      have hlast : (b.active_upto (m + 1))[(b.active_upto m).length]? = some m := by
        rw [hsucc, List.getElem?_append_right (Nat.le_refl _)]
        simp
      have hwl := hw _ m hlast
      simp only [if_pos ha]
      refine ⟨?_, hInv _ _ _ hI, ?_, ?_⟩
      · rw [hsucc]; simp; omega
      · intro q a hq
        rw [hwl s1 (off + q) hI]
        by_cases hql : q < (b.active_upto m).length
        · have hne : off + q ≠ off + (b.active_upto m).length := by omega
          rw [if_neg hne]
          apply hrow q a
          rw [hsucc, List.getElem?_append_left hql] at hq
          exact hq
        · have hqe : q = (b.active_upto m).length := by
            have := getElem?_lt_length hq
            rw [hsucc] at this
            simp at this
            omega
          subst hqe
          rw [hlast, Option.some.injEq] at hq
          subst hq
          rw [if_pos rfl, hframe _ (Or.inr (Nat.le_refl _))]
      · intro r hr
        rw [hsucc] at hr
        simp only [List.length_append, List.length_singleton] at hr
        rw [hwl s1 r hI, if_neg (by omega)]
        exact hframe r (by omega)
    · rw [if_neg ha, List.append_nil] at hsucc
      simp only [if_neg ha]
      rw [hsucc]
      exact ⟨rfl, hI, hrow, hframe⟩

theorem active_rows_from_length (l : List (obs_block α)) (off : Nat) :
    (active_rows_from l off).length = (l.map (fun b => b.active_indices.length)).sum := by
  induction l generalizing off with
  | nil => rfl
  | cons b rest ih => simp [active_rows_from, ih]

/-- The loop over the blocks: when every block routine works on the rows of
its own `ACTIVE` elements, counted from the running offset, the loop works on
row `k` for the `k`-th `ACTIVE` element of the data set. -/
theorem data_scan_spec (step : obs_block α → σ × Nat → σ × Nat) (obs : σ → Nat → β)
    (F : obs_block α → Nat → Nat → Nat → β → β) (Inv : σ → Prop) (l : List (obs_block α))
    (hstep : ∀ b ∈ l, ∀ s off, Inv s →
      (step b (s, off)).2 = off + b.active_indices.length ∧
      Inv (step b (s, off)).1 ∧
      (∀ q a, b.active_indices[q]? = some a →
        obs (step b (s, off)).1 (off + q) = F b off a (off + q) (obs s (off + q))) ∧
      (∀ r, (r < off ∨ off + b.active_indices.length ≤ r) →
        obs (step b (s, off)).1 r = obs s r))
    (s : σ) (off : Nat) (hs : Inv s) :
    (l.foldl (fun st b => step b st) (s, off)).2 = off + (active_rows_from l off).length ∧
    Inv (l.foldl (fun st b => step b st) (s, off)).1 ∧
    (∀ q b o a, (active_rows_from l off)[q]? = some (b, o, a) →
      obs (l.foldl (fun st b => step b st) (s, off)).1 (off + q) =
        F b o a (off + q) (obs s (off + q))) ∧
    (∀ r, (r < off ∨ off + (active_rows_from l off).length ≤ r) →
      obs (l.foldl (fun st b => step b st) (s, off)).1 r = obs s r) := by
  induction l generalizing s off with
  | nil =>
    refine ⟨rfl, hs, ?_, fun _ _ => rfl⟩
    intro q b o a hq
    simp [active_rows_from] at hq
  | cons b rest ih =>
    obtain ⟨h2, hI, hrow, hframe⟩ := hstep b (List.mem_cons_self _ _) s off hs
    simp only [List.foldl_cons]
    generalize step b (s, off) = st at h2 hI hrow hframe
    obtain ⟨s1, off1⟩ := st
    simp only at h2 hI hrow hframe
    subst h2
    obtain ⟨i2, iI, irow, iframe⟩ :=
      ih (fun b' hb' => hstep b' (List.mem_cons_of_mem _ hb')) s1
        (off + b.active_indices.length) hI
    have hlen : (active_rows_from (b :: rest) off).length =
        b.active_indices.length +
          (active_rows_from rest (off + b.active_indices.length)).length := by
      simp [active_rows_from]
    refine ⟨by rw [i2, hlen]; omega, iI, ?_, ?_⟩
    · intro q b' o a hq
      by_cases hql : q < b.active_indices.length
      · rw [active_rows_from, List.getElem?_append_left (by simpa using hql)] at hq
        rw [List.getElem?_map] at hq
        cases hget : b.active_indices[q]? with
        | none => rw [hget] at hq; simp at hq
        | some a0 =>
          rw [hget] at hq
          simp only [Option.map_some', Option.some.injEq, Prod.mk.injEq] at hq
          obtain ⟨hb, ho, ha⟩ := hq
          subst hb; subst ho; subst ha
          rw [iframe (off + q) (Or.inl (by omega))]
          exact hrow q a0 hget
      · rw [active_rows_from, List.getElem?_append_right (by simpa using Nat.le_of_not_lt hql)]
          at hq
        simp only [List.length_map] at hq
        have := irow (q - b.active_indices.length) b' o a hq
        have hidx : off + b.active_indices.length + (q - b.active_indices.length) = off + q := by
          omega
        rw [hidx] at this
        rw [this, hframe (off + q) (Or.inr (by omega))]
    · intro r hr
      rw [hlen] at hr
      rw [iframe r (by omega)]
      exact hframe r (by omega)

end scan_lemmas

/-! ## Matrix lemmas -/

section matrix_lemmas
variable {α : Type}

/-- A loop over the columns `0 .. m - 1` of one row that replaces each entry
by a function of the column and the old entry. -/
theorem row_loop_spec (g : Nat → α → α) (row m : Nat) (M : matrix α) :
    (for_range m (fun c M1 => matrix_iset M1 row c (g c (M1.data row c))) M).rows = M.rows ∧
    (for_range m (fun c M1 => matrix_iset M1 row c (g c (M1.data row c))) M).columns
      = M.columns ∧
    ∀ r c, (for_range m (fun c M1 => matrix_iset M1 row c (g c (M1.data row c))) M).data r c
      = if r = row ∧ c < m then g c (M.data r c) else M.data r c := by
  induction m with
  | zero =>
    refine ⟨rfl, rfl, ?_⟩
    intro r c
    simp [for_range]
  | succ k ih =>
    obtain ⟨hr, hc, hd⟩ := ih
    simp only [for_range]
    generalize for_range k _ M = M1 at hr hc hd
    refine ⟨hr, hc, ?_⟩
    intro r c
    simp only [matrix_iset]
    by_cases h1 : r = row ∧ c = k
    · obtain ⟨h1r, h1c⟩ := h1
      subst h1r; subst h1c
      have := hd r c
      simp only [Nat.lt_irrefl, and_false, if_false] at this
      simp [this]
    · rw [if_neg h1, hd r c]
      by_cases h2 : r = row ∧ c < k
      · have : r = row ∧ c < k + 1 := ⟨h2.1, by omega⟩
        rw [if_pos h2, if_pos this]
      · have : ¬ (r = row ∧ c < k + 1) := by
          intro h3
          rcases Nat.lt_succ_iff_lt_or_eq.mp h3.2 with h4 | h4
          · exact h2 ⟨h3.1, h4⟩
          · exact h1 ⟨h3.1, h4⟩
        rw [if_neg h2, if_neg this]

theorem active_size_eq_indices_length {b : obs_block α} (h : b.wf) :
    b.active_size = (b.active_indices.length : Int) := by
  rw [active_indices_length h.1.2.2]
  exact h.2

theorem obs_data_active_size_eq_rows {d : obs_data α} (h : d.wf) :
    obs_data_get_active_size d = (d.active_rows.length : Int) := by
  rw [obs_data_get_active_size_eq, obs_data.active_rows, active_rows_from_length]
  unfold obs_data.wf at h
  generalize d.data = l at h
  induction l with
  | nil => rfl
  | cons b rest ih =>
    simp only [List.map_cons, List.sum_cons, Nat.cast_add]
    rw [ih (fun b' hb' => h b' (List.mem_cons_of_mem _ hb')),
      active_size_eq_indices_length (h b (List.mem_cons_self _ _))]

theorem obs_data_active_size_toNat {d : obs_data α} (h : d.wf) :
    (obs_data_get_active_size d).toNat = d.active_rows.length := by
  rw [obs_data_active_size_eq_rows h]
  exact Int.toNat_natCast _

theorem active_rows_get_of_lt {d : obs_data α} (h : d.wf) {r : Nat}
    (hr : (r : Int) < obs_data_get_active_size d) :
    ∃ b o a, d.active_rows[r]? = some (b, o, a) := by
  rw [obs_data_active_size_eq_rows h] at hr
  have hlt : r < d.active_rows.length := by exact_mod_cast hr
  exact ⟨_, _, _, List.getElem?_eq_getElem hlt⟩

end matrix_lemmas

/-! ## The innovation matrix -/

section allocD_claims
variable {α : Type}

theorem obs_block_initD_spec [Zero α] [Add α] (nc : Nat) (b : obs_block α) (D : matrix α)
    (off : Nat) (hD : D.columns = nc) :
    (obs_block_initD b D off).2 = off + b.active_indices.length ∧
    (obs_block_initD b D off).1.columns = nc ∧
    (∀ q a, b.active_indices[q]? = some a →
      (fun c => (obs_block_initD b D off).1.data (off + q) c) =
        (fun c => if c < nc then D.data (off + q) c + b.value.getD a 0
          else D.data (off + q) c)) ∧
    (∀ r, (r < off ∨ off + b.active_indices.length ≤ r) →
      (fun c => (obs_block_initD b D off).1.data r c) = (fun c => D.data r c)) := by
  have key := block_scan_spec b
    (fun i r (M : matrix α) =>
      for_range nc (fun iens D1 => matrix_iadd D1 r iens (b.value.getD i 0)) M)
    (fun (M : matrix α) r => fun c => M.data r c)
    (fun a _ old => fun c => if c < nc then old c + b.value.getD a 0 else old c)
    (fun M => M.columns = nc) D off b.size
    (by
      intro i r s hs
      exact ((row_loop_spec (fun _ x => x + b.value.getD i 0) r nc s).2.1).trans hs)
    (by
      intro q a _ s r _
      funext c
      have := (row_loop_spec (fun _ x => x + b.value.getD a 0) (off + q) nc s).2.2 r c
      simp only [matrix_iadd, matrix_iget]
      rw [this]
      by_cases hr : r = off + q
      · subst hr
        by_cases hc : c < nc
        · simp [hc]
        · simp [hc]
      · simp [hr])
    hD
  subst hD
  exact key

theorem obs_data_allocD_rows [Zero α] [Add α] [Sub α] (d : obs_data α) (E S : matrix α) :
    (obs_data_allocD d E S).columns = E.columns ∧
    (∀ q b o a, d.active_rows[q]? = some (b, o, a) →
      ∀ c, c < E.columns →
        (obs_data_allocD d E S).data q c = E.data q c - S.data q c + b.value.getD a 0) ∧
    (∀ r c, d.active_rows.length ≤ r →
      (obs_data_allocD d E S).data r c = E.data r c - S.data r c) := by
  have key := data_scan_spec
    (fun b (st : matrix α × Nat) => obs_block_initD b st.1 st.2)
    (fun (M : matrix α) r => fun c => M.data r c)
    (fun b _ a _ old => fun c => if c < E.columns then old c + b.value.getD a 0 else old c)
    (fun M => M.columns = E.columns) d.data
    (fun b _ s off hs => obs_block_initD_spec E.columns b s off hs)
    (matrix_inplace_sub (matrix_alloc_copy E) S) 0 rfl
  obtain ⟨-, hcol, hrow, hframe⟩ := key
  refine ⟨hcol, ?_, ?_⟩
  · intro q b o a hq c hc
    have := congrFun (hrow q b o a hq) c
    simp only [Nat.zero_add, if_pos hc] at this
    exact this
  · intro r c hr
    have := congrFun (hframe r (Or.inr (by simpa [obs_data.active_rows] using hr))) c
    exact this

theorem wopr_data_wf : wopr_data.wf := by
  intro b hb
  have hd : wopr_data.data = [obs_block_deactivate wopr_block 1 false "outlier"] := rfl
  rw [hd, List.mem_singleton] at hb
  subst hb
  exact ⟨⟨rfl, rfl, rfl⟩, by decide⟩

/-- C13: for every row `r` below the active size, the matrix returned by
`obs_data_allocD` has `D[r, c] = E[r, c] - S[r, c] + value` in every column `c`
of `E`, where `value` is the observed value of the `r`-th `ACTIVE` element in
block order then local index. -/
theorem obs_data_allocD_spec [Zero α] [Add α] [Sub α] (d : obs_data α) (E S : matrix α)
    (hwf : d.wf) (r : Nat) (hr : (r : Int) < obs_data_get_active_size d) :
    ∃ b o a, d.active_rows[r]? = some (b, o, a) ∧
      ∀ c, c < E.columns →
        (obs_data_allocD d E S).data r c = E.data r c - S.data r c + b.value.getD a 0 := by
  obtain ⟨b, o, a, hq⟩ := active_rows_get_of_lt hwf hr
  exact ⟨b, o, a, hq, (obs_data_allocD_rows d E S).2.1 r b o a hq⟩

/-- C13 on the scenario data set (values 10 and 30 active): row 1 of `D` is
row 1 of `E - S` plus 30. -/
theorem obs_data_allocD_spec_witness :
    wopr_data.wf ∧ ((1 : Nat) : Int) < obs_data_get_active_size wopr_data ∧
    (∃ b o a, wopr_data.active_rows[1]? = some (b, o, a) ∧
      ∀ c, c < scenario_E.columns →
        (obs_data_allocD wopr_data scenario_E scenario_S).data 1 c =
          scenario_E.data 1 c - scenario_S.data 1 c + b.value.getD a 0) ∧
    (obs_data_allocD wopr_data scenario_E scenario_S).data 1 0 = 3 - 110 + 30 ∧
    (obs_data_allocD wopr_data scenario_E scenario_S).data 0 1 = 1 - 101 + 10 :=
  ⟨wopr_data_wf, by decide,
    obs_data_allocD_spec wopr_data scenario_E scenario_S wopr_data_wf 1 (by decide),
    by decide, by decide⟩

end allocD_claims

/-! ## The value / std summary and the scale factors -/

section dObs_claims
variable {α : Type}

theorem obs_block_initdObs_spec [Zero α] (nr nc : Nat) (b : obs_block α) (M : matrix α)
    (off : Nat) (hM : M.rows = nr ∧ M.columns = nc) :
    (obs_block_initdObs b M off).2 = off + b.active_indices.length ∧
    ((obs_block_initdObs b M off).1.rows = nr ∧ (obs_block_initdObs b M off).1.columns = nc) ∧
    (∀ q a, b.active_indices[q]? = some a →
      (fun c => (obs_block_initdObs b M off).1.data (off + q) c) =
        (fun c => if c = 1 then b.std.getD a 0 else if c = 0 then b.value.getD a 0
          else M.data (off + q) c)) ∧
    (∀ r, (r < off ∨ off + b.active_indices.length ≤ r) →
      (fun c => (obs_block_initdObs b M off).1.data r c) = (fun c => M.data r c)) :=
  block_scan_spec b
    (fun i r (M1 : matrix α) =>
      matrix_iset (matrix_iset M1 r 0 (b.value.getD i 0)) r 1 (b.std.getD i 0))
    (fun (M1 : matrix α) r => fun c => M1.data r c)
    (fun a _ old => fun c =>
      if c = 1 then b.std.getD a 0 else if c = 0 then b.value.getD a 0 else old c)
    (fun M1 => M1.rows = nr ∧ M1.columns = nc) M off b.size
    (fun _ _ _ hs => hs)
    (by
      intro q a _ s r _
      funext c
      simp only [matrix_iset]
      by_cases hr : r = off + q
      · subst hr
        by_cases h1 : c = 1
        · simp [h1]
        · by_cases h0 : c = 0
          · simp [h0]
          · simp [h1, h0]
      · simp [hr])
    hM

/-- What `obs_data_allocdObs` holds: the shape, and in the row of the `q`-th
`ACTIVE` element the stored value in column 0 and the stored std in column 1. -/
theorem obs_data_allocdObs_rows [Zero α] (d : obs_data α) :
    (obs_data_allocdObs d).rows = (obs_data_get_active_size d).toNat ∧
    (obs_data_allocdObs d).columns = 2 ∧
    ∀ q b o a, d.active_rows[q]? = some (b, o, a) →
      (obs_data_allocdObs d).data q 0 = b.value.getD a 0 ∧
      (obs_data_allocdObs d).data q 1 = b.std.getD a 0 := by
  have key := data_scan_spec
    (fun b (st : matrix α × Nat) => obs_block_initdObs b st.1 st.2)
    (fun (M : matrix α) r => fun c => M.data r c)
    (fun b _ a _ old => fun c =>
      if c = 1 then b.std.getD a 0 else if c = 0 then b.value.getD a 0 else old c)
    (fun M => M.rows = (obs_data_get_active_size d).toNat ∧ M.columns = 2) d.data
    (fun b _ s off hs => obs_block_initdObs_spec _ _ b s off hs)
    (matrix_alloc (obs_data_get_active_size d).toNat 2) 0 ⟨rfl, rfl⟩
  obtain ⟨-, hdim, hrow, -⟩ := key
  refine ⟨hdim.1, hdim.2, ?_⟩
  intro q b o a hq
  have h := hrow q b o a hq
  simp only [Nat.zero_add] at h
  exact ⟨by simpa using congrFun h 0, by simpa using congrFun h 1⟩

/-- Under the invariant `obs_data_allocdObs` has `activeSize()` rows and 2
columns, and row `k` holds in column 0 the value of the `k`-th `ACTIVE`
element; column 1 holds the stored std, without `global_std_scaling`. -/
theorem obs_data_allocdObs_raw_std [Zero α] [Mul α] (d : obs_data α) (hwf : d.wf) :
    ((obs_data_allocdObs d).rows : Int) = obs_data_get_active_size d ∧
    (obs_data_allocdObs d).columns = 2 ∧
    ∀ k b o a, d.active_rows[k]? = some (b, o, a) →
      (obs_data_allocdObs d).data k 0 = obs_block_iget_value b a ∧
      (obs_data_allocdObs d).data k 1 = b.std.getD a 0 := by
  obtain ⟨hr, hc, hrow⟩ := obs_data_allocdObs_rows d
  refine ⟨?_, hc, hrow⟩
  rw [hr, obs_data_active_size_toNat hwf, obs_data_active_size_eq_rows hwf]

/-- C14: row `k` of `obs_data_allocdObs` should hold (value, std *
`global_std_scaling`) of the `k`-th `ACTIVE` element. On the data set with
scaling 2 and one element of value 10 and std 3, column 0 holds 10 but column 1
holds the stored 3, while the scaled std the other routines use is 6. -/
theorem obs_data_allocdObs_std_unscaled :
    scaled_data.active_rows.map (fun x => x.2) = [(0, 0)] ∧
    (obs_data_allocdObs scaled_data).data 0 0 = 10 ∧
    (obs_data_allocdObs scaled_data).data 0 1 = 3 ∧
    obs_data_iget_std scaled_data 0 = .ok 6 ∧
    (obs_data_allocdObs scaled_data).data 0 1 ≠ 3 * scaled_data.global_std_scaling := by
  refine ⟨by decide, by decide, by decide, rfl, by decide⟩

theorem scaled_data_wf : scaled_data.wf := by
  intro b hb
  have hd : scaled_data.data =
      [obs_block_iset (obs_block_alloc "WOPR" 1 none false 2) 0 10 3] := rfl
  rw [hd, List.mem_singleton] at hb
  subst hb
  exact ⟨⟨rfl, rfl, rfl⟩, by decide⟩

end dObs_claims

section scaling_claims
variable {α : Type}

theorem obs_block_init_scaling_spec [Zero α] [One α] [Mul α] [Div α] (n : Nat)
    (b : obs_block α) (l : List α) (off : Nat) (hl : l.length = n) :
    (obs_block_init_scaling b l off).2 = off + b.active_indices.length ∧
    (obs_block_init_scaling b l off).1.length = n ∧
    (∀ q a, b.active_indices[q]? = some a →
      (obs_block_init_scaling b l off).1[off + q]? =
        (l[off + q]?).map (fun _ => 1 / obs_block_iget_std b a)) ∧
    (∀ r, (r < off ∨ off + b.active_indices.length ≤ r) →
      (obs_block_init_scaling b l off).1[r]? = l[r]?) :=
  block_scan_spec b
    (fun i r (l1 : List α) => l1.set r (1 / obs_block_iget_std b i))
    (fun (l1 : List α) r => l1[r]?)
    (fun a _ old => old.map (fun _ => 1 / obs_block_iget_std b a))
    (fun l1 => l1.length = n) l off b.size
    (fun _ _ _ hs => by simpa using hs)
    (by
      intro q a _ s r _
      by_cases hr : r = off + q
      · subst hr
        by_cases hlt : off + q < s.length
        · simp [hlt]
        · have hge : s.length ≤ off + q := Nat.le_of_not_lt hlt
          have h1 : s[off + q]? = none := List.getElem?_eq_none hge
          have h2 : (s.set (off + q) (1 / obs_block_iget_std b a))[off + q]? = none :=
            List.getElem?_eq_none (by simpa using hge)
          simp only [if_true, h1, h2, Option.map_none']
      · simp [List.getElem?_set, hr, Ne.symm hr])
    hl

/-- What `obs_data_alloc_scale_factor` holds: `nrobs_active` entries, and at
the position of the `q`-th `ACTIVE` element, when that position is below
`nrobs_active`, the reciprocal of its scaled std. -/
theorem obs_data_alloc_scale_factor_rows [Zero α] [One α] [Mul α] [Div α] (d : obs_data α) :
    (obs_data_alloc_scale_factor d).length = (obs_data_get_active_size d).toNat ∧
    ∀ q b o a, d.active_rows[q]? = some (b, o, a) →
      q < (obs_data_get_active_size d).toNat →
      (obs_data_alloc_scale_factor d)[q]? = some (1 / obs_block_iget_std b a) := by
  have key := data_scan_spec
    (fun b (st : List α × Nat) => obs_block_init_scaling b st.1 st.2)
    (fun (l : List α) r => l[r]?)
    (fun b _ a _ old => old.map (fun _ => 1 / obs_block_iget_std b a))
    (fun l => l.length = (obs_data_get_active_size d).toNat) d.data
    (fun b _ s off hs => obs_block_init_scaling_spec _ b s off hs)
    (List.replicate (obs_data_get_active_size d).toNat 0) 0 (by simp)
  obtain ⟨-, hlen, hrow, -⟩ := key
  refine ⟨hlen, ?_⟩
  intro q b o a hq hlt
  have h := hrow q b o a hq
  simp only [Nat.zero_add] at h
  have hrep : (List.replicate (obs_data_get_active_size d).toNat (0 : α))[q]? = some 0 := by
    rw [List.getElem?_replicate]
    simp [hlt]
  rw [hrep] at h
  simpa [obs_data_alloc_scale_factor] using h

/-- C18: under the invariant `obs_data_alloc_scale_factor` returns an array of
length `activeSize()` whose entry `k` is `1 / effectiveStd` of the `k`-th
`ACTIVE` element in active-index order, `effectiveStd` being `std *
global_std_scaling`; the entries are exactly those of the `ACTIVE` elements. -/
theorem obs_data_alloc_scale_factor_spec [Zero α] [One α] [Mul α] [Div α] (d : obs_data α)
    (hwf : d.wf) :
    ((obs_data_alloc_scale_factor d).length : Int) = obs_data_get_active_size d ∧
    (obs_data_alloc_scale_factor d).length = d.active_rows.length ∧
    ∀ (k : Nat) (b : obs_block α) (o a : Nat), d.active_rows[k]? = some (b, o, a) →
      (obs_data_alloc_scale_factor d)[k]? = some (1 / obs_block_iget_std b a) ∧
      obs_block_iget_std b a = b.std.getD a 0 * b.global_std_scaling := by
  obtain ⟨hlen, hrow⟩ := obs_data_alloc_scale_factor_rows d
  have hn := obs_data_active_size_toNat hwf
  refine ⟨?_, by rw [hlen, hn], ?_⟩
  · rw [hlen, hn, obs_data_active_size_eq_rows hwf]
  · intro k b o a hk
    refine ⟨hrow k b o a hk ?_, rfl⟩
    rw [hn]
    exact getElem?_lt_length hk

theorem rat_data_wf : rat_data.wf := by decide

theorem rat_pair_wf : rat_pair.wf := by decide

/-- C18 on a data set with scaling 2 whose only `ACTIVE` element has std 4:
one entry, `1 / (4 * 2)`; the deactivated element has no entry. -/
theorem obs_data_alloc_scale_factor_spec_witness :
    rat_data.wf ∧
    ((obs_data_alloc_scale_factor rat_data).length : Int) = obs_data_get_active_size rat_data ∧
    (obs_data_alloc_scale_factor rat_data).length = 1 ∧
    rat_data.active_rows[0]? = some (rat_data.data.getD 0 (obs_block_alloc "" 0 none false 0), 0, 1) ∧
    (obs_data_alloc_scale_factor rat_data)[0]? = some (1 / (4 * 2)) :=
  ⟨rat_data_wf, (obs_data_alloc_scale_factor_spec rat_data rat_data_wf).1,
    (obs_data_alloc_scale_factor_spec rat_data rat_data_wf).2.1, rfl,
    ((obs_data_alloc_scale_factor_spec rat_data rat_data_wf).2.2 0 _ 0 1 rfl).1⟩

end scaling_claims

/-! ## The error covariance matrix -/

section initR_lemmas
variable {α σ : Type}

/-- A loop that counts its `ACTIVE` elements from 0 and adds `off` at every
use is the loop that counts from `off`. -/
theorem for_range_shift (b : obs_block α) (w : Nat → Nat → σ → σ) (s : σ) (off n : Nat) :
    (for_range n (fun i (st : σ × Nat) =>
        if b.active_mode[i]? = some ACTIVE then (w i (off + st.2) st.1, st.2 + 1) else st)
      (s, 0)).1 =
    (for_range n (fun i (st : σ × Nat) =>
        if b.active_mode[i]? = some ACTIVE then (w i st.2 st.1, st.2 + 1) else st)
      (s, off)).1 ∧
    off + (for_range n (fun i (st : σ × Nat) =>
        if b.active_mode[i]? = some ACTIVE then (w i (off + st.2) st.1, st.2 + 1) else st)
      (s, 0)).2 =
    (for_range n (fun i (st : σ × Nat) =>
        if b.active_mode[i]? = some ACTIVE then (w i st.2 st.1, st.2 + 1) else st)
      (s, off)).2 := by
  induction n with
  | zero => exact ⟨rfl, rfl⟩
  | succ m ih =>
    obtain ⟨h1, h2⟩ := ih
    simp only [for_range]
    generalize for_range m (fun i (st : σ × Nat) =>
        if b.active_mode[i]? = some ACTIVE then (w i (off + st.2) st.1, st.2 + 1) else st)
      (s, 0) = x at h1 h2
    generalize for_range m (fun i (st : σ × Nat) =>
        if b.active_mode[i]? = some ACTIVE then (w i st.2 st.1, st.2 + 1) else st)
      (s, off) = y at h1 h2
    obtain ⟨x1, x2⟩ := x
    obtain ⟨y1, y2⟩ := y
    simp only at h1 h2
    subst h1; subst h2
    by_cases ha : b.active_mode[m]? = some ACTIVE
    · rw [if_pos ha, if_pos ha]
      exact ⟨rfl, by show off + (x2 + 1) = off + x2 + 1; omega⟩
    · rw [if_neg ha, if_neg ha]
      exact ⟨rfl, rfl⟩

theorem matrix_iset_safe_shape (M : matrix α) (i j : Nat) (v : α) :
    (matrix_iset_safe M i j v).rows = M.rows ∧ (matrix_iset_safe M i j v).columns = M.columns := by
  unfold matrix_iset_safe
  split <;> exact ⟨rfl, rfl⟩

theorem matrix_iset_safe_data (M : matrix α) (i j : Nat) (v : α) (r c : Nat) :
    (matrix_iset_safe M i j v).data r c =
      if r = i ∧ c = j ∧ i < M.rows ∧ j < M.columns then v else M.data r c := by
  unfold matrix_iset_safe
  by_cases h : i < M.rows ∧ j < M.columns
  · rw [if_pos h]
    simp only [matrix_iset]
    by_cases h2 : r = i ∧ c = j
    · rw [if_pos h2, if_pos ⟨h2.1, h2.2, h.1, h.2⟩]
    · rw [if_neg h2, if_neg (fun h3 => h2 ⟨h3.1, h3.2.1⟩)]
  · rw [if_neg h, if_neg (fun h3 => h ⟨h3.2.2.1, h3.2.2.2⟩)]

/-- The inner loop of the covariance branch of `obs_block_initR`: row `r` of
the matrix receives row `row` of the covariance at the `ACTIVE` columns. -/
theorem initR_row_loop (nr nc : Nat) (b : obs_block α) (C : matrix α) (row r off : Nat)
    (M : matrix α) (hM : M.rows = nr ∧ M.columns = nc) :
    ((for_range b.size (fun col (st2 : matrix α × Nat) =>
        if b.active_mode[col]? = some ACTIVE then
          (matrix_iset_safe st2.1 r (off + st2.2) (matrix_iget C row col), st2.2 + 1)
        else st2) (M, 0)).1.rows = nr ∧
     (for_range b.size (fun col (st2 : matrix α × Nat) =>
        if b.active_mode[col]? = some ACTIVE then
          (matrix_iset_safe st2.1 r (off + st2.2) (matrix_iget C row col), st2.2 + 1)
        else st2) (M, 0)).1.columns = nc) ∧
    ∀ x c, (for_range b.size (fun col (st2 : matrix α × Nat) =>
        if b.active_mode[col]? = some ACTIVE then
          (matrix_iset_safe st2.1 r (off + st2.2) (matrix_iget C row col), st2.2 + 1)
        else st2) (M, 0)).1.data x c =
      if x = r ∧ off ≤ c ∧ c < off + b.active_indices.length ∧ r < nr ∧ c < nc then
        C.data row (b.active_indices.getD (c - off) 0)
      else M.data x c := by
  have hshift := (for_range_shift b
    (fun col c (M1 : matrix α) => matrix_iset_safe M1 r c (matrix_iget C row col))
    M off b.size).1
  have key := block_scan_spec b
    (fun col c (M1 : matrix α) => matrix_iset_safe M1 r c (matrix_iget C row col))
    (fun (M1 : matrix α) c => fun x => M1.data x c)
    (fun col c old => fun x => if x = r ∧ r < nr ∧ c < nc then C.data row col else old x)
    (fun M1 => M1.rows = nr ∧ M1.columns = nc) M off b.size
    (by
      intro i c s hs
      obtain ⟨h1, h2⟩ := matrix_iset_safe_shape s r c (matrix_iget C row i)
      exact ⟨h1.trans hs.1, h2.trans hs.2⟩)
    (by
      intro q a _ s c hs
      funext x
      simp only [matrix_iset_safe_data, matrix_iget, hs.1, hs.2]
      by_cases hc : c = off + q
      · subst hc
        by_cases hx : x = r
        · simp [hx]
        · simp [hx]
      · simp [hc])
    hM
  beta_reduce at key
  rw [hshift]
  obtain ⟨-, hdim, hcol, hframe⟩ := key
  refine ⟨hdim, ?_⟩
  intro x c
  by_cases hc : off ≤ c ∧ c < off + b.active_indices.length
  · have hq : c - off < b.active_indices.length := by omega
    have hget : b.active_indices[c - off]? = some (b.active_indices.getD (c - off) 0) := by
      rw [List.getD_eq_getElem?_getD, List.getElem?_eq_getElem hq]
      rfl
    have h := congrFun (hcol (c - off) _ hget) x
    have hidx : off + (c - off) = c := by omega
    rw [hidx] at h
    rw [h]
    by_cases hx : x = r
    · simp [hx, hc.1, hc.2]
    · simp [hx]
  · have h := congrFun (hframe c (by
      rw [active_upto_size]
      omega)) x
    beta_reduce at h
    rw [h, if_neg (fun h3 => hc ⟨h3.2.1, h3.2.2.1⟩)]

end initR_lemmas

section initR_block
variable {α : Type}

theorem initR_row_none [Zero α] [Mul α] (nr nc : Nat) (b : obs_block α) (o a r : Nat)
    (old : Nat → α) (c : Nat) (hcov : b.error_covar = none) :
    initR_row nr nc b o a r old c =
      if c = r ∧ r < nr ∧ r < nc then obs_block_iget_std b a * obs_block_iget_std b a
      else old c := by
  unfold initR_row
  rw [hcov]

theorem initR_row_some [Zero α] [Mul α] (nr nc : Nat) (b : obs_block α) (o a r : Nat)
    (old : Nat → α) (c : Nat) (C : matrix α) (hcov : b.error_covar = some C) :
    initR_row nr nc b o a r old c =
      if o ≤ c ∧ c < o + b.active_indices.length ∧ r < nr ∧ c < nc then
        C.data a (b.active_indices.getD (c - o) 0)
      else old c := by
  unfold initR_row
  rw [hcov]

theorem obs_block_initR_spec [Zero α] [Mul α] (nr nc : Nat) (b : obs_block α) (hb : b.wf)
    (R : matrix α) (off : Nat) (hR : R.rows = nr ∧ R.columns = nc) :
    (obs_block_initR b R off).2 = off + b.active_indices.length ∧
    ((obs_block_initR b R off).1.rows = nr ∧ (obs_block_initR b R off).1.columns = nc) ∧
    (∀ q a, b.active_indices[q]? = some a →
      (fun c => (obs_block_initR b R off).1.data (off + q) c) =
        initR_row nr nc b off a (off + q) (fun c => R.data (off + q) c)) ∧
    (∀ r, (r < off ∨ off + b.active_indices.length ≤ r) →
      (fun c => (obs_block_initR b R off).1.data r c) = (fun c => R.data r c)) := by
  have h2 : (obs_block_initR b R off).2 = off + b.active_indices.length := by
    simp only [obs_block_initR]
    rw [active_size_eq_indices_length hb, Int.toNat_natCast]
  refine ⟨h2, ?_⟩
  cases hcov : b.error_covar with
  | none =>
    have h1 : (obs_block_initR b R off).1 =
        (for_range b.size (fun i (st : matrix α × Nat) =>
          if b.active_mode[i]? = some ACTIVE then
            ((fun i r (M : matrix α) => matrix_iset_safe M r r
              (obs_block_iget_std b i * obs_block_iget_std b i)) i st.2 st.1, st.2 + 1)
          else st) (R, off)).1 := by
      simp only [obs_block_initR, hcov]
      exact (for_range_shift b (fun i r (M : matrix α) => matrix_iset_safe M r r
        (obs_block_iget_std b i * obs_block_iget_std b i)) R off b.size).1
    have key := block_scan_spec b
      (fun i r (M : matrix α) => matrix_iset_safe M r r
        (obs_block_iget_std b i * obs_block_iget_std b i))
      (fun (M : matrix α) r => fun c => M.data r c)
      (fun a r old => initR_row nr nc b off a r old)
      (fun M => M.rows = nr ∧ M.columns = nc) R off b.size
      (by
        intro i r s hs
        obtain ⟨e1, e2⟩ := matrix_iset_safe_shape s r r
          (obs_block_iget_std b i * obs_block_iget_std b i)
        exact ⟨e1.trans hs.1, e2.trans hs.2⟩)
      (by
        intro q a _ s r hs
        funext c
        simp only [matrix_iset_safe_data, hs.1, hs.2]
        by_cases hr : r = off + q
        · subst hr
          rw [if_pos rfl, initR_row_none _ _ _ _ _ _ _ _ hcov]
          by_cases hc : c = off + q
          · simp [hc]
          · simp [hc]
        · simp [hr])
      hR
    rw [h1]
    exact ⟨key.2.1, key.2.2.1, key.2.2.2⟩
  | some C =>
    have h1 : (obs_block_initR b R off).1 =
        (for_range b.size (fun i (st : matrix α × Nat) =>
          if b.active_mode[i]? = some ACTIVE then
            ((fun row r (M : matrix α) =>
              (for_range b.size (fun col (st2 : matrix α × Nat) =>
                if b.active_mode[col]? = some ACTIVE then
                  (matrix_iset_safe st2.1 r (off + st2.2) (matrix_iget C row col), st2.2 + 1)
                else st2) (M, 0)).1) i st.2 st.1, st.2 + 1)
          else st) (R, off)).1 := by
      simp only [obs_block_initR, hcov]
      exact (for_range_shift b (fun row r (M : matrix α) =>
        (for_range b.size (fun col (st2 : matrix α × Nat) =>
          if b.active_mode[col]? = some ACTIVE then
            (matrix_iset_safe st2.1 r (off + st2.2) (matrix_iget C row col), st2.2 + 1)
          else st2) (M, 0)).1) R off b.size).1
    have key := block_scan_spec b
      (fun row r (M : matrix α) =>
        (for_range b.size (fun col (st2 : matrix α × Nat) =>
          if b.active_mode[col]? = some ACTIVE then
            (matrix_iset_safe st2.1 r (off + st2.2) (matrix_iget C row col), st2.2 + 1)
          else st2) (M, 0)).1)
      (fun (M : matrix α) r => fun c => M.data r c)
      (fun a r old => initR_row nr nc b off a r old)
      (fun M => M.rows = nr ∧ M.columns = nc) R off b.size
      (by
        intro i r s hs
        exact (initR_row_loop nr nc b C i r off s hs).1)
      (by
        intro q a _ s r hs
        funext c
        have h := (initR_row_loop nr nc b C a (off + q) off s hs).2 r c
        beta_reduce
        rw [h]
        by_cases hr : r = off + q
        · subst hr
          rw [if_pos rfl, initR_row_some _ _ _ _ _ _ _ _ C hcov]
          simp
        · simp [hr])
      hR
    rw [h1]
    exact ⟨key.2.1, key.2.2.1, key.2.2.2⟩

end initR_block

section allocR_lemmas
variable {α : Type}

/-- The `p`-th `ACTIVE` element of block `k` is entry (active offset of block
`k`) `+ p` of the active rows. -/
theorem active_rows_from_at (l : List (obs_block α)) (off k p a : Nat) (b : obs_block α)
    (hk : l[k]? = some b) (hp : b.active_indices[p]? = some a) :
    (active_rows_from l off)[((l.take k).map (fun b => b.active_indices.length)).sum + p]? =
      some (b, off + ((l.take k).map (fun b => b.active_indices.length)).sum, a) := by
  induction l generalizing off k with
  | nil => simp at hk
  | cons x rest ih =>
    cases k with
    | zero =>
      simp only [List.getElem?_cons_zero, Option.some.injEq] at hk
      subst hk
      simp only [List.take_zero, List.map_nil, List.sum_nil, Nat.zero_add, Nat.add_zero]
      rw [active_rows_from, List.getElem?_append_left (by
        simpa using getElem?_lt_length hp)]
      simp [hp]
    | succ j =>
      simp only [List.getElem?_cons_succ] at hk
      simp only [List.take_succ_cons, List.map_cons, List.sum_cons]
      rw [active_rows_from, List.getElem?_append_right (by simp; omega)]
      simp only [List.length_map]
      have := ih (off + x.active_indices.length) j hk
      rw [show x.active_indices.length +
          ((rest.take j).map (fun b => b.active_indices.length)).sum + p -
            x.active_indices.length =
          ((rest.take j).map (fun b => b.active_indices.length)).sum + p by omega]
      rw [this]
      simp only [Option.some.injEq, Prod.mk.injEq, true_and, and_true]
      omega

/-- Every entry of the active rows is an `ACTIVE` element of a block of the
list, at the position its block offset says. -/
theorem active_rows_from_mem (l : List (obs_block α)) (off q o a : Nat) (b : obs_block α)
    (hq : (active_rows_from l off)[q]? = some (b, o, a)) :
    b ∈ l ∧ off ≤ o ∧ o - off ≤ q ∧ b.active_indices[q - (o - off)]? = some a ∧
    o + b.active_indices.length ≤ off + (active_rows_from l off).length := by
  induction l generalizing off q with
  | nil => simp [active_rows_from] at hq
  | cons x rest ih =>
    have hlen : (active_rows_from (x :: rest) off).length =
        x.active_indices.length +
          (active_rows_from rest (off + x.active_indices.length)).length := by
      simp [active_rows_from]
    by_cases hql : q < x.active_indices.length
    · rw [active_rows_from, List.getElem?_append_left (by simpa using hql),
        List.getElem?_map] at hq
      cases hget : x.active_indices[q]? with
      | none => rw [hget] at hq; simp at hq
      | some a0 =>
        rw [hget] at hq
        simp only [Option.map_some', Option.some.injEq, Prod.mk.injEq] at hq
        obtain ⟨hb, ho, ha⟩ := hq
        subst hb; subst ho; subst ha
        refine ⟨List.mem_cons_self _ _, Nat.le_refl _, by omega, ?_, by omega⟩
        simpa using hget
    · rw [active_rows_from,
        List.getElem?_append_right (by simpa using Nat.le_of_not_lt hql)] at hq
      simp only [List.length_map] at hq
      obtain ⟨hm, h1, h2, h3, h4⟩ := ih _ _ hq
      refine ⟨List.mem_cons_of_mem _ hm, by omega, by omega, ?_, by omega⟩
      rw [← h3]
      congr 1
      omega

theorem obs_data_allocR_rows [Zero α] [Mul α] (d : obs_data α) (hwf : d.wf) :
    ((obs_data_allocR d).rows = d.active_rows.length ∧
      (obs_data_allocR d).columns = d.active_rows.length) ∧
    (∀ q b o a, d.active_rows[q]? = some (b, o, a) →
      ∀ c, (obs_data_allocR d).data q c =
        initR_row d.active_rows.length d.active_rows.length b o a q (fun _ => 0) c) ∧
    (∀ r c, d.active_rows.length ≤ r → (obs_data_allocR d).data r c = 0) := by
  have hn := obs_data_active_size_toNat hwf
  have key := data_scan_spec
    (fun b (st : matrix α × Nat) => obs_block_initR b st.1 st.2)
    (fun (M : matrix α) r => fun c => M.data r c)
    (fun b o a r old => initR_row d.active_rows.length d.active_rows.length b o a r old)
    (fun M => M.rows = d.active_rows.length ∧ M.columns = d.active_rows.length) d.data
    (fun b hb s off hs => obs_block_initR_spec _ _ b (hwf b hb) s off hs)
    (matrix_alloc d.active_rows.length d.active_rows.length) 0 ⟨rfl, rfl⟩
  beta_reduce at key
  obtain ⟨-, hdim, hrow, hframe⟩ := key
  have hR : obs_data_allocR d =
      (d.data.foldl (fun (st : matrix α × Nat) b => obs_block_initR b st.1 st.2)
        (matrix_alloc d.active_rows.length d.active_rows.length, 0)).1 := by
    simp only [obs_data_allocR, hn]
  rw [hR]
  refine ⟨hdim, ?_, ?_⟩
  · intro q b o a hq c
    have h := congrFun (hrow q b o a hq) c
    simp only [Nat.zero_add] at h
    exact h
  · intro r c hr
    have h := congrFun (hframe r (Or.inr (by simpa [obs_data.active_rows] using hr))) c
    exact h

end allocR_lemmas

section allocR_claims
variable {α : Type}

theorem take_sum_le (f : obs_block α → Nat) (l : List (obs_block α)) (k k2 : Nat)
    (b : obs_block α) (hk : l[k]? = some b) (hlt : k < k2) :
    ((l.take k).map f).sum + f b ≤ ((l.take k2).map f).sum := by
  induction l generalizing k k2 with
  | nil => simp at hk
  | cons x rest ih =>
    cases k2 with
    | zero => omega
    | succ j2 =>
      cases k with
      | zero =>
        simp only [List.getElem?_cons_zero, Option.some.injEq] at hk
        subst hk
        simp
      | succ j =>
        simp only [List.getElem?_cons_succ] at hk
        have := ih j j2 hk (by omega)
        simp only [List.take_succ_cons, List.map_cons, List.sum_cons]
        omega

theorem wopr_data_no_covar : ∀ b ∈ wopr_data.data, b.error_covar = none := by
  intro b hb
  have hd : wopr_data.data = [obs_block_deactivate wopr_block 1 false "outlier"] := rfl
  rw [hd, List.mem_singleton] at hb
  subst hb
  rfl

theorem obs_data_allocR_no_covar [Zero α] [Mul α] (d : obs_data α) (hwf : d.wf)
    (hcov : ∀ b ∈ d.data, b.error_covar = none) :
    (∀ (i : Nat) (b : obs_block α) (o a : Nat), d.active_rows[i]? = some (b, o, a) →
      (obs_data_allocR d).data i i = obs_block_iget_std b a * obs_block_iget_std b a) ∧
    (∀ i j, i ≠ j → (obs_data_allocR d).data i j = 0) := by
  obtain ⟨-, hrow, hframe⟩ := obs_data_allocR_rows d hwf
  refine ⟨?_, ?_⟩
  · intro i b o a hi
    have hb := (active_rows_from_mem d.data 0 i o a b hi).1
    have hlt : i < d.active_rows.length := getElem?_lt_length hi
    rw [hrow i b o a hi i, initR_row_none _ _ _ _ _ _ _ _ (hcov b hb), if_pos ⟨rfl, hlt, hlt⟩]
  · intro i j hij
    by_cases hlt : i < d.active_rows.length
    · obtain ⟨⟨b, o, a⟩, hi⟩ : ∃ x, d.active_rows[i]? = some x :=
        ⟨_, List.getElem?_eq_getElem hlt⟩
      have hb := (active_rows_from_mem d.data 0 i o a b hi).1
      rw [hrow i b o a hi j, initR_row_none _ _ _ _ _ _ _ _ (hcov b hb),
        if_neg (fun h => hij h.1.symm)]
    · exact hframe i j (Nat.le_of_not_lt hlt)

/-- C15: for a data set in which no block has an error covariance,
`obs_data_allocR` returns an `activeSize() x activeSize()` matrix with
`R[i, i]` the square of the scaled std (`std * global_std_scaling`) of the
`i`-th `ACTIVE` element and `R[i, j] = 0` for every `i ≠ j`. -/
theorem obs_data_allocR_diagonal [Zero α] [Mul α] (d : obs_data α) (hwf : d.wf)
    (hcov : ∀ b ∈ d.data, b.error_covar = none) :
    (((obs_data_allocR d).rows : Int) = obs_data_get_active_size d ∧
      ((obs_data_allocR d).columns : Int) = obs_data_get_active_size d) ∧
    (∀ (i : Nat) (b : obs_block α) (o a : Nat), d.active_rows[i]? = some (b, o, a) →
      (obs_data_allocR d).data i i =
        (b.std.getD a 0 * b.global_std_scaling) * (b.std.getD a 0 * b.global_std_scaling)) ∧
    (∀ i j, i ≠ j → (obs_data_allocR d).data i j = 0) := by
  obtain ⟨hdim, -, -⟩ := obs_data_allocR_rows d hwf
  obtain ⟨hdiag, hoff⟩ := obs_data_allocR_no_covar d hwf hcov
  refine ⟨?_, ?_, hoff⟩
  · rw [hdim.1, hdim.2, obs_data_active_size_eq_rows hwf]
    exact ⟨rfl, rfl⟩
  · intro i b o a hi
    rw [hdiag i b o a hi]
    rfl

/-- C15 on the scenario data set (std 1 and 3 active, scaling 1): `R` is
`1, 0 / 0, 9`. -/
theorem obs_data_allocR_diagonal_witness :
    wopr_data.wf ∧ (∀ b ∈ wopr_data.data, b.error_covar = none) ∧
    ((obs_data_allocR wopr_data).rows : Int) = obs_data_get_active_size wopr_data ∧
    (∀ i j, i ≠ j → (obs_data_allocR wopr_data).data i j = 0) ∧
    (obs_data_allocR wopr_data).data 0 0 = 1 ∧ (obs_data_allocR wopr_data).data 1 1 = 9 ∧
    (obs_data_allocR wopr_data).data 0 1 = 0 :=
  ⟨wopr_data_wf, wopr_data_no_covar,
    (obs_data_allocR_diagonal wopr_data wopr_data_wf wopr_data_no_covar).1.1,
    (obs_data_allocR_diagonal wopr_data wopr_data_wf wopr_data_no_covar).2.2,
    by decide, by decide, by decide⟩

theorem cov_one_wf : cov_one.wf := by decide

theorem cov_data_wf : cov_data.wf := by decide

/-- C16: for a block at position `k` that has an error covariance `C` and
whose `ACTIVE` local indices in increasing order are `a_0 < ... `,
`obs_data_allocR` writes `R[o + p, o + q] = C[a_p, a_q]`, where `o` is the
number of `ACTIVE` elements in the blocks before it; in the rows of the block
every column outside `o .. o + (number of ACTIVE elements) - 1` stays 0, so
rows and columns of `C` of elements that are not `ACTIVE` contribute nothing. -/
theorem obs_data_allocR_covar [Zero α] [Mul α] (d : obs_data α) (hwf : d.wf) (k : Nat)
    (b : obs_block α) (C : matrix α) (hk : d.data[k]? = some b)
    (hC : b.error_covar = some C) :
    (∀ p q a_p a_q, b.active_indices[p]? = some a_p → b.active_indices[q]? = some a_q →
      (obs_data_allocR d).data (d.active_offset_of k + p) (d.active_offset_of k + q) =
        C.data a_p a_q) ∧
    (∀ p a_p c, b.active_indices[p]? = some a_p →
      (c < d.active_offset_of k ∨ d.active_offset_of k + b.active_indices.length ≤ c) →
      (obs_data_allocR d).data (d.active_offset_of k + p) c = 0) := by
  obtain ⟨-, hrow, -⟩ := obs_data_allocR_rows d hwf
  have hat : ∀ p a, b.active_indices[p]? = some a →
      d.active_rows[d.active_offset_of k + p]? = some (b, d.active_offset_of k, a) := by
    intro p a hp
    have := active_rows_from_at d.data 0 k p a b hk hp
    simpa [obs_data.active_rows, obs_data.active_offset_of] using this
  refine ⟨?_, ?_⟩
  · intro p q a_p a_q hp hq
    have hrp := hat p a_p hp
    have hrq := hat q a_q hq
    rw [hrow _ b _ a_p hrp, initR_row_some _ _ _ _ _ _ _ _ C hC,
      if_pos ⟨by omega, by have := getElem?_lt_length hq; omega,
        getElem?_lt_length hrp, getElem?_lt_length hrq⟩]
    have hidx : d.active_offset_of k + q - d.active_offset_of k = q := by omega
    rw [hidx, List.getD_eq_getElem?_getD, hq]
    rfl
  · intro p a_p c hp hc
    have hrp := hat p a_p hp
    rw [hrow _ b _ a_p hrp, initR_row_some _ _ _ _ _ _ _ _ C hC,
      if_neg (fun h => by omega)]

/-- C16 on the scenario: a 2 x 2 covariance with element 0 deactivated yields
a 1 x 1 `R` equal to the surviving diagonal entry `C[1, 1] = 22`; the entries
of `C` that refer to element 0 appear nowhere. -/
theorem obs_data_allocR_covar_witness :
    cov_one.wf ∧ (∃ b, cov_one.data[0]? = some b ∧ b.error_covar = some cov2 ∧
      b.active_indices = [1] ∧
      (∀ p q a_p a_q, b.active_indices[p]? = some a_p → b.active_indices[q]? = some a_q →
        (obs_data_allocR cov_one).data (cov_one.active_offset_of 0 + p)
          (cov_one.active_offset_of 0 + q) = cov2.data a_p a_q)) ∧
    (obs_data_allocR cov_one).rows = 1 ∧ (obs_data_allocR cov_one).columns = 1 ∧
    (obs_data_allocR cov_one).data 0 0 = 22 ∧ cov2.data 1 1 = 22 :=
  ⟨cov_one_wf,
    ⟨cov_one.data.getD 0 wopr_empty, rfl, rfl, by decide,
      (obs_data_allocR_covar cov_one cov_one_wf 0 (cov_one.data.getD 0 wopr_empty) cov2
        rfl rfl).1⟩,
    by decide, by decide, by decide, by decide⟩

/-- C17: for a data set satisfying the active-count invariant, with any mix
of blocks with and without error covariance, the matrix returned by
`obs_data_allocR` has `R[i, j] = 0` whenever the active indices `i` and `j`
belong to elements of two different blocks. -/
theorem obs_data_allocR_cross_block_zero [Zero α] [Mul α] (d : obs_data α) (hwf : d.wf)
    (k k2 : Nat) (b b2 : obs_block α) (p p2 : Nat) (hk : d.data[k]? = some b)
    (hk2 : d.data[k2]? = some b2) (hne : k ≠ k2) (hp : p < b.active_indices.length)
    (hp2 : p2 < b2.active_indices.length) :
    (obs_data_allocR d).data (d.active_offset_of k + p) (d.active_offset_of k2 + p2) = 0 := by
  obtain ⟨-, hrow, -⟩ := obs_data_allocR_rows d hwf
  have hrp : d.active_rows[d.active_offset_of k + p]? =
      some (b, d.active_offset_of k, b.active_indices.getD p 0) := by
    have hget : b.active_indices[p]? = some (b.active_indices.getD p 0) := by
      rw [List.getD_eq_getElem?_getD, List.getElem?_eq_getElem hp]
      rfl
    have := active_rows_from_at d.data 0 k p _ b hk hget
    simpa [obs_data.active_rows, obs_data.active_offset_of] using this
  have hdisj : d.active_offset_of k2 + p2 < d.active_offset_of k ∨
      d.active_offset_of k + b.active_indices.length ≤ d.active_offset_of k2 + p2 := by
    rcases Nat.lt_or_gt_of_ne hne with hlt | hgt
    · right
      have := take_sum_le (fun b => b.active_indices.length) d.data k k2 b hk hlt
      beta_reduce at this
      unfold obs_data.active_offset_of
      omega
    · left
      have := take_sum_le (fun b => b.active_indices.length) d.data k2 k b2 hk2 hgt
      beta_reduce at this
      unfold obs_data.active_offset_of
      omega
  rw [hrow _ b _ _ hrp]
  cases hC : b.error_covar with
  | none =>
    rw [initR_row_none _ _ _ _ _ _ _ _ hC, if_neg (fun h => by omega)]
  | some C =>
    rw [initR_row_some _ _ _ _ _ _ _ _ C hC, if_neg (fun h => by omega)]

/-- C17 on the scenario with a block without covariance followed by a block
with the covariance `cov2`: the entries of `R` that pair the two blocks are 0,
the entries inside the blocks are not. -/
theorem obs_data_allocR_cross_block_zero_witness :
    cov_data.wf ∧ (0 : Nat) ≠ 1 ∧
    (obs_data_allocR cov_data).data (cov_data.active_offset_of 0 + 0)
      (cov_data.active_offset_of 1 + 1) = 0 ∧
    (List.range 3).map (fun r => (List.range 3).map (fun c => (obs_data_allocR cov_data).data r c))
      = [[64, 0, 0], [0, 11, 12], [0, 21, 22]] :=
  ⟨cov_data_wf, by decide,
    obs_data_allocR_cross_block_zero cov_data cov_data_wf 0 1
      (cov_data.data.getD 0 wopr_empty) (cov_data.data.getD 1 wopr_empty) 0 1 rfl rfl
      (by decide) (by decide) (by decide),
    by decide⟩

end allocR_claims

/-! ## Scaling -/

section scale_lemmas
variable {α : Type}

/-- A loop over the rows `0 .. m - 1` of one column that replaces each entry
by a function of the row and the old entry. -/
theorem col_loop_spec (g : Nat → α → α) (col m : Nat) (M : matrix α) :
    (for_range m (fun j M1 => matrix_iset M1 j col (g j (M1.data j col))) M).rows = M.rows ∧
    (for_range m (fun j M1 => matrix_iset M1 j col (g j (M1.data j col))) M).columns
      = M.columns ∧
    ∀ r c, (for_range m (fun j M1 => matrix_iset M1 j col (g j (M1.data j col))) M).data r c
      = if c = col ∧ r < m then g r (M.data r c) else M.data r c := by
  induction m with
  | zero =>
    refine ⟨rfl, rfl, ?_⟩
    intro r c
    simp [for_range]
  | succ k ih =>
    obtain ⟨hr, hc, hd⟩ := ih
    simp only [for_range]
    generalize for_range k _ M = M1 at hr hc hd
    refine ⟨hr, hc, ?_⟩
    intro r c
    simp only [matrix_iset]
    by_cases h1 : r = k ∧ c = col
    · obtain ⟨h1r, h1c⟩ := h1
      subst h1r; subst h1c
      have := hd r c
      simp only [Nat.lt_irrefl, and_false, if_false] at this
      simp [this]
    · rw [if_neg h1, hd r c]
      by_cases h2 : c = col ∧ r < k
      · have : c = col ∧ r < k + 1 := ⟨h2.1, by omega⟩
        rw [if_pos h2, if_pos this]
      · have : ¬ (c = col ∧ r < k + 1) := by
          intro h3
          rcases Nat.lt_succ_iff_lt_or_eq.mp h3.2 with h4 | h4
          · exact h2 ⟨h3.1, h4⟩
          · exact h1 ⟨h4, h3.1⟩
        rw [if_neg h2, if_neg this]

theorem obs_data_scale_matrix___spec [Zero α] [Mul α] (m : matrix α) (f : List α) :
    (obs_data_scale_matrix__ m f).rows = m.rows ∧
    (obs_data_scale_matrix__ m f).columns = m.columns ∧
    ∀ r c, (obs_data_scale_matrix__ m f).data r c =
      if r < m.rows ∧ c < m.columns then m.data r c * f.getD r 0 else m.data r c := by
  unfold obs_data_scale_matrix__
  simp only [matrix_get_rows, matrix_get_columns]
  have key := for_range_induction
    (fun k (M : matrix α) => M.rows = m.rows ∧ M.columns = m.columns ∧
      ∀ r c, M.data r c = if r < m.rows ∧ c < k then m.data r c * f.getD r 0 else m.data r c)
    m.columns
    (fun i m1 => for_range m.rows (fun j m2 => matrix_imul m2 j i (f.getD j 0)) m1) m
    ⟨rfl, rfl, by intro r c; simp⟩
    (by
      intro k _ M ⟨hr, hc, hd⟩
      obtain ⟨e1, e2, e3⟩ := col_loop_spec (fun j x => x * f.getD j 0) k m.rows M
      refine ⟨e1.trans hr, e2.trans hc, ?_⟩
      intro r c
      have h := e3 r c
      simp only [matrix_imul, matrix_iget]
      rw [h, hd r c]
      by_cases hck : c = k
      · subst hck
        by_cases hr2 : r < m.rows
        · simp [hr2]
        · simp [hr2]
      · by_cases hlt : c < k
        · have : c < k + 1 := by omega
          simp [hck, hlt, this]
        · have : ¬ c < k + 1 := by omega
          simp [hck, hlt, this])
  exact key

theorem obs_data_scale_Rmatrix___spec [Zero α] [Mul α] (R : matrix α) (f : List α) :
    (obs_data_scale_Rmatrix__ R f).rows = R.rows ∧
    (obs_data_scale_Rmatrix__ R f).columns = R.columns ∧
    ∀ i j, (obs_data_scale_Rmatrix__ R f).data i j =
      if i < R.rows ∧ j < R.rows then R.data i j * (f.getD i 0 * f.getD j 0)
      else R.data i j := by
  unfold obs_data_scale_Rmatrix__
  simp only [matrix_get_rows]
  have key := for_range_induction
    (fun k (M : matrix α) => M.rows = R.rows ∧ M.columns = R.columns ∧
      ∀ i j, M.data i j =
        if i < k ∧ j < R.rows then R.data i j * (f.getD i 0 * f.getD j 0) else R.data i j)
    R.rows
    (fun i R1 => for_range R.rows
      (fun j R2 => matrix_imul R2 i j (f.getD i 0 * f.getD j 0)) R1) R
    ⟨rfl, rfl, by intro i j; simp⟩
    (by
      intro k _ M ⟨hr, hc, hd⟩
      obtain ⟨e1, e2, e3⟩ :=
        row_loop_spec (fun j x => x * (f.getD k 0 * f.getD j 0)) k R.rows M
      refine ⟨e1.trans hr, e2.trans hc, ?_⟩
      intro i j
      have h := e3 i j
      simp only [matrix_imul, matrix_iget]
      rw [h, hd i j]
      by_cases hik : i = k
      · subst hik
        by_cases hj : j < R.rows
        · simp [hj]
        · simp [hj]
      · by_cases hlt : i < k
        · have : i < k + 1 := by omega
          simp [hik, hlt, this]
        · have : ¬ i < k + 1 := by omega
          simp [hik, hlt, this])
  obtain ⟨h1, h2, h3⟩ := key
  refine ⟨h1, h2, ?_⟩
  intro i j
  rw [h3 i j]

end scale_lemmas

section scale_claims
variable {α : Type}

theorem row_scaled_scale_matrix [Field α] (m : matrix α) (f : List α) :
    row_scaled f m (obs_data_scale_matrix__ m f) := by
  obtain ⟨h1, h2, h3⟩ := obs_data_scale_matrix___spec m f
  refine ⟨h1, h2, ?_⟩
  intro r c hr hc
  rw [h3 r c, if_pos ⟨hr, hc⟩]

theorem both_scaled_scale_Rmatrix [Field α] (R : matrix α) (f : List α) :
    both_scaled f R (obs_data_scale_Rmatrix__ R f) := by
  obtain ⟨h1, h2, h3⟩ := obs_data_scale_Rmatrix___spec R f
  refine ⟨h1, h2, ?_⟩
  intro i j hi hj
  rw [h3 i j, if_pos ⟨hi, hj⟩, mul_assoc]

/-- C19: with `f` the scale factors of the data set (one per `ACTIVE`
element), `obs_data_scale` returns `S`, and each of `E`, `D`, `dObs` that is
given, with every entry `M[row, col]` replaced by `M[row, col] * f[row]`, and
`R`, when given, with every entry `R[i, j]` replaced by `R[i, j] * f[i] * f[j]`;
a matrix that is not given stays absent. The data set is an input only. -/
theorem obs_data_scale_spec [Field α] (d : obs_data α) (S : matrix α)
    (E D R dObs : Option (matrix α)) :
    (obs_data_alloc_scale_factor d).length = (obs_data_get_active_size d).toNat ∧
    row_scaled (obs_data_alloc_scale_factor d) S (obs_data_scale d S E D R dObs).1 ∧
    (∀ m, E = some m → ∃ m1, (obs_data_scale d S E D R dObs).2.1 = some m1 ∧
      row_scaled (obs_data_alloc_scale_factor d) m m1) ∧
    (∀ m, D = some m → ∃ m1, (obs_data_scale d S E D R dObs).2.2.1 = some m1 ∧
      row_scaled (obs_data_alloc_scale_factor d) m m1) ∧
    (∀ m, R = some m → ∃ m1, (obs_data_scale d S E D R dObs).2.2.2.1 = some m1 ∧
      both_scaled (obs_data_alloc_scale_factor d) m m1) ∧
    (∀ m, dObs = some m → ∃ m1, (obs_data_scale d S E D R dObs).2.2.2.2 = some m1 ∧
      row_scaled (obs_data_alloc_scale_factor d) m m1) ∧
    (E = none → (obs_data_scale d S E D R dObs).2.1 = none) ∧
    (D = none → (obs_data_scale d S E D R dObs).2.2.1 = none) ∧
    (R = none → (obs_data_scale d S E D R dObs).2.2.2.1 = none) ∧
    (dObs = none → (obs_data_scale d S E D R dObs).2.2.2.2 = none) := by
  refine ⟨(obs_data_alloc_scale_factor_rows d).1, row_scaled_scale_matrix S _,
    ?_, ?_, ?_, ?_, ?_, ?_, ?_, ?_⟩
  · intro m hm
    exact ⟨_, by simp [obs_data_scale, hm], row_scaled_scale_matrix m _⟩
  · intro m hm
    exact ⟨_, by simp [obs_data_scale, hm], row_scaled_scale_matrix m _⟩
  · intro m hm
    exact ⟨_, by simp [obs_data_scale, hm], both_scaled_scale_Rmatrix m _⟩
  · intro m hm
    exact ⟨_, by simp [obs_data_scale, hm], row_scaled_scale_matrix m _⟩
  · intro h; simp [obs_data_scale, h]
  · intro h; simp [obs_data_scale, h]
  · intro h; simp [obs_data_scale, h]
  · intro h; simp [obs_data_scale, h]

/-- C19 on a data set over the rationals with two `ACTIVE` elements: `S` and
`R` are given, `E`, `D` and `dObs` are not. -/
theorem obs_data_scale_spec_witness :
    (some (matrix_alloc 2 2 : matrix Rat) = some (matrix_alloc 2 2) ∧
      ∃ m1, (obs_data_scale rat_pair rat_S none none (some (matrix_alloc 2 2)) none).2.2.2.1
          = some m1 ∧
        both_scaled (obs_data_alloc_scale_factor rat_pair) (matrix_alloc 2 2) m1) ∧
    ((none : Option (matrix Rat)) = none ∧
      (obs_data_scale rat_pair rat_S none none (some (matrix_alloc 2 2)) none).2.1 = none) ∧
    row_scaled (obs_data_alloc_scale_factor rat_pair) rat_S
      (obs_data_scale rat_pair rat_S none none (some (matrix_alloc 2 2)) none).1 :=
  ⟨⟨rfl, (obs_data_scale_spec rat_pair rat_S none none (some (matrix_alloc 2 2)) none).2.2.2.2.1
      _ rfl⟩,
   ⟨rfl, (obs_data_scale_spec rat_pair rat_S none none (some (matrix_alloc 2 2))
      none).2.2.2.2.2.2.1 rfl⟩,
   (obs_data_scale_spec rat_pair rat_S none none (some (matrix_alloc 2 2)) none).2.1⟩

theorem rat_pair_no_covar : ∀ b ∈ rat_pair.data, b.error_covar = none := by
  intro b hb
  have hd : rat_pair.data = [rat_pair.data.getD 0 (obs_block_alloc "" 0 none false 0)] := rfl
  rw [hd, List.mem_singleton] at hb
  subst hb
  rfl

theorem rat_pair_std_ne_zero : ∀ (i : Nat) (b : obs_block Rat) (o a : Nat),
    rat_pair.active_rows[i]? = some (b, o, a) → obs_block_iget_std b a ≠ 0 := by
  intro i b o a h
  have hrows : rat_pair.active_rows =
      [(rat_pair.data.getD 0 (obs_block_alloc "" 0 none false 0), 0, 0),
       (rat_pair.data.getD 0 (obs_block_alloc "" 0 none false 0), 0, 1)] := rfl
  rw [hrows] at h
  match i, h with
  | 0, h =>
    simp only [List.getElem?_cons_zero, Option.some.injEq, Prod.mk.injEq] at h
    obtain ⟨hb, -, ha⟩ := h
    subst hb; subst ha
    show (3 : Rat) * 2 ≠ 0
    norm_num
  | 1, h =>
    simp only [List.getElem?_cons_succ, List.getElem?_cons_zero, Option.some.injEq,
      Prod.mk.injEq] at h
    obtain ⟨hb, -, ha⟩ := h
    subst hb; subst ha
    show (4 : Rat) * 2 ≠ 0
    norm_num
  | n + 2, h => simp at h

/-- C20: for a data set without error covariances, satisfying the
active-count invariant, in which every `ACTIVE` element has a non-zero scaled
std, `obs_data_scale_Rmatrix` (and `obs_data_scale`, which does the same to
`R`) turns the matrix returned by `obs_data_allocR` into one with every
diagonal entry 1 and every off-diagonal entry 0, in exact arithmetic. -/
theorem obs_data_scale_Rmatrix_unit [Field α] (d : obs_data α) (S : matrix α)
    (hwf : d.wf) (hcov : ∀ b ∈ d.data, b.error_covar = none)
    (hstd : ∀ (i : Nat) (b : obs_block α) (o a : Nat),
      d.active_rows[i]? = some (b, o, a) → obs_block_iget_std b a ≠ 0) :
    (∀ i : Nat, (i : Int) < obs_data_get_active_size d →
      (obs_data_scale_Rmatrix d (obs_data_allocR d)).data i i = 1) ∧
    (∀ i j, i ≠ j → (obs_data_scale_Rmatrix d (obs_data_allocR d)).data i j = 0) ∧
    (obs_data_scale d S none none (some (obs_data_allocR d)) none).2.2.2.1 =
      some (obs_data_scale_Rmatrix d (obs_data_allocR d)) := by
  obtain ⟨hdiag, hoff⟩ := obs_data_allocR_no_covar d hwf hcov
  obtain ⟨hdim, -, -⟩ := obs_data_allocR_rows d hwf
  obtain ⟨-, hf⟩ := obs_data_alloc_scale_factor_rows d
  obtain ⟨-, -, hsc⟩ := obs_data_scale_Rmatrix___spec (obs_data_allocR d)
    (obs_data_alloc_scale_factor d)
  refine ⟨?_, ?_, rfl⟩
  · intro i hi
    obtain ⟨b, o, a, hq⟩ := active_rows_get_of_lt hwf hi
    have hlt : i < d.active_rows.length := getElem?_lt_length hq
    have hfi := hf i b o a hq (by rw [obs_data_active_size_toNat hwf]; exact hlt)
    have hne := hstd i b o a hq
    unfold obs_data_scale_Rmatrix
    rw [hsc i i, if_pos ⟨by rw [hdim.1]; exact hlt, by rw [hdim.1]; exact hlt⟩,
      hdiag i b o a hq, List.getD_eq_getElem?_getD, hfi]
    simp only [Option.getD_some]
    field_simp
  · intro i j hij
    unfold obs_data_scale_Rmatrix
    rw [hsc i j, hoff i j hij]
    split
    · exact zero_mul _
    · rfl

/-- C20 on a data set over the rationals with scaled std 6 and 8: the scaled
`R` has 1 at `(0, 0)` and `(1, 1)` and 0 at `(0, 1)`. -/
theorem obs_data_scale_Rmatrix_unit_witness :
    rat_pair.wf ∧ (∀ b ∈ rat_pair.data, b.error_covar = none) ∧
    (∀ (i : Nat) (b : obs_block Rat) (o a : Nat),
      rat_pair.active_rows[i]? = some (b, o, a) → obs_block_iget_std b a ≠ 0) ∧
    ((0 : Nat) : Int) < obs_data_get_active_size rat_pair ∧
    ((1 : Nat) : Int) < obs_data_get_active_size rat_pair ∧
    (obs_data_scale_Rmatrix rat_pair (obs_data_allocR rat_pair)).data 0 0 = 1 ∧
    (obs_data_scale_Rmatrix rat_pair (obs_data_allocR rat_pair)).data 1 1 = 1 ∧
    (obs_data_scale_Rmatrix rat_pair (obs_data_allocR rat_pair)).data 0 1 = 0 :=
  ⟨rat_pair_wf, rat_pair_no_covar, rat_pair_std_ne_zero, by decide, by decide,
    (obs_data_scale_Rmatrix_unit rat_pair rat_S rat_pair_wf rat_pair_no_covar
      rat_pair_std_ne_zero).1 0 (by decide),
    (obs_data_scale_Rmatrix_unit rat_pair rat_S rat_pair_wf rat_pair_no_covar
      rat_pair_std_ne_zero).1 1 (by decide),
    (obs_data_scale_Rmatrix_unit rat_pair rat_S rat_pair_wf rat_pair_no_covar
      rat_pair_std_ne_zero).2.1 0 1 (by decide)⟩

end scale_claims

/-! ## The perturbation matrix -/

section allocE_lemmas
variable {α : Type}

/-- The inner loop of the draw: column `j` receives the next `n` draws. -/
theorem draw_column_loop (rng : Nat → α) (j n : Nat) (st : matrix α × Nat) :
    (for_range n (fun i (st1 : matrix α × Nat) =>
      (matrix_iset st1.1 i j (rng st1.2), st1.2 + 1)) st).2 = st.2 + n ∧
    ((for_range n (fun i (st1 : matrix α × Nat) =>
      (matrix_iset st1.1 i j (rng st1.2), st1.2 + 1)) st).1.rows = st.1.rows ∧
     (for_range n (fun i (st1 : matrix α × Nat) =>
      (matrix_iset st1.1 i j (rng st1.2), st1.2 + 1)) st).1.columns = st.1.columns) ∧
    ∀ r c, (for_range n (fun i (st1 : matrix α × Nat) =>
      (matrix_iset st1.1 i j (rng st1.2), st1.2 + 1)) st).1.data r c =
        if c = j ∧ r < n then rng (st.2 + r) else st.1.data r c := by
  induction n with
  | zero =>
    refine ⟨rfl, ⟨rfl, rfl⟩, ?_⟩
    intro r c
    simp [for_range]
  | succ k ih =>
    obtain ⟨h2, hdim, hd⟩ := ih
    simp only [for_range]
    generalize for_range k _ st = s1 at h2 hdim hd
    obtain ⟨M, cnt⟩ := s1
    simp only at h2 hdim hd
    subst h2
    refine ⟨by omega, hdim, ?_⟩
    intro r c
    simp only [matrix_iset]
    by_cases h1 : r = k ∧ c = j
    · obtain ⟨h1r, h1c⟩ := h1
      subst h1r; subst h1c
      simp
    · rw [if_neg h1, hd r c]
      by_cases h3 : c = j ∧ r < k
      · rw [if_pos h3, if_pos ⟨h3.1, by omega⟩]
      · have : ¬ (c = j ∧ r < k + 1) := by
          intro h4
          rcases Nat.lt_succ_iff_lt_or_eq.mp h4.2 with h5 | h5
          · exact h3 ⟨h4.1, h5⟩
          · exact h1 ⟨h5, h4.1⟩
        rw [if_neg h3, if_neg this]

/-- The draw loops put the draw number `j * n + i` at row `i`, column `j`:
the draws go down the rows of one column before the next column. -/
theorem allocE_draw_spec (E : matrix α) (rng : Nat → α) (n N : Nat) :
    (allocE_draw E rng n N).2 = N * n ∧
    ((allocE_draw E rng n N).1.rows = E.rows ∧
      (allocE_draw E rng n N).1.columns = E.columns) ∧
    ∀ r c, (allocE_draw E rng n N).1.data r c =
      if r < n ∧ c < N then rng (c * n + r) else E.data r c := by
  unfold allocE_draw
  exact for_range_induction
    (fun k (st : matrix α × Nat) => st.2 = k * n ∧
      (st.1.rows = E.rows ∧ st.1.columns = E.columns) ∧
      ∀ r c, st.1.data r c = if r < n ∧ c < k then rng (c * n + r) else E.data r c)
    N _ (E, 0)
    ⟨by simp, ⟨rfl, rfl⟩, by intro r c; simp⟩
    (by
      intro k _ st ⟨h2, hdim, hd⟩
      obtain ⟨e2, edim, ed⟩ := draw_column_loop rng k n st
      refine ⟨by rw [e2, h2]; ring, ⟨edim.1.trans hdim.1, edim.2.trans hdim.2⟩, ?_⟩
      intro r c
      rw [ed r c, hd r c, h2]
      by_cases hck : c = k
      · subst hck
        by_cases hr : r < n
        · simp [hr]
        · simp [hr]
      · by_cases hlt : c < k
        · have : c < k + 1 := by omega
          simp [hck, hlt, this]
        · have : ¬ c < k + 1 := by omega
          simp [hck, hlt, this])

/-- A loop that replaces the entries `0 .. n - 1` of an array by a function
of the index and the old entry. -/
theorem update_loop_spec (g : Nat → α → α) (n : Nat) (v : Nat → α) (r : Nat) :
    for_range n (fun i v1 => Function.update v1 i (g i (v1 i))) v r =
      if r < n then g r (v r) else v r := by
  induction n with
  | zero => simp [for_range]
  | succ k ih =>
    simp only [for_range]
    by_cases hr : r = k
    · subst hr
      have hk : for_range r (fun i v1 => Function.update v1 i (g i (v1 i))) v r = v r := by
        rw [ih, if_neg (Nat.lt_irrefl r)]
      simp [hk]
    · rw [Function.update_noteq hr, ih]
      by_cases hlt : r < k
      · rw [if_pos hlt, if_pos (by omega)]
      · rw [if_neg hlt, if_neg (by omega)]

theorem allocE_mean_spec [Field α] (E : matrix α) (n N r : Nat) :
    allocE_mean E n N r =
      if r < n then (∑ j in Finset.range N, E.data r j) / (N : α) else 0 := by
  unfold allocE_mean
  have h0 : ∀ x, for_range n (fun iobs_active (pm : Nat → α) =>
      Function.update pm iobs_active 0) (fun _ => 0) x = 0 := by
    intro x
    have := update_loop_spec (fun _ (_ : α) => (0 : α)) n (fun _ => 0) x
    rw [this]
    split <;> rfl
  have h1 : ∀ x, for_range N (fun iens (pm : Nat → α) =>
      for_range n (fun iobs_active pm1 =>
        Function.update pm1 iobs_active (pm1 iobs_active + matrix_iget E iobs_active iens))
        pm)
      (for_range n (fun iobs_active (pm : Nat → α) =>
        Function.update pm iobs_active 0) (fun _ => 0)) x =
      if x < n then ∑ j in Finset.range N, E.data x j else 0 := by
    exact for_range_induction
      (fun k (pm : Nat → α) => ∀ x, pm x =
        if x < n then ∑ j in Finset.range k, E.data x j else 0)
      N _ _
      (by intro x; rw [h0 x]; simp)
      (by
        intro k _ pm hpm x
        have := update_loop_spec (fun i y => y + matrix_iget E i k) n pm x
        rw [this, hpm x]
        by_cases hx : x < n
        · simp only [if_pos hx, matrix_iget, Finset.sum_range_succ]
        · simp only [if_neg hx])
  have h2 := update_loop_spec (fun _ (y : α) => y / (N : α)) n
    (for_range N (fun iens (pm : Nat → α) =>
      for_range n (fun iobs_active pm1 =>
        Function.update pm1 iobs_active (pm1 iobs_active + matrix_iget E iobs_active iens))
        pm)
      (for_range n (fun iobs_active (pm : Nat → α) =>
        Function.update pm iobs_active 0) (fun _ => 0))) r
  rw [h2, h1 r]
  by_cases hr : r < n
  · simp only [if_pos hr]
  · simp only [if_neg hr]

/-- The inner loop of the centring: column `iens` loses the row means and
every row accumulates the square of its centred entry. -/
theorem centre_column_loop [Field α] (pm : Nat → α) (iens n : Nat)
    (st : matrix α × (Nat → α)) :
    ((for_range n (fun iobs_active (st1 : matrix α × (Nat → α)) =>
        (matrix_iadd st1.1 iobs_active iens (-pm iobs_active),
          Function.update st1.2 iobs_active (st1.2 iobs_active +
            matrix_iget (matrix_iadd st1.1 iobs_active iens (-pm iobs_active))
              iobs_active iens *
            matrix_iget (matrix_iadd st1.1 iobs_active iens (-pm iobs_active))
              iobs_active iens))) st).1.rows = st.1.rows ∧
     (for_range n (fun iobs_active (st1 : matrix α × (Nat → α)) =>
        (matrix_iadd st1.1 iobs_active iens (-pm iobs_active),
          Function.update st1.2 iobs_active (st1.2 iobs_active +
            matrix_iget (matrix_iadd st1.1 iobs_active iens (-pm iobs_active))
              iobs_active iens *
            matrix_iget (matrix_iadd st1.1 iobs_active iens (-pm iobs_active))
              iobs_active iens))) st).1.columns = st.1.columns) ∧
    (∀ r c, (for_range n (fun iobs_active (st1 : matrix α × (Nat → α)) =>
        (matrix_iadd st1.1 iobs_active iens (-pm iobs_active),
          Function.update st1.2 iobs_active (st1.2 iobs_active +
            matrix_iget (matrix_iadd st1.1 iobs_active iens (-pm iobs_active))
              iobs_active iens *
            matrix_iget (matrix_iadd st1.1 iobs_active iens (-pm iobs_active))
              iobs_active iens))) st).1.data r c =
      if c = iens ∧ r < n then st.1.data r c - pm r else st.1.data r c) ∧
    ∀ r, (for_range n (fun iobs_active (st1 : matrix α × (Nat → α)) =>
        (matrix_iadd st1.1 iobs_active iens (-pm iobs_active),
          Function.update st1.2 iobs_active (st1.2 iobs_active +
            matrix_iget (matrix_iadd st1.1 iobs_active iens (-pm iobs_active))
              iobs_active iens *
            matrix_iget (matrix_iadd st1.1 iobs_active iens (-pm iobs_active))
              iobs_active iens))) st).2 r =
      if r < n then st.2 r + (st.1.data r iens - pm r) * (st.1.data r iens - pm r)
      else st.2 r := by
  induction n with
  | zero =>
    refine ⟨⟨rfl, rfl⟩, ?_, ?_⟩
    · intro r c; simp [for_range]
    · intro r; simp [for_range]
  | succ k ih =>
    obtain ⟨hdim, hd, hv⟩ := ih
    simp only [for_range]
    generalize for_range k _ st = s1 at hdim hd hv
    obtain ⟨M, pv⟩ := s1
    simp only at hdim hd hv
    have hMk : M.data k iens = st.1.data k iens := by
      rw [hd k iens, if_neg (fun h => Nat.lt_irrefl k h.2)]
    have hpk : pv k = st.2 k := by
      rw [hv k, if_neg (Nat.lt_irrefl k)]
    refine ⟨hdim, ?_, ?_⟩
    · intro r c
      simp only [matrix_iadd, matrix_iget, matrix_iset]
      by_cases h1 : r = k ∧ c = iens
      · obtain ⟨h1r, h1c⟩ := h1
        subst h1r; subst h1c
        simp [hMk, sub_eq_add_neg]
      · rw [if_neg h1, hd r c]
        by_cases h3 : c = iens ∧ r < k
        · rw [if_pos h3, if_pos ⟨h3.1, by omega⟩]
        · have : ¬ (c = iens ∧ r < k + 1) := by
            intro h4
            rcases Nat.lt_succ_iff_lt_or_eq.mp h4.2 with h5 | h5
            · exact h3 ⟨h4.1, h5⟩
            · exact h1 ⟨h5, h4.1⟩
          rw [if_neg h3, if_neg this]
    · intro r
      simp only [matrix_iadd, matrix_iget, matrix_iset]
      by_cases hr : r = k
      · subst hr
        simp [hMk, hpk, sub_eq_add_neg]
      · rw [Function.update_noteq hr, hv r]
        by_cases hlt : r < k
        · rw [if_pos hlt, if_pos (by omega)]
        · rw [if_neg hlt, if_neg (by omega)]

theorem allocE_centre_spec [Field α] (E : matrix α) (pm : Nat → α) (n N : Nat) :
    ((allocE_centre E pm n N).1.rows = E.rows ∧
      (allocE_centre E pm n N).1.columns = E.columns) ∧
    (∀ r c, (allocE_centre E pm n N).1.data r c =
      if r < n ∧ c < N then E.data r c - pm r else E.data r c) ∧
    ∀ r, (allocE_centre E pm n N).2 r =
      if r < n then ∑ j in Finset.range N, (E.data r j - pm r) * (E.data r j - pm r)
      else 0 := by
  unfold allocE_centre
  have h0 : ∀ x, for_range n (fun iobs_active (pv : Nat → α) =>
      Function.update pv iobs_active 0) (fun _ => 0) x = 0 := by
    intro x
    have := update_loop_spec (fun _ (_ : α) => (0 : α)) n (fun _ => 0) x
    rw [this]
    split <;> rfl
  exact for_range_induction
    (fun k (st : matrix α × (Nat → α)) =>
      (st.1.rows = E.rows ∧ st.1.columns = E.columns) ∧
      (∀ r c, st.1.data r c = if r < n ∧ c < k then E.data r c - pm r else E.data r c) ∧
      ∀ r, st.2 r =
        if r < n then ∑ j in Finset.range k, (E.data r j - pm r) * (E.data r j - pm r)
        else 0)
    N _ _
    ⟨⟨rfl, rfl⟩, by intro r c; simp, by intro r; show _ = _; simp only []; rw [h0 r]; simp⟩
    (by
      intro k _ st ⟨hdim, hd, hv⟩
      obtain ⟨edim, ed, ev⟩ := centre_column_loop pm k n st
      refine ⟨⟨edim.1.trans hdim.1, edim.2.trans hdim.2⟩, ?_, ?_⟩
      · intro r c
        rw [ed r c, hd r c]
        by_cases hck : c = k
        · subst hck
          by_cases hr : r < n
          · simp [hr]
          · simp [hr]
        · by_cases hlt : c < k
          · have : c < k + 1 := by omega
            simp [hck, hlt, this]
          · have : ¬ c < k + 1 := by omega
            simp [hck, hlt, this]
      · intro r
        rw [ev r, hv r, hd r k]
        by_cases hr : r < n
        · simp only [if_pos hr, Nat.lt_irrefl, and_false, if_false, Finset.sum_range_succ]
        · simp only [if_neg hr])

theorem obs_block_initE_spec [Field α] (sqrt : α → α) (nr nc : Nat) (b : obs_block α)
    (E : matrix α) (pv : Nat → α) (off : Nat) (hE : E.rows = nr ∧ E.columns = nc) :
    (obs_block_initE sqrt b E pv off).2 = off + b.active_indices.length ∧
    ((obs_block_initE sqrt b E pv off).1.rows = nr ∧
      (obs_block_initE sqrt b E pv off).1.columns = nc) ∧
    (∀ q a, b.active_indices[q]? = some a →
      (fun c => (obs_block_initE sqrt b E pv off).1.data (off + q) c) =
        (fun c => if c < nc then
            E.data (off + q) c * (obs_block_iget_std b a * sqrt ((nc : α) / pv (off + q)))
          else E.data (off + q) c)) ∧
    (∀ r, (r < off ∨ off + b.active_indices.length ≤ r) →
      (fun c => (obs_block_initE sqrt b E pv off).1.data r c) = (fun c => E.data r c)) := by
  obtain ⟨hr, hc⟩ := hE
  subst hc
  exact block_scan_spec b
    (fun i r (M : matrix α) =>
      for_range E.columns (fun iens E1 => matrix_imul E1 r iens
        (obs_block_iget_std b i * sqrt ((E.columns : α) / pv r))) M)
    (fun (M : matrix α) r => fun c => M.data r c)
    (fun a r old => fun c =>
      if c < E.columns then
        old c * (obs_block_iget_std b a * sqrt ((E.columns : α) / pv r))
      else old c)
    (fun M => M.rows = nr ∧ M.columns = E.columns) E off b.size
    (by
      intro i r s hs
      obtain ⟨e1, e2, -⟩ := row_loop_spec
        (fun _ x => x * (obs_block_iget_std b i * sqrt ((E.columns : α) / pv r)))
        r E.columns s
      exact ⟨e1.trans hs.1, e2.trans hs.2⟩)
    (by
      intro q a _ s r _
      funext c
      have := (row_loop_spec
        (fun _ x => x * (obs_block_iget_std b a * sqrt ((E.columns : α) / pv (off + q))))
        (off + q) E.columns s).2.2 r c
      simp only [matrix_imul, matrix_iget]
      rw [this]
      by_cases hr : r = off + q
      · subst hr
        by_cases hc : c < E.columns
        · simp [hc]
        · simp [hc]
      · simp [hr])
    ⟨hr, rfl⟩

/-- The entries of `obs_data_allocE`: in the row of the `q`-th `ACTIVE`
element, the centred draw times the scaled std times the square root of the
ensemble size over the centred sum of squares of the row. -/
theorem obs_data_allocE_rows [Field α] (sqrt : α → α) (d : obs_data α) (rng : Nat → α)
    (N : Nat) (hwf : d.wf) :
    ((obs_data_allocE sqrt d rng N).rows = d.active_rows.length ∧
      (obs_data_allocE sqrt d rng N).columns = N) ∧
    ∀ q b o a, d.active_rows[q]? = some (b, o, a) → ∀ c, c < N →
      (obs_data_allocE sqrt d rng N).data q c =
        (rng (c * d.active_rows.length + q) -
            sample_mean (fun j => rng (j * d.active_rows.length + q)) N) *
          (obs_block_iget_std b a * sqrt ((N : α) /
            centred_sum_squares (fun j => rng (j * d.active_rows.length + q)) N)) := by
  have hn := obs_data_active_size_toNat hwf
  obtain ⟨-, hdim1, hd1⟩ := allocE_draw_spec
    (matrix_alloc d.active_rows.length N : matrix α) rng d.active_rows.length N
  have hm := allocE_mean_spec
    (allocE_draw (matrix_alloc d.active_rows.length N : matrix α) rng
      d.active_rows.length N).1 d.active_rows.length N
  obtain ⟨hdim2, hd2, hv2⟩ := allocE_centre_spec
    (allocE_draw (matrix_alloc d.active_rows.length N : matrix α) rng
      d.active_rows.length N).1
    (allocE_mean (allocE_draw (matrix_alloc d.active_rows.length N : matrix α) rng
      d.active_rows.length N).1 d.active_rows.length N)
    d.active_rows.length N
  have hcol : (allocE_centre
      (allocE_draw (matrix_alloc d.active_rows.length N : matrix α) rng
        d.active_rows.length N).1
      (allocE_mean (allocE_draw (matrix_alloc d.active_rows.length N : matrix α) rng
        d.active_rows.length N).1 d.active_rows.length N)
      d.active_rows.length N).1.rows = d.active_rows.length ∧
    (allocE_centre
      (allocE_draw (matrix_alloc d.active_rows.length N : matrix α) rng
        d.active_rows.length N).1
      (allocE_mean (allocE_draw (matrix_alloc d.active_rows.length N : matrix α) rng
        d.active_rows.length N).1 d.active_rows.length N)
      d.active_rows.length N).1.columns = N := by
    rw [hdim2.1, hdim2.2, hdim1.1, hdim1.2]
    exact ⟨rfl, rfl⟩
  have key := data_scan_spec
    (fun b (st : matrix α × Nat) => obs_block_initE sqrt b st.1
      (allocE_centre
        (allocE_draw (matrix_alloc d.active_rows.length N : matrix α) rng
          d.active_rows.length N).1
        (allocE_mean (allocE_draw (matrix_alloc d.active_rows.length N : matrix α) rng
          d.active_rows.length N).1 d.active_rows.length N)
        d.active_rows.length N).2 st.2)
    (fun (M : matrix α) r => fun c => M.data r c)
    (fun b _ a r old => fun c =>
      if c < N then old c * (obs_block_iget_std b a * sqrt ((N : α) /
        (allocE_centre
          (allocE_draw (matrix_alloc d.active_rows.length N : matrix α) rng
            d.active_rows.length N).1
          (allocE_mean (allocE_draw (matrix_alloc d.active_rows.length N : matrix α) rng
            d.active_rows.length N).1 d.active_rows.length N)
          d.active_rows.length N).2 r)) else old c)
    (fun M => M.rows = d.active_rows.length ∧ M.columns = N) d.data
    (fun b _ s off hs => obs_block_initE_spec sqrt _ N b s _ off hs)
    _ 0 hcol
  beta_reduce at key
  obtain ⟨-, hc3, hrow, -⟩ := key
  have hE : obs_data_allocE sqrt d rng N = (d.data.foldl
      (fun (st : matrix α × Nat) b => obs_block_initE sqrt b st.1
        (allocE_centre
          (allocE_draw (matrix_alloc d.active_rows.length N : matrix α) rng
            d.active_rows.length N).1
          (allocE_mean (allocE_draw (matrix_alloc d.active_rows.length N : matrix α) rng
            d.active_rows.length N).1 d.active_rows.length N)
          d.active_rows.length N).2 st.2)
      ((allocE_centre
        (allocE_draw (matrix_alloc d.active_rows.length N : matrix α) rng
          d.active_rows.length N).1
        (allocE_mean (allocE_draw (matrix_alloc d.active_rows.length N : matrix α) rng
          d.active_rows.length N).1 d.active_rows.length N)
        d.active_rows.length N).1, 0)).1 := by
    simp only [obs_data_allocE, hn]
  rw [hE]
  refine ⟨hc3, ?_⟩
  intro q b o a hq c hc
  have hlt : q < d.active_rows.length := getElem?_lt_length hq
  have hraw : ∀ j, j < N → (allocE_draw (matrix_alloc d.active_rows.length N : matrix α) rng
      d.active_rows.length N).1.data q j = rng (j * d.active_rows.length + q) := by
    intro j hj
    rw [hd1 q j, if_pos ⟨hlt, hj⟩]
  have hsum : ∑ j in Finset.range N,
      (allocE_draw (matrix_alloc d.active_rows.length N : matrix α) rng
        d.active_rows.length N).1.data q j =
      ∑ j in Finset.range N, rng (j * d.active_rows.length + q) :=
    Finset.sum_congr rfl (fun j hj => hraw j (Finset.mem_range.mp hj))
  have hmean : allocE_mean (allocE_draw (matrix_alloc d.active_rows.length N : matrix α) rng
      d.active_rows.length N).1 d.active_rows.length N q =
      sample_mean (fun j => rng (j * d.active_rows.length + q)) N := by
    rw [hm q, if_pos hlt, hsum]
    rfl
  have hvar : (allocE_centre
      (allocE_draw (matrix_alloc d.active_rows.length N : matrix α) rng
        d.active_rows.length N).1
      (allocE_mean (allocE_draw (matrix_alloc d.active_rows.length N : matrix α) rng
        d.active_rows.length N).1 d.active_rows.length N)
      d.active_rows.length N).2 q =
      centred_sum_squares (fun j => rng (j * d.active_rows.length + q)) N := by
    rw [hv2 q, if_pos hlt, hmean]
    unfold centred_sum_squares
    exact Finset.sum_congr rfl (fun j hj => by rw [hraw j (Finset.mem_range.mp hj)])
  have h := congrFun (hrow q b o a hq) c
  simp only [Nat.zero_add, if_pos hc] at h
  rw [h, hvar, hd2 q c, if_pos ⟨hlt, hc⟩, hraw c hc, hmean]

end allocE_lemmas

section allocE_claims
variable {α : Type}

/-- A row that is a centred row times a factor has sample mean 0 and centred
sum of squares the one of the original row times the square of the factor. -/
theorem scaled_centred_row [Field α] [CharZero α] (x y : Nat → α) (f : α) (N : Nat)
    (hN : 0 < N) (hy : ∀ c, c < N → y c = (x c - sample_mean x N) * f) :
    sample_mean y N = 0 ∧
    centred_sum_squares y N = centred_sum_squares x N * (f * f) := by
  have hN0 : (N : α) ≠ 0 := Nat.cast_ne_zero.mpr (Nat.pos_iff_ne_zero.mp hN)
  have hsum : ∑ c in Finset.range N, y c = 0 := by
    rw [Finset.sum_congr rfl (fun c hc => hy c (Finset.mem_range.mp hc)), ← Finset.sum_mul,
      Finset.sum_sub_distrib, Finset.sum_const, Finset.card_range, nsmul_eq_mul]
    unfold sample_mean
    rw [mul_div_cancel₀ _ hN0, sub_self, zero_mul]
  have hmean : sample_mean y N = 0 := by
    unfold sample_mean
    rw [hsum, zero_div]
  refine ⟨hmean, ?_⟩
  unfold centred_sum_squares
  rw [hmean, Finset.sum_mul]
  apply Finset.sum_congr rfl
  intro c hc
  rw [hy c (Finset.mem_range.mp hc)]
  ring

/-- C11: for a data set satisfying the active-count invariant, an ensemble
size of at least 2 and draws for which the centred sum of squares of every row
is not zero, the matrix returned by `obs_data_allocE` has `activeSize()` rows
and `ensembleSize` columns, and every row has sample mean exactly 0 across the
ensemble columns, in exact arithmetic. -/
theorem obs_data_allocE_row_mean_zero [Field α] [CharZero α] (sqrt : α → α)
    (d : obs_data α) (rng : Nat → α) (N : Nat) (hwf : d.wf) (hN : 2 ≤ N)
    (_hss : ∀ r : Nat, (r : Int) < obs_data_get_active_size d →
      centred_sum_squares
        (fun j => rng (j * (obs_data_get_active_size d).toNat + r)) N ≠ 0) :
    ((obs_data_allocE sqrt d rng N).rows : Int) = obs_data_get_active_size d ∧
    (obs_data_allocE sqrt d rng N).columns = N ∧
    ∀ r : Nat, (r : Int) < obs_data_get_active_size d →
      sample_mean (fun c => (obs_data_allocE sqrt d rng N).data r c) N = 0 := by
  obtain ⟨hdim, hrow⟩ := obs_data_allocE_rows sqrt d rng N hwf
  refine ⟨by rw [hdim.1, obs_data_active_size_eq_rows hwf], hdim.2, ?_⟩
  intro r hr
  obtain ⟨b, o, a, hq⟩ := active_rows_get_of_lt hwf hr
  exact (scaled_centred_row (fun j => rng (j * d.active_rows.length + r))
    (fun c => (obs_data_allocE sqrt d rng N).data r c) _ N (by omega)
    (fun c hc => hrow r b o a hq c hc)).1

theorem linear_draws_ss (n r : Nat) :
    centred_sum_squares (fun j => ((j * n + r : Nat) : Rat)) 2 ≠ 0 ∨ n = 0 := by
  by_cases hn : n = 0
  · exact Or.inr hn
  · left
    have hn' : (n : Rat) ≠ 0 := Nat.cast_ne_zero.mpr hn
    simp only [centred_sum_squares, sample_mean, Finset.sum_range_succ, Finset.sum_range_zero]
    push_cast
    ring_nf
    intro h
    have h2 : (n : Rat) ^ 2 = 0 := by linarith
    exact hn' (pow_eq_zero_iff (by norm_num) |>.mp h2)

/-- C11 on a data set over the rationals with two `ACTIVE` elements, two
ensemble members and the draws `0, 1, 2, 3`. -/
theorem obs_data_allocE_row_mean_zero_witness :
    rat_pair.wf ∧ 2 ≤ 2 ∧
    (∀ r : Nat, (r : Int) < obs_data_get_active_size rat_pair →
      centred_sum_squares
        (fun j => ((j * (obs_data_get_active_size rat_pair).toNat + r : Nat) : Rat)) 2 ≠ 0) ∧
    ((obs_data_allocE (fun x => x) rat_pair (fun k => (k : Rat)) 2).rows : Int) =
      obs_data_get_active_size rat_pair ∧
    (obs_data_allocE (fun x => x) rat_pair (fun k => (k : Rat)) 2).columns = 2 ∧
    sample_mean (fun c => (obs_data_allocE (fun x => x) rat_pair
      (fun k => (k : Rat)) 2).data 1 c) 2 = 0 :=
  have hss : ∀ r : Nat, (r : Int) < obs_data_get_active_size rat_pair →
      centred_sum_squares
        (fun j => ((j * (obs_data_get_active_size rat_pair).toNat + r : Nat) : Rat)) 2 ≠ 0 :=
    fun r _ => (linear_draws_ss 2 r).resolve_right (by decide)
  ⟨rat_pair_wf, Nat.le_refl 2, hss,
    (obs_data_allocE_row_mean_zero (fun x => x) rat_pair (fun k => (k : Rat)) 2
      rat_pair_wf (Nat.le_refl 2) hss).1,
    (obs_data_allocE_row_mean_zero (fun x => x) rat_pair (fun k => (k : Rat)) 2
      rat_pair_wf (Nat.le_refl 2) hss).2.1,
    (obs_data_allocE_row_mean_zero (fun x => x) rat_pair (fun k => (k : Rat)) 2
      rat_pair_wf (Nat.le_refl 2) hss).2.2 1 (by decide)⟩

theorem centred_sum_squares_nonneg (x : Nat → Real) (N : Nat) :
    0 ≤ centred_sum_squares x N := by
  unfold centred_sum_squares
  exact Finset.sum_nonneg (fun j _ => mul_self_nonneg _)

theorem real_pair_wf : real_pair.wf := by decide

theorem real_linear_draws_ss (r : Nat) :
    centred_sum_squares (fun j => ((j * 2 + r : Nat) : Real)) 2 ≠ 0 := by
  simp only [centred_sum_squares, sample_mean, Finset.sum_range_succ, Finset.sum_range_zero]
  push_cast
  ring_nf
  norm_num

/-- C12: for a data set satisfying the active-count invariant whose `ACTIVE`
elements have a scaled std that is not negative, an ensemble size of at least
2 and draws for which the centred sum of squares of every row is not zero,
each row `r` of the matrix returned by `obs_data_allocE` has sample standard
deviation (square root of the mean over the ensemble columns of the squared
deviations from the row mean) equal to the scaled std of the `r`-th `ACTIVE`
element, in exact real arithmetic. -/
theorem obs_data_allocE_row_std (d : obs_data Real) (rng : Nat → Real) (N : Nat)
    (hwf : d.wf) (hN : 2 ≤ N)
    (hss : ∀ r : Nat, (r : Int) < obs_data_get_active_size d →
      centred_sum_squares
        (fun j => rng (j * (obs_data_get_active_size d).toNat + r)) N ≠ 0)
    (hstd : ∀ (r : Nat) (b : obs_block Real) (o a : Nat),
      d.active_rows[r]? = some (b, o, a) → 0 ≤ obs_block_iget_std b a) :
    ∀ (r : Nat) (b : obs_block Real) (o a : Nat), d.active_rows[r]? = some (b, o, a) →
      Real.sqrt (centred_sum_squares
        (fun c => (obs_data_allocE Real.sqrt d rng N).data r c) N / (N : Real)) =
        obs_block_iget_std b a := by
  intro r b o a hq
  obtain ⟨-, hrow⟩ := obs_data_allocE_rows Real.sqrt d rng N hwf
  have hlt : r < d.active_rows.length := getElem?_lt_length hq
  have hri : (r : Int) < obs_data_get_active_size d := by
    rw [obs_data_active_size_eq_rows hwf]
    exact_mod_cast hlt
  have hne := hss r hri
  rw [obs_data_active_size_toNat hwf] at hne
  have hNpos : (0 : Real) < (N : Real) := by exact_mod_cast (show 0 < N by omega)
  have hsspos : 0 < centred_sum_squares (fun j => rng (j * d.active_rows.length + r)) N :=
    lt_of_le_of_ne (centred_sum_squares_nonneg _ N) (Ne.symm hne)
  have hs := hstd r b o a hq
  obtain ⟨-, hcss⟩ := scaled_centred_row (fun j => rng (j * d.active_rows.length + r))
    (fun c => (obs_data_allocE Real.sqrt d rng N).data r c) _ N (by omega)
    (fun c hc => hrow r b o a hq c hc)
  rw [hcss]
  have hroot : Real.sqrt ((N : Real) /
      centred_sum_squares (fun j => rng (j * d.active_rows.length + r)) N) *
      Real.sqrt ((N : Real) /
        centred_sum_squares (fun j => rng (j * d.active_rows.length + r)) N) =
      (N : Real) / centred_sum_squares (fun j => rng (j * d.active_rows.length + r)) N :=
    Real.mul_self_sqrt (le_of_lt (div_pos hNpos hsspos))
  have hval : centred_sum_squares (fun j => rng (j * d.active_rows.length + r)) N *
      (obs_block_iget_std b a * Real.sqrt ((N : Real) /
          centred_sum_squares (fun j => rng (j * d.active_rows.length + r)) N) *
        (obs_block_iget_std b a * Real.sqrt ((N : Real) /
          centred_sum_squares (fun j => rng (j * d.active_rows.length + r)) N))) /
      (N : Real) = obs_block_iget_std b a * obs_block_iget_std b a := by
    have e : obs_block_iget_std b a * Real.sqrt ((N : Real) /
          centred_sum_squares (fun j => rng (j * d.active_rows.length + r)) N) *
        (obs_block_iget_std b a * Real.sqrt ((N : Real) /
          centred_sum_squares (fun j => rng (j * d.active_rows.length + r)) N)) =
        obs_block_iget_std b a * obs_block_iget_std b a *
          ((N : Real) /
            centred_sum_squares (fun j => rng (j * d.active_rows.length + r)) N) := by
      rw [mul_mul_mul_comm, hroot]
    rw [e]
    field_simp
  rw [hval]
  exact Real.sqrt_mul_self hs

/-- C12 on a data set over the reals with scaled std 6 and 8, two ensemble
members and the draws `0, 1, 2, 3`: the sample standard deviation of row 0 is
`3 * 2`. -/
theorem obs_data_allocE_row_std_witness :
    real_pair.wf ∧ 2 ≤ 2 ∧
    (∀ r : Nat, (r : Int) < obs_data_get_active_size real_pair →
      centred_sum_squares
        (fun j => ((j * (obs_data_get_active_size real_pair).toNat + r : Nat) : Real)) 2
          ≠ 0) ∧
    (∀ (r : Nat) (b : obs_block Real) (o a : Nat),
      real_pair.active_rows[r]? = some (b, o, a) → 0 ≤ obs_block_iget_std b a) ∧
    real_pair.active_rows[0]? =
      some (real_pair.data.getD 0 (obs_block_alloc "" 0 none false 0), 0, 0) ∧
    Real.sqrt (centred_sum_squares
      (fun c => (obs_data_allocE Real.sqrt real_pair (fun k => (k : Real)) 2).data 0 c) 2 /
        ((2 : Nat) : Real)) = 3 * 2 :=
  have hss : ∀ r : Nat, (r : Int) < obs_data_get_active_size real_pair →
      centred_sum_squares
        (fun j => ((j * (obs_data_get_active_size real_pair).toNat + r : Nat) : Real)) 2
          ≠ 0 :=
    fun r _ => real_linear_draws_ss r
  have hstd : ∀ (r : Nat) (b : obs_block Real) (o a : Nat),
      real_pair.active_rows[r]? = some (b, o, a) → 0 ≤ obs_block_iget_std b a := by
    intro r b o a h
    have hrows : real_pair.active_rows =
        [(real_pair.data.getD 0 (obs_block_alloc "" 0 none false 0), 0, 0),
         (real_pair.data.getD 0 (obs_block_alloc "" 0 none false 0), 0, 1)] := rfl
    rw [hrows] at h
    match r, h with
    | 0, h =>
      simp only [List.getElem?_cons_zero, Option.some.injEq, Prod.mk.injEq] at h
      obtain ⟨hb, -, ha⟩ := h
      subst hb; subst ha
      show (0 : Real) ≤ 3 * 2
      norm_num
    | 1, h =>
      simp only [List.getElem?_cons_succ, List.getElem?_cons_zero, Option.some.injEq,
        Prod.mk.injEq] at h
      obtain ⟨hb, -, ha⟩ := h
      subst hb; subst ha
      show (0 : Real) ≤ 4 * 2
      norm_num
    | n + 2, h => simp at h
  ⟨real_pair_wf, Nat.le_refl 2, hss, hstd, rfl,
    obs_data_allocE_row_std real_pair (fun k => (k : Real)) 2 real_pair_wf (Nat.le_refl 2)
      hss hstd 0 _ 0 0 rfl⟩

end allocE_claims

/-! ## The invariant on every data set built through the interface -/

section reachable
variable {α : Type}

theorem obs_data_call_run_wf [Zero α] (d : obs_data α) (c : obs_data_call α) (h : d.wf)
    (hc : c.in_range d) : (obs_data_call.run d c).wf := by
  cases c with
  | add_block key n covar owner =>
    intro b hb
    simp only [obs_data_call.run, obs_data_add_block, List.mem_append,
      List.mem_singleton] at hb
    rcases hb with hb | hb
    · exact h b hb
    · rw [hb]; exact obs_block_alloc_wf key n covar owner _
  | reset =>
    intro b hb
    simp [obs_data_call.run, obs_data_reset] at hb
  | on_block k op =>
    simp only [obs_data_call.run]
    cases hk : d.data[k]? with
    | none =>
      have hd : obs_data_on_block d k op = d := by simp [obs_data_on_block, hk]
      rw [hd]
      exact h
    | some b0 =>
      obtain ⟨hdata, -, -, -⟩ := obs_data_on_block_data d k b0 op hk
      intro b hb
      rw [hdata] at hb
      rcases List.mem_or_eq_of_mem_set hb with hb | hb
      · exact h b hb
      · rw [hb]
        exact block_op_run_wf op (h b0 (mem_of_getElem?_some hk)) (hc b0 hk)
  | get_active_mask => exact h

/-- A data set created by `obs_data_alloc` and changed by calls that address
elements of their blocks satisfies the invariant. -/
theorem obs_data_run_wf [Zero α] (g : α) (calls : List (obs_data_call α))
    (hc : calls_in_range (obs_data_alloc g) calls) :
    (obs_data_run (obs_data_alloc g) calls).wf := by
  have hgen : ∀ (l : List (obs_data_call α)) (d : obs_data α), d.wf →
      calls_in_range d l → (obs_data_run d l).wf := by
    intro l
    induction l with
    | nil => intro d hd _; exact hd
    | cons c rest ih =>
      intro d hd hr
      simp only [obs_data_run, List.foldl_cons]
      exact ih _ (obs_data_call_run_wf d c hd hr.1) hr.2
  apply hgen calls _ _ hc
  intro b hb
  simp [obs_data_alloc, obs_data_reset] at hb

end reachable

/-! ## Adding blocks and resetting -/

section lifecycle_claims
variable {α : Type}

/-- C21: `obs_data_add_block` appends exactly one block at the end of the
block sequence: the new block has size `n`, every element `LOCAL_INACTIVE`,
`active_size` 0 and the data set's `global_std_scaling`; the number of blocks
grows by 1, the total size by `n`, the active size is unchanged, and every
block added before keeps its position and contents. -/
theorem obs_data_add_block_spec [Zero α] (d : obs_data α) (key : String) (n : Nat)
    (covar : Option (matrix α)) (owner : Bool) :
    (obs_data_add_block d key n covar owner).data =
      d.data ++ [obs_block_alloc key n covar owner d.global_std_scaling] ∧
    (obs_data_add_block d key n covar owner).data[d.data.length]? =
      some (obs_block_alloc key n covar owner d.global_std_scaling) ∧
    (obs_block_alloc key n covar owner d.global_std_scaling).size = n ∧
    (obs_block_alloc key n covar owner d.global_std_scaling).active_mode =
      List.replicate n LOCAL_INACTIVE ∧
    (obs_block_alloc key n covar owner d.global_std_scaling).active_size = 0 ∧
    (obs_block_alloc key n covar owner d.global_std_scaling).global_std_scaling =
      d.global_std_scaling ∧
    obs_data_get_num_blocks (obs_data_add_block d key n covar owner) =
      obs_data_get_num_blocks d + 1 ∧
    obs_data_get_total_size (obs_data_add_block d key n covar owner) =
      obs_data_get_total_size d + n ∧
    obs_data_get_active_size (obs_data_add_block d key n covar owner) =
      obs_data_get_active_size d ∧
    (obs_data_add_block d key n covar owner).data.take d.data.length = d.data ∧
    (obs_data_add_block d key n covar owner).global_std_scaling = d.global_std_scaling := by
  refine ⟨rfl, ?_, rfl, rfl, rfl, rfl, ?_, ?_, ?_, ?_, rfl⟩
  · simp [obs_data_add_block]
  · simp [obs_data_get_num_blocks, obs_data_add_block]
  · rw [obs_data_get_total_size_eq, obs_data_get_total_size_eq]
    simp [obs_data_add_block, obs_block_alloc]
  · rw [obs_data_get_active_size_eq, obs_data_get_active_size_eq]
    simp [obs_data_add_block, obs_block_alloc]
  · simp [obs_data_add_block]

/-- C22: after `obs_data_reset` the data set has no blocks: the number of
blocks, the total size and the active size are 0 and the active mask is empty,
while `global_std_scaling` is unchanged, so that a block added afterwards
carries it. -/
theorem obs_data_reset_spec [Zero α] (d : obs_data α) (key : String) (n : Nat)
    (covar : Option (matrix α)) (owner : Bool) :
    (obs_data_reset d).data = [] ∧
    obs_data_get_num_blocks (obs_data_reset d) = 0 ∧
    obs_data_get_total_size (obs_data_reset d) = 0 ∧
    obs_data_get_active_size (obs_data_reset d) = 0 ∧
    (obs_data_get_active_mask (obs_data_reset d)).length = 0 ∧
    (obs_data_reset d).global_std_scaling = d.global_std_scaling ∧
    (obs_data_add_block (obs_data_reset d) key n covar owner).data =
      [obs_block_alloc key n covar owner d.global_std_scaling] := by
  refine ⟨rfl, rfl, rfl, rfl, ?_, rfl, rfl⟩
  simp [obs_data_get_active_mask, obs_data_reset, obs_data_get_total_size,
    bool_vector_resize]

end lifecycle_claims

/-! ## Validation and the state machine of an element -/

section state_claims
variable {α : Type}

/-- C23, as the code has it: `obs_block_iset` performs no check of the std.
For a local index below `size` and a std that is zero or negative it stores
the value and the std, leaves the element `ACTIVE` and counts it, the same way
as for a positive std. -/
theorem obs_block_iset_accepts_nonpositive_std [Zero α] [LE α] (b : obs_block α) (i : Nat)
    (v s : α) (hi : i < b.size) (hs : b.shaped) (_hneg : s ≤ 0) :
    (obs_block_iset b i v s).value[i]? = some v ∧
    (obs_block_iset b i v s).std[i]? = some s ∧
    (obs_block_iset b i v s).active_mode[i]? = some ACTIVE ∧
    (b.active_mode[i]? ≠ some ACTIVE →
      (obs_block_iset b i v s).active_size = b.active_size + 1) ∧
    (b.active_mode[i]? = some ACTIVE →
      (obs_block_iset b i v s).active_size = b.active_size) := by
  obtain ⟨hv, hsd, -⟩ := obs_block_iset_get b i v s hi hs
  have him : i < b.active_mode.length := hs.2.2 ▸ hi
  refine ⟨hv, hsd, ?_, ?_, ?_⟩
  · by_cases ha : b.active_mode[i]? = some ACTIVE
    · rw [obs_block_iset_of_active v s ha]; exact ha
    · rw [obs_block_iset_of_not_active v s ha]; simp [him]
  · intro ha
    rw [obs_block_iset_of_not_active v s ha]
  · intro ha
    rw [obs_block_iset_of_active v s ha]

/-- The amended C23 on the fresh scenario block: writing value 10 with std
`-1` at index 0 stores `-1` and activates the element. -/
theorem obs_block_iset_accepts_nonpositive_std_witness :
    0 < wopr_empty.size ∧ wopr_empty.shaped ∧ (-1 : Int) ≤ 0 ∧
    wopr_empty.active_mode[0]? ≠ some ACTIVE ∧
    (obs_block_iset wopr_empty 0 10 (-1)).std[0]? = some (-1) ∧
    (obs_block_iset wopr_empty 0 10 (-1)).active_mode[0]? = some ACTIVE ∧
    (obs_block_iset wopr_empty 0 10 (-1)).active_size = wopr_empty.active_size + 1 :=
  have h0 : wopr_empty.shaped := ⟨rfl, rfl, rfl⟩
  have a0 : wopr_empty.active_mode[0]? ≠ some ACTIVE := by decide
  ⟨by decide, h0, by decide, a0,
    (obs_block_iset_accepts_nonpositive_std wopr_empty 0 10 (-1) (by decide) h0
      (by decide)).2.1,
    (obs_block_iset_accepts_nonpositive_std wopr_empty 0 10 (-1) (by decide) h0
      (by decide)).2.2.1,
    (obs_block_iset_accepts_nonpositive_std wopr_empty 0 10 (-1) (by decide) h0
      (by decide)).2.2.2.1 a0⟩

/-- C23 as stated fails: a call with std `-1` does not leave the block
unchanged; the std is stored and the element becomes `ACTIVE`. -/
theorem obs_block_iset_does_not_reject :
    ¬ (∀ (b : obs_block Int) (i : Nat) (v s : Int), i < b.size → b.shaped → s ≤ 0 →
        (obs_block_iset b i v s).value = b.value ∧
        (obs_block_iset b i v s).std = b.std ∧
        (obs_block_iset b i v s).active_mode = b.active_mode ∧
        (obs_block_iset b i v s).active_size = b.active_size) := by
  intro h
  have h1 := (h wopr_empty 0 10 (-1) (by decide) ⟨rfl, rfl, rfl⟩ (by decide)).2.1
  exact absurd h1 (by decide)

theorem block_op_run_mode_other (b : obs_block α) (op : block_op α) (j : Nat)
    (hj : op.index ≠ j) : (block_op.run b op).active_mode[j]? = b.active_mode[j]? := by
  cases op with
  | iset i v s =>
    simp only [block_op.index] at hj
    simp only [block_op.run]
    by_cases ha : b.active_mode[i]? = some ACTIVE
    · rw [obs_block_iset_of_active v s ha]
    · rw [obs_block_iset_of_not_active v s ha]
      simp [List.getElem?_set, hj]
  | iset_missing i =>
    simp only [block_op.index] at hj
    simp only [block_op.run]
    by_cases ha : b.active_mode[i]? = some ACTIVE
    · rw [obs_block_iset_missing_of_active ha]
      simp [List.getElem?_set, hj]
    · rw [obs_block_iset_missing_of_not_active ha]
      simp [List.getElem?_set, hj]
  | deactivate i verbose msg =>
    simp only [block_op.index] at hj
    simp only [block_op.run]
    by_cases ha : b.active_mode[i]? = some ACTIVE
    · rw [obs_block_deactivate_of_active verbose msg ha]
      simp [List.getElem?_set, hj]
    · rw [obs_block_deactivate_of_not_active verbose msg ha]

/-- A call that is not `obs_block_iset` never makes an element `ACTIVE`. -/
theorem block_op_run_not_activated (b : obs_block α) (op : block_op α) (j : Nat)
    (hop : ∀ i v s, op ≠ .iset i v s) (hb : b.active_mode[j]? ≠ some ACTIVE) :
    (block_op.run b op).active_mode[j]? ≠ some ACTIVE := by
  by_cases hj : op.index = j
  · cases op with
    | iset i v s => exact absurd rfl (hop i v s)
    | iset_missing i =>
      simp only [block_op.index] at hj
      subst hj
      simp only [block_op.run]
      rw [obs_block_iset_missing_of_not_active hb]
      intro h
      have hlt := getElem?_lt_length h
      simp only [List.length_set] at hlt
      simp [hlt] at h
    | deactivate i verbose msg =>
      simp only [block_op.index] at hj
      subst hj
      simp only [block_op.run]
      rw [obs_block_deactivate_of_not_active verbose msg hb]
      exact hb
  · rw [block_op_run_mode_other b op j hj]
    exact hb

theorem block_run_not_activated (b : obs_block α) (ops : List (block_op α)) (j : Nat)
    (hops : ∀ o ∈ ops, ∀ i v s, o ≠ .iset i v s) (hb : b.active_mode[j]? ≠ some ACTIVE) :
    (block_run b ops).active_mode[j]? ≠ some ACTIVE := by
  induction ops generalizing b with
  | nil => exact hb
  | cons o rest ih =>
    simp only [block_run, List.foldl_cons]
    exact ih (block_op.run b o) (fun o2 ho2 => hops o2 (List.mem_cons_of_mem _ ho2))
      (block_op_run_not_activated b o j (hops o (List.mem_cons_self _ _)) hb)

/-- C25: over `obs_block_iset`, `obs_block_iset_missing` and
`obs_block_deactivate` applied to any index of a block, an element that is not
`ACTIVE` becomes `ACTIVE` only through `obs_block_iset` on that element, and an
`ACTIVE` element leaves `ACTIVE` only to `DEACTIVATED`, through
`obs_block_deactivate` on it, or to `MISSING`, through `obs_block_iset_missing`
on it; hence an element that is not `ACTIVE` stays so through every sequence of
`obs_block_iset_missing` and `obs_block_deactivate` calls. -/
theorem obs_block_state_machine (b : obs_block α) (op : block_op α) (j : Nat)
    (ops : List (block_op α)) :
    (b.active_mode[j]? ≠ some ACTIVE → (block_op.run b op).active_mode[j]? = some ACTIVE →
      ∃ v s, op = .iset j v s) ∧
    (b.active_mode[j]? = some ACTIVE → (block_op.run b op).active_mode[j]? ≠ some ACTIVE →
      ((∃ verbose msg, op = .deactivate j verbose msg) ∧
        (block_op.run b op).active_mode[j]? = some DEACTIVATED) ∨
      (op = .iset_missing j ∧ (block_op.run b op).active_mode[j]? = some MISSING)) ∧
    ((∀ o ∈ ops, ∀ i v s, o ≠ .iset i v s) → b.active_mode[j]? ≠ some ACTIVE →
      (block_run b ops).active_mode[j]? ≠ some ACTIVE) := by
  refine ⟨?_, ?_, fun hops hb => block_run_not_activated b ops j hops hb⟩
  · intro hb hafter
    cases op with
    | iset i v s =>
      by_cases hij : i = j
      · subst hij; exact ⟨v, s, rfl⟩
      · rw [block_op_run_mode_other b _ j (by simpa [block_op.index] using hij)] at hafter
        exact absurd hafter hb
    | iset_missing i =>
      exact absurd hafter
        (block_op_run_not_activated b _ j (fun _ _ _ h => by cases h) hb)
    | deactivate i verbose msg =>
      exact absurd hafter
        (block_op_run_not_activated b _ j (fun _ _ _ h => by cases h) hb)
  · intro hb hafter
    have hlt : j < b.active_mode.length := getElem?_lt_length hb
    cases op with
    | iset i v s =>
      by_cases hij : i = j
      · subst hij
        simp only [block_op.run] at hafter
        rw [obs_block_iset_of_active v s hb] at hafter
        exact absurd hb hafter
      · rw [block_op_run_mode_other b _ j (by simpa [block_op.index] using hij)] at hafter
        exact absurd hb hafter
    | iset_missing i =>
      by_cases hij : i = j
      · subst hij
        right
        refine ⟨rfl, ?_⟩
        simp only [block_op.run]
        rw [obs_block_iset_missing_of_active hb]
        simp [hlt]
      · rw [block_op_run_mode_other b _ j (by simpa [block_op.index] using hij)] at hafter
        exact absurd hb hafter
    | deactivate i verbose msg =>
      by_cases hij : i = j
      · subst hij
        left
        refine ⟨⟨verbose, msg, rfl⟩, ?_⟩
        simp only [block_op.run]
        rw [obs_block_deactivate_of_active verbose msg hb]
        simp [hlt]
      · rw [block_op_run_mode_other b _ j (by simpa [block_op.index] using hij)] at hafter
        exact absurd hb hafter

/-- C25 on the scenario block: index 1 is `ACTIVE`; deactivating it gives
`DEACTIVATED`, and further `obs_block_iset_missing` and `obs_block_deactivate`
calls on any index leave it not `ACTIVE`. -/
theorem obs_block_state_machine_witness :
    (wopr_block.active_mode[1]? = some ACTIVE ∧
      (block_op.run wopr_block (.deactivate 1 false "outlier")).active_mode[1]? ≠ some ACTIVE ∧
      (block_op.run wopr_block (.deactivate 1 false "outlier")).active_mode[1]?
        = some DEACTIVATED) ∧
    ((∀ o ∈ [block_op.iset_missing 1, block_op.deactivate 1 true "again",
        block_op.iset_missing (0 : Nat)], ∀ i (v s : Int), o ≠ .iset i v s) ∧
      (obs_block_deactivate wopr_block 1 false "outlier").active_mode[1]? ≠ some ACTIVE ∧
      (block_run (obs_block_deactivate wopr_block 1 false "outlier")
        [block_op.iset_missing 1, block_op.deactivate 1 true "again",
          block_op.iset_missing 0]).active_mode[1]? ≠ some ACTIVE) :=
  have a1 : wopr_block.active_mode[1]? = some ACTIVE := by decide
  have a2 : (block_op.run wopr_block (.deactivate 1 false "outlier")).active_mode[1]?
      ≠ some ACTIVE := by decide
  have a3 : (obs_block_deactivate wopr_block 1 false "outlier").active_mode[1]?
      ≠ some ACTIVE := by decide
  have hops : ∀ o ∈ [block_op.iset_missing 1, block_op.deactivate 1 true "again",
      block_op.iset_missing (0 : Nat)], ∀ i (v s : Int), o ≠ .iset i v s := by
    intro o ho i v s h
    subst h
    simp at ho
  ⟨⟨a1, a2, by decide⟩,
   ⟨hops, a3,
    (obs_block_state_machine (obs_block_deactivate wopr_block 1 false "outlier")
      (.iset_missing 0) 1 _).2.2 hops a3⟩⟩

end state_claims

/-! ## The non-centred perturbation step -/

section non_centred_claims
variable {α : Type}

theorem obs_block_initE_non_centred_spec [Zero α] [Mul α] (nr nc : Nat) (b : obs_block α)
    (E : matrix α) (off : Nat) (hE : E.rows = nr ∧ E.columns = nc) :
    (obs_block_initE_non_centred b E off).2 = off + b.active_indices.length ∧
    ((obs_block_initE_non_centred b E off).1.rows = nr ∧
      (obs_block_initE_non_centred b E off).1.columns = nc) ∧
    (∀ q a, b.active_indices[q]? = some a →
      (fun c => (obs_block_initE_non_centred b E off).1.data (off + q) c) =
        (fun c => if c < nc then E.data (off + q) c * obs_block_iget_std b a
          else E.data (off + q) c)) ∧
    (∀ r, (r < off ∨ off + b.active_indices.length ≤ r) →
      (fun c => (obs_block_initE_non_centred b E off).1.data r c) =
        (fun c => E.data r c)) := by
  obtain ⟨hr, hc⟩ := hE
  subst hc
  exact block_scan_spec b
    (fun i r (M : matrix α) =>
      for_range E.columns (fun iens E1 => matrix_imul E1 r iens (obs_block_iget_std b i)) M)
    (fun (M : matrix α) r => fun c => M.data r c)
    (fun a _ old => fun c =>
      if c < E.columns then old c * obs_block_iget_std b a else old c)
    (fun M => M.rows = nr ∧ M.columns = E.columns) E off b.size
    (by
      intro i r s hs
      obtain ⟨e1, e2, -⟩ := row_loop_spec
        (fun _ x => x * obs_block_iget_std b i) r E.columns s
      exact ⟨e1.trans hs.1, e2.trans hs.2⟩)
    (by
      intro q a _ s r _
      funext c
      have := (row_loop_spec (fun _ x => x * obs_block_iget_std b a)
        (off + q) E.columns s).2.2 r c
      simp only [matrix_imul, matrix_iget]
      rw [this]
      by_cases hr : r = off + q
      · subst hr
        by_cases hc : c < E.columns
        · simp [hc]
        · simp [hc]
      · simp [hr])
    ⟨hr, rfl⟩

/-- C24: under the non-centred policy the block routine multiplies every
entry of the row of its `q`-th `ACTIVE` element by the scaled std of that
element, changes no other row, and advances the running offset by the number
of `ACTIVE` elements of the block; over the blocks in insertion order every
entry of the `k`-th active row of the raw draws is multiplied by the scaled
std of the `k`-th `ACTIVE` element and nothing else happens: no mean is
subtracted and no variance rescaling is applied. -/
theorem obs_data_initE_non_centred_spec [Zero α] [Mul α] (d : obs_data α) (b0 : obs_block α)
    (E : matrix α) (off : Nat) :
    ((obs_block_initE_non_centred b0 E off).2 = off + b0.active_indices.length ∧
      (∀ q a, b0.active_indices[q]? = some a → ∀ c, c < E.columns →
        (obs_block_initE_non_centred b0 E off).1.data (off + q) c =
          E.data (off + q) c * obs_block_iget_std b0 a) ∧
      (∀ r c, (r < off ∨ off + b0.active_indices.length ≤ r) →
        (obs_block_initE_non_centred b0 E off).1.data r c = E.data r c)) ∧
    ((obs_data_initE_non_centred d E).2 = d.active_rows.length ∧
      ((obs_data_initE_non_centred d E).1.rows = E.rows ∧
        (obs_data_initE_non_centred d E).1.columns = E.columns) ∧
      (∀ (k : Nat) (b : obs_block α) (o a : Nat), d.active_rows[k]? = some (b, o, a) →
        ∀ c, c < E.columns →
          (obs_data_initE_non_centred d E).1.data k c =
            E.data k c * (b.std.getD a 0 * b.global_std_scaling)) ∧
      (∀ r c, d.active_rows.length ≤ r →
        (obs_data_initE_non_centred d E).1.data r c = E.data r c)) := by
  constructor
  · obtain ⟨h2, -, hrow, hframe⟩ :=
      obs_block_initE_non_centred_spec E.rows E.columns b0 E off ⟨rfl, rfl⟩
    refine ⟨h2, ?_, ?_⟩
    · intro q a hq c hc
      have h := congrFun (hrow q a hq) c
      simp only [if_pos hc] at h
      exact h
    · intro r c hr
      exact congrFun (hframe r hr) c
  · have key := data_scan_spec
      (fun b (st : matrix α × Nat) => obs_block_initE_non_centred b st.1 st.2)
      (fun (M : matrix α) r => fun c => M.data r c)
      (fun b _ a _ old => fun c =>
        if c < E.columns then old c * obs_block_iget_std b a else old c)
      (fun M => M.rows = E.rows ∧ M.columns = E.columns) d.data
      (fun b _ s off hs => obs_block_initE_non_centred_spec _ _ b s off hs)
      E 0 ⟨rfl, rfl⟩
    beta_reduce at key
    obtain ⟨h2, hdim, hrow, hframe⟩ := key
    refine ⟨?_, hdim, ?_, ?_⟩
    · simpa [obs_data.active_rows] using h2
    · intro k b o a hk c hc
      have h := congrFun (hrow k b o a hk) c
      simp only [Nat.zero_add, if_pos hc] at h
      exact h
    · intro r c hr
      exact congrFun (hframe r (Or.inr (by simpa [obs_data.active_rows] using hr))) c

/-- C24 on the scenario data set (elements 0 and 2 active with std 1 and 3,
element 1 deactivated): row 1 of the draws is multiplied by 3, the offset ends
at 2. -/
theorem obs_data_initE_non_centred_spec_witness :
    (wopr_data.active_rows[1]? =
        some (wopr_data.data.getD 0 wopr_empty, 0, 2) ∧
      (0 : Nat) < scenario_E.columns ∧
      (obs_data_initE_non_centred wopr_data scenario_E).1.data 1 0 =
        scenario_E.data 1 0 *
          ((wopr_data.data.getD 0 wopr_empty).std.getD 2 0 *
            (wopr_data.data.getD 0 wopr_empty).global_std_scaling)) ∧
    (obs_data_initE_non_centred wopr_data scenario_E).2 = 2 ∧
    (obs_data_initE_non_centred wopr_data scenario_E).1.data 1 0 = 3 * 3 ∧
    (obs_data_initE_non_centred wopr_data scenario_E).1.data 0 1 = 1 * 1 :=
  ⟨⟨rfl, by decide,
    (obs_data_initE_non_centred_spec wopr_data wopr_empty scenario_E 0).2.2.2.1 1 _ 0 2 rfl
      0 (by decide)⟩,
    by decide, by decide, by decide⟩

end non_centred_claims

/-! ## The order of the draws and the singleton ensemble -/

section draw_claims
variable {α : Type}

/-- C26, as the code has it: `obs_data_allocE` takes the draws column by
column. With `n = activeSize()` rows and `N` ensemble members the `k`-th draw
(`k` from 0) is the raw value at row `k % n`, column `k / n`, so that the `n`
draws of one ensemble member are taken before any draw of the next member;
`N * n` draws are taken in all. -/
theorem allocE_draw_order (d : obs_data α) [Zero α] (rng : Nat → α) (N k : Nat)
    (hk : k < N * (obs_data_get_active_size d).toNat) :
    (allocE_draw (matrix_alloc (obs_data_get_active_size d).toNat N) rng
      (obs_data_get_active_size d).toNat N).1.data
        (k % (obs_data_get_active_size d).toNat) (k / (obs_data_get_active_size d).toNat)
      = rng k ∧
    (allocE_draw (matrix_alloc (obs_data_get_active_size d).toNat N) rng
      (obs_data_get_active_size d).toNat N).2 = N * (obs_data_get_active_size d).toNat := by
  generalize (obs_data_get_active_size d).toNat = n at hk
  obtain ⟨h2, -, hd⟩ := allocE_draw_spec (matrix_alloc n N : matrix α) rng n N
  refine ⟨?_, h2⟩
  have hn : 0 < n := by
    rcases Nat.eq_zero_or_pos n with h | h
    · subst h; simp at hk
    · exact h
  have hr : k % n < n := Nat.mod_lt k hn
  have hc : k / n < N := (Nat.div_lt_iff_lt_mul hn).mpr hk
  rw [hd, if_pos ⟨hr, hc⟩, Nat.div_add_mod']

/-- The amended C26 on the scenario data set (2 active rows) with 3 ensemble
members and the draws `0, 1, 2, ...`: draw 1 is at row 1, column 0, and draw 2
at row 0, column 1. -/
theorem allocE_draw_order_witness :
    1 < 3 * (obs_data_get_active_size wopr_data).toNat ∧
    (allocE_draw (matrix_alloc (obs_data_get_active_size wopr_data).toNat 3)
      (fun k => (k : Int)) (obs_data_get_active_size wopr_data).toNat 3).1.data
        (1 % (obs_data_get_active_size wopr_data).toNat)
        (1 / (obs_data_get_active_size wopr_data).toNat) = ((1 : Nat) : Int) ∧
    (allocE_draw (matrix_alloc 2 3) (fun k => (k : Int)) 2 3).1.data 1 0 = 1 ∧
    (allocE_draw (matrix_alloc 2 3) (fun k => (k : Int)) 2 3).1.data 0 1 = 2 :=
  ⟨by decide, (allocE_draw_order wopr_data (fun k => (k : Int)) 3 1 (by decide)).1,
    by decide, by decide⟩

/-- C26 as stated fails: with 2 active rows and 3 ensemble members the draw
number 1 is not the raw value at row `1 / 3 = 0`, column `1 % 3 = 1`; that
position holds draw number 2. -/
theorem allocE_draw_not_row_major :
    (obs_data_get_active_size wopr_data).toNat = 2 ∧
    ¬ (∀ (rng : Nat → Int) (n m k : Nat), k < n * m →
        (allocE_draw (matrix_alloc n m) rng n m).1.data (k / m) (k % m) = rng k) := by
  refine ⟨by decide, ?_⟩
  intro h
  have h1 := h (fun k => (k : Int)) 2 3 1 (by decide)
  have h2 : (allocE_draw (matrix_alloc 2 3) (fun k => (k : Int)) 2 3).1.data (1 / 3) (1 % 3)
      = 2 := by decide
  rw [h2] at h1
  exact absurd h1 (by decide)

end draw_claims

/-! ## The active-index layout and the mask -/

section layout_lemmas
variable {α : Type}

theorem mask_of_length (l : List (obs_block α)) :
    (mask_of l).length = (l.map obs_block.size).sum := by
  induction l with
  | nil => rfl
  | cons b rest ih => simp [mask_of, block_mask, ih]

theorem mask_of_get (l : List (obs_block α)) (k i : Nat) (b : obs_block α)
    (hk : l[k]? = some b) (hi : i < b.size) :
    (mask_of l)[((l.take k).map obs_block.size).sum + i]? =
      some (decide (b.active_mode[i]? = some ACTIVE)) := by
  induction l generalizing k with
  | nil => simp at hk
  | cons x rest ih =>
    cases k with
    | zero =>
      simp only [List.getElem?_cons_zero, Option.some.injEq] at hk
      subst hk
      simp only [List.take_zero, List.map_nil, List.sum_nil, Nat.zero_add, mask_of]
      rw [List.getElem?_append_left (by simpa [block_mask] using hi)]
      simp [block_mask, hi]
    | succ j =>
      simp only [List.getElem?_cons_succ] at hk
      simp only [List.take_succ_cons, List.map_cons, List.sum_cons, mask_of]
      rw [List.getElem?_append_right (by simp [block_mask]; omega)]
      have := ih j hk
      rw [← this]
      congr 1
      simp [block_mask]
      omega

theorem obs_data_get_active_mask_eq (d : obs_data α) :
    obs_data_get_active_mask d = mask_of d.data := by
  have hlen0 := bool_vector_resize_length d.mask (obs_data_get_total_size d) false
  obtain ⟨hlen, -, hget⟩ := active_mask_fold d.data
    (bool_vector_resize d.mask (obs_data_get_total_size d) false) 0
    (by rw [hlen0, obs_data_get_total_size_eq]; omega)
  have hL : (obs_data_get_active_mask d).length = (d.data.map obs_block.size).sum := by
    simp only [obs_data_get_active_mask]
    rw [hlen, hlen0, obs_data_get_total_size_eq]
  apply List.ext_getElem?
  intro t
  by_cases ht : t < (d.data.map obs_block.size).sum
  · obtain ⟨k, b, hk, hlo, hhi⟩ := exists_block_of_lt d.data t ht
    have h1 := hget k b (t - ((d.data.take k).map obs_block.size).sum) hk (by omega)
    have h2 := mask_of_get d.data k (t - ((d.data.take k).map obs_block.size).sum) b hk
      (by omega)
    have e1 : 0 + ((d.data.take k).map obs_block.size).sum +
        (t - ((d.data.take k).map obs_block.size).sum) = t := by omega
    have e2 : ((d.data.take k).map obs_block.size).sum +
        (t - ((d.data.take k).map obs_block.size).sum) = t := by omega
    rw [e1] at h1
    rw [e2] at h2
    simp only [obs_data_get_active_mask]
    rw [h1, h2]
  · rw [List.getElem?_eq_none (by rw [hL]; omega),
      List.getElem?_eq_none (by rw [mask_of_length]; omega)]

theorem count_true_map_eq_filter (l : List Nat) (f : Nat → Bool) :
    (l.map f).count true = (l.filter f).length := by
  induction l with
  | nil => rfl
  | cons a t ih =>
    by_cases h : f a = true
    · simp [List.filter_cons, h, ih]
    · simp only [Bool.not_eq_true] at h
      simp [List.filter_cons, h, ih]

theorem block_mask_take_count (b : obs_block α) (i : Nat) (hi : i ≤ b.size) :
    ((block_mask b).take i).count true = (b.active_upto i).length := by
  unfold block_mask obs_block.active_upto
  rw [← List.map_take, List.take_range, Nat.min_eq_left hi, count_true_map_eq_filter]

theorem block_mask_count (b : obs_block α) :
    (block_mask b).count true = b.active_indices.length := by
  have := block_mask_take_count b b.size (Nat.le_refl _)
  rw [List.take_of_length_le (by simp [block_mask])] at this
  exact this

theorem mask_of_take_count (l : List (obs_block α)) (k i : Nat) (b : obs_block α)
    (hk : l[k]? = some b) (hi : i ≤ b.size) :
    ((mask_of l).take (((l.take k).map obs_block.size).sum + i)).count true =
      ((l.take k).map (fun b => b.active_indices.length)).sum + (b.active_upto i).length := by
  induction l generalizing k with
  | nil => simp at hk
  | cons x rest ih =>
    cases k with
    | zero =>
      simp only [List.getElem?_cons_zero, Option.some.injEq] at hk
      subst hk
      simp only [List.take_zero, List.map_nil, List.sum_nil, Nat.zero_add, mask_of]
      rw [List.take_append_of_le_length (by simpa [block_mask] using hi)]
      exact block_mask_take_count x i hi
    | succ j =>
      simp only [List.getElem?_cons_succ] at hk
      simp only [List.take_succ_cons, List.map_cons, List.sum_cons, mask_of]
      have hlen : (block_mask x).length = x.size := by simp [block_mask]
      rw [List.take_append_eq_append_take, List.take_of_length_le (by rw [hlen]; omega),
        List.count_append, block_mask_count, hlen]
      have := ih j hk
      rw [show x.size + ((rest.take j).map obs_block.size).sum + i - x.size =
        ((rest.take j).map obs_block.size).sum + i by omega, this]
      omega

theorem active_upto_get_self (b : obs_block α) (i n : Nat) (hin : i < n)
    (ha : b.active_mode[i]? = some ACTIVE) :
    (b.active_upto n)[(b.active_upto i).length]? = some i := by
  induction n with
  | zero => omega
  | succ m ih =>
    rw [active_upto_succ]
    by_cases him : i = m
    · subst him
      rw [if_pos ha, List.getElem?_append_right (Nat.le_refl _)]
      simp
    · have h := ih (by omega)
      rw [List.getElem?_append_left (getElem?_lt_length h)]
      exact h

end layout_lemmas

section layout_claims
variable {α : Type}

/-- C28: for a data set satisfying the active-count invariant and a total
index `t` whose entry in `obs_data_get_active_mask` is true, the number `r` of
true mask entries at positions below `t` is below `activeSize()`, row `r` of
`obs_data_allocdObs` has column 0 equal to `obs_data_iget_value(t)`, and entry
`r` of the scale-factor array equals `1 / obs_data_iget_std(t)`: the `k`-th row
of the assembled data belongs to the `k`-th true position of the mask. -/
theorem active_layout_agrees_with_mask [Zero α] [One α] [Mul α] [Div α] (d : obs_data α)
    (hwf : d.wf) (t : Nat) (ht : (obs_data_get_active_mask d)[t]? = some true) :
    ((((obs_data_get_active_mask d).take t).count true : Nat) : Int) <
      obs_data_get_active_size d ∧
    (∃ v, obs_data_iget_value d t = .ok v ∧
      (obs_data_allocdObs d).data (((obs_data_get_active_mask d).take t).count true) 0 = v) ∧
    (∃ s, obs_data_iget_std d t = .ok s ∧
      (obs_data_alloc_scale_factor d)[((obs_data_get_active_mask d).take t).count true]? =
        some (1 / s)) := by
  have hmask := obs_data_get_active_mask_eq d
  rw [hmask] at ht ⊢
  have htl : t < (d.data.map obs_block.size).sum := by
    have := getElem?_lt_length ht
    rwa [mask_of_length] at this
  obtain ⟨k, b, hk, hlo, hhi⟩ := exists_block_of_lt d.data t htl
  have hsplit : ((d.data.take k).map obs_block.size).sum +
      (t - ((d.data.take k).map obs_block.size).sum) = t := by omega
  have hi : t - ((d.data.take k).map obs_block.size).sum < b.size := by omega
  have hentry := mask_of_get d.data k _ b hk hi
  rw [hsplit, ht] at hentry
  have hact : b.active_mode[t - ((d.data.take k).map obs_block.size).sum]? = some ACTIVE := by
    simpa using hentry.symm
  have hcount := mask_of_take_count d.data k _ b hk (Nat.le_of_lt hi)
  rw [hsplit] at hcount
  have hpos := active_upto_get_self b _ b.size hi hact
  rw [active_upto_size] at hpos
  have hrow := active_rows_from_at d.data 0 k _ _ b hk hpos
  rw [← hcount, Nat.zero_add] at hrow
  have hrow2 : d.active_rows[((mask_of d.data).take t).count true]? =
      some (b, ((d.data.take k).map (fun b => b.active_indices.length)).sum,
        t - ((d.data.take k).map obs_block.size).sum) := hrow
  have hlt : ((mask_of d.data).take t).count true < d.active_rows.length :=
    getElem?_lt_length hrow2
  have hl := (obs_data_lookup_block_at d t k b hk hlo (by
    unfold obs_data.offset_of; omega)).2
  refine ⟨?_, ?_, ?_⟩
  · rw [obs_data_active_size_eq_rows hwf]
    exact_mod_cast hlt
  · refine ⟨obs_block_iget_value b (t - d.offset_of k), ?_, ?_⟩
    · simp [obs_data_iget_value, hl]
    · exact ((obs_data_allocdObs_rows d).2.2 _ b _ _ hrow2).1
  · refine ⟨obs_block_iget_std b (t - d.offset_of k), ?_, ?_⟩
    · simp [obs_data_iget_std, hl]
    · exact (obs_data_alloc_scale_factor_rows d).2 _ b _ _ hrow2
        (by rw [obs_data_active_size_toNat hwf]; exact hlt)

/-- C28 on a data set over the rationals with scaling 2 whose element 0 is
deactivated and whose element 1 (value 6, std 4) is `ACTIVE`: total index 1
is the first true position of the mask and owns row 0. -/
theorem active_layout_agrees_with_mask_witness :
    rat_data.wf ∧ (obs_data_get_active_mask rat_data)[1]? = some true ∧
    ((obs_data_get_active_mask rat_data).take 1).count true = 0 ∧
    ((((obs_data_get_active_mask rat_data).take 1).count true : Nat) : Int) <
      obs_data_get_active_size rat_data ∧
    (∃ v, obs_data_iget_value rat_data 1 = .ok v ∧
      (obs_data_allocdObs rat_data).data
        (((obs_data_get_active_mask rat_data).take 1).count true) 0 = v) ∧
    (∃ s, obs_data_iget_std rat_data 1 = .ok s ∧
      (obs_data_alloc_scale_factor rat_data)[
        ((obs_data_get_active_mask rat_data).take 1).count true]? = some (1 / s)) :=
  ⟨rat_data_wf, by decide, by decide,
    active_layout_agrees_with_mask rat_data rat_data_wf 1 (by decide)⟩

end layout_claims

/-! ## Covariance blocks do not see the std -/

section independence_claims
variable {α : Type}

/-- A row of `R` that belongs to a block with covariance `C`: the entries of
row `a` of `C` at the `ACTIVE` columns inside the block, 0 outside. -/
theorem allocR_covar_row [Zero α] [Mul α] (d : obs_data α) (hwf : d.wf) (k : Nat)
    (b : obs_block α) (C : matrix α) (hk : d.data[k]? = some b)
    (hC : b.error_covar = some C) (p a : Nat) (hp : b.active_indices[p]? = some a)
    (c : Nat) :
    (obs_data_allocR d).data (d.active_offset_of k + p) c =
      if d.active_offset_of k ≤ c ∧ c < d.active_offset_of k + b.active_indices.length then
        C.data a (b.active_indices.getD (c - d.active_offset_of k) 0)
      else 0 := by
  obtain ⟨-, hrow, -⟩ := obs_data_allocR_rows d hwf
  have hat : ∀ q x, b.active_indices[q]? = some x →
      d.active_rows[d.active_offset_of k + q]? = some (b, d.active_offset_of k, x) := by
    intro q x hq
    have := active_rows_from_at d.data 0 k q x b hk hq
    simpa [obs_data.active_rows, obs_data.active_offset_of] using this
  have hrp := hat p a hp
  rw [hrow _ b _ a hrp, initR_row_some _ _ _ _ _ _ _ _ C hC]
  by_cases hc : d.active_offset_of k ≤ c ∧ c < d.active_offset_of k + b.active_indices.length
  · have hq : c - d.active_offset_of k < b.active_indices.length := by omega
    have hrq := hat (c - d.active_offset_of k) _ (List.getElem?_eq_getElem hq)
    have hcn : c < d.active_rows.length := by
      have := getElem?_lt_length hrq
      omega
    rw [if_pos hc, if_pos ⟨hc.1, hc.2, getElem?_lt_length hrp, hcn⟩]
  · rw [if_neg hc, if_neg (fun h => hc ⟨h.1, h.2.1⟩)]

theorem active_indices_of_layout (b1 b2 : obs_block α)
    (h : (b1.size, b1.active_mode) = (b2.size, b2.active_mode)) :
    b1.active_indices = b2.active_indices := by
  simp only [Prod.mk.injEq] at h
  unfold obs_block.active_indices
  rw [h.1, h.2]

theorem active_offset_of_layout (d1 d2 : obs_data α)
    (hsame : d1.data.map (fun b => (b.size, b.active_mode)) =
      d2.data.map (fun b => (b.size, b.active_mode))) (k : Nat) :
    d1.active_offset_of k = d2.active_offset_of k := by
  have hfun : ∀ d : obs_data α, d.active_offset_of k =
      (((d.data.map (fun b => (b.size, b.active_mode))).take k).map
        (fun x : Nat × List active_type =>
          ((List.range x.1).filter (fun i => decide (x.2[i]? = some ACTIVE))).length)).sum := by
    intro d
    simp only [obs_data.active_offset_of, ← List.map_take, List.map_map]
    rfl
  rw [hfun d1, hfun d2, hsame]

/-- C29: the rows of `R` that `obs_data_allocR` writes for a block with an
error covariance depend neither on `global_std_scaling` nor on the std values:
two data sets with the same sizes and states, whatever their scaling and std,
produce identical rows of `R` for a block that carries the same covariance in
both; for a block without covariance the diagonal entry is the squared std
times `global_std_scaling` squared. -/
theorem obs_data_allocR_covar_independent [CommRing α] (d1 d2 : obs_data α)
    (hwf1 : d1.wf) (hwf2 : d2.wf)
    (hsame : d1.data.map (fun b => (b.size, b.active_mode)) =
      d2.data.map (fun b => (b.size, b.active_mode)))
    (k : Nat) (b1 b2 : obs_block α) (hk1 : d1.data[k]? = some b1)
    (hk2 : d2.data[k]? = some b2) :
    (∀ C, b1.error_covar = some C → b2.error_covar = some C →
      ∀ p c, p < b1.active_indices.length →
        (obs_data_allocR d1).data (d1.active_offset_of k + p) c =
          (obs_data_allocR d2).data (d1.active_offset_of k + p) c) ∧
    (b1.error_covar = none → ∀ p a, b1.active_indices[p]? = some a →
      (obs_data_allocR d1).data (d1.active_offset_of k + p) (d1.active_offset_of k + p) =
        (b1.std.getD a 0 * b1.std.getD a 0) *
          (b1.global_std_scaling * b1.global_std_scaling)) := by
  have hlay : (b1.size, b1.active_mode) = (b2.size, b2.active_mode) := by
    have h := congrArg (fun l => l[k]?) hsame
    simp only [List.getElem?_map, hk1, hk2, Option.map_some', Option.some.injEq] at h
    exact h
  have hidx := active_indices_of_layout b1 b2 hlay
  have hoff := active_offset_of_layout d1 d2 hsame k
  refine ⟨?_, ?_⟩
  · intro C hC1 hC2 p c hp
    have hget1 : b1.active_indices[p]? = some (b1.active_indices.getD p 0) := by
      rw [List.getD_eq_getElem?_getD, List.getElem?_eq_getElem hp]
      rfl
    have hget2 : b2.active_indices[p]? = some (b1.active_indices.getD p 0) := by
      rw [← hidx]; exact hget1
    have e1 := allocR_covar_row d1 hwf1 k b1 C hk1 hC1 p _ hget1 c
    have e2 := allocR_covar_row d2 hwf2 k b2 C hk2 hC2 p _ hget2 c
    rw [← hoff, ← hidx] at e2
    rw [e1, e2]
  · intro hC p a hp
    obtain ⟨-, hrow, -⟩ := obs_data_allocR_rows d1 hwf1
    have hrp : d1.active_rows[d1.active_offset_of k + p]? =
        some (b1, d1.active_offset_of k, a) := by
      have := active_rows_from_at d1.data 0 k p a b1 hk1 hp
      simpa [obs_data.active_rows, obs_data.active_offset_of] using this
    have hlt := getElem?_lt_length hrp
    rw [hrow _ b1 _ a hrp, initR_row_none _ _ _ _ _ _ _ _ hC, if_pos ⟨rfl, hlt, hlt⟩]
    unfold obs_block_iget_std
    ring

theorem cov_data_rescaled_wf : cov_data_rescaled.wf := by decide

/-- C29 on the scenario: `cov_data` (scaling 2, std 1 and 1 in the covariance
block) and `cov_data_rescaled` (scaling 5, std 7 and 9 there) have the same
rows 1 and 2 of `R`, those of the covariance block, while the diagonal entry of
the block without covariance is `4 * 4 * (2 * 2)` in one and `4 * 4 * (5 * 5)`
in the other. -/
theorem obs_data_allocR_covar_independent_witness :
    cov_data.wf ∧ cov_data_rescaled.wf ∧
    cov_data.data.map (fun b => (b.size, b.active_mode)) =
      cov_data_rescaled.data.map (fun b => (b.size, b.active_mode)) ∧
    (∀ p c, p < (cov_data.data.getD 1 wopr_empty).active_indices.length →
      (obs_data_allocR cov_data).data (cov_data.active_offset_of 1 + p) c =
        (obs_data_allocR cov_data_rescaled).data (cov_data.active_offset_of 1 + p) c) ∧
    (obs_data_allocR cov_data).data 1 2 = 12 ∧
    (obs_data_allocR cov_data_rescaled).data 1 2 = 12 ∧
    (obs_data_allocR cov_data).data 0 0 = 4 * 4 * (2 * 2) ∧
    (obs_data_allocR cov_data_rescaled).data 0 0 = 4 * 4 * (5 * 5) :=
  ⟨cov_data_wf, cov_data_rescaled_wf, by decide,
    (obs_data_allocR_covar_independent cov_data cov_data_rescaled cov_data_wf
      cov_data_rescaled_wf (by decide) 1 (cov_data.data.getD 1 wopr_empty)
      (cov_data_rescaled.data.getD 1 wopr_empty) rfl rfl).1 cov2 rfl rfl,
    by decide, by decide, by decide, by decide⟩

end independence_claims

/-! ## The lookup on the integer index of the source -/

section int_lookup
variable {α : Type}

theorem lookup_scan_int_natCast (t : Nat) (l : List (obs_block α)) (off idx : Nat) :
    lookup_scan_int (t : Int) l off idx = lookup_scan t l off idx := by
  induction l generalizing off idx with
  | nil => rfl
  | cons b rest ih =>
    simp only [lookup_scan_int, lookup_scan, gt_iff_lt, Nat.cast_lt]
    rw [ih]

/-- On an index that is not negative the integer lookup is the lookup on the
natural numbers. -/
theorem obs_data_lookup_block_int_natCast (d : obs_data α) (t : Nat) :
    obs_data_lookup_block_int d (t : Int) = obs_data_lookup_block d t := by
  simp only [obs_data_lookup_block_int, obs_data_lookup_block, Nat.cast_lt,
    lookup_scan_int_natCast]

theorem obs_data_iget_value_int_natCast [Zero α] (d : obs_data α) (t : Nat) :
    obs_data_iget_value_int d (t : Int) = obs_data_iget_value d t := by
  unfold obs_data_iget_value_int obs_data_iget_value
  rw [obs_data_lookup_block_int_natCast]
  by_cases h : t < obs_data_get_total_size d
  · obtain ⟨k, b, -, -, -, hl, hlo, -⟩ := lookup_block_of_lt d t h
    rw [hl]
    have hnn : ¬ ((t : Int) - (d.offset_of k : Int) < 0) := by omega
    simp only [if_neg hnn]
    congr 2
    omega
  · have hl : obs_data_lookup_block d t = .error .lookup_abort := by
      simp [obs_data_lookup_block, h]
    rw [hl]

theorem obs_data_iget_std_int_natCast [Zero α] [Mul α] (d : obs_data α) (t : Nat) :
    obs_data_iget_std_int d (t : Int) = obs_data_iget_std d t := by
  unfold obs_data_iget_std_int obs_data_iget_std
  rw [obs_data_lookup_block_int_natCast]
  by_cases h : t < obs_data_get_total_size d
  · obtain ⟨k, b, -, -, -, hl, hlo, -⟩ := lookup_block_of_lt d t h
    rw [hl]
    have hnn : ¬ ((t : Int) - (d.offset_of k : Int) < 0) := by omega
    simp only [if_neg hnn]
    congr 2
    omega
  · have hl : obs_data_lookup_block d t = .error .lookup_abort := by
      simp [obs_data_lookup_block, h]
    rw [hl]

/-- A negative index passes the guard: without blocks the index check of the
block vector aborts, otherwise the first block is returned with offset 0. -/
theorem obs_data_lookup_block_int_neg (d : obs_data α) (t : Int) (ht : t < 0) :
    (d.data = [] → obs_data_lookup_block_int d t = .error .vector_index_abort) ∧
    (∀ b rest, d.data = b :: rest → obs_data_lookup_block_int d t = .ok (b, 0)) := by
  have hguard : t < (obs_data_get_total_size d : Int) := by omega
  refine ⟨?_, ?_⟩
  · intro hd
    simp only [obs_data_lookup_block_int, if_pos hguard, hd, lookup_scan_int]
  · intro b rest hd
    have hc : ((b.size + 0 : Nat) : Int) > t := by omega
    simp only [obs_data_lookup_block_int, if_pos hguard, hd, lookup_scan_int, if_pos hc]

theorem obs_data_total_size_of_nil (d : obs_data α) (hd : d.data = []) :
    obs_data_get_total_size d = 0 := by
  simp [obs_data_get_total_size, hd]

/-- Getters on a negative index: without blocks the abort of the block vector
is passed on, otherwise the read is before the start of the arrays of the first
block. -/
theorem obs_data_iget_int_neg [Zero α] [Mul α] (d : obs_data α) (t : Int) (ht : t < 0) :
    (d.data = [] → obs_data_iget_value_int d t = .error .vector_index_abort ∧
      obs_data_iget_std_int d t = .error .vector_index_abort) ∧
    (d.data ≠ [] → obs_data_iget_value_int d t = .error .undefined_read ∧
      obs_data_iget_std_int d t = .error .undefined_read) := by
  obtain ⟨hnil, hcons⟩ := obs_data_lookup_block_int_neg d t ht
  refine ⟨?_, ?_⟩
  · intro hd
    simp only [obs_data_iget_value_int, obs_data_iget_std_int, hnil hd, and_self]
  · intro hd
    obtain ⟨b, rest, hbr⟩ := List.exists_cons_of_ne_nil hd
    have hneg : t - ((0 : Nat) : Int) < 0 := by omega
    simp only [obs_data_iget_value_int, obs_data_iget_std_int, hcons b rest hbr, if_pos hneg,
      and_self]

end int_lookup

/-! ## The faults of the lookup, on every integer index -/

section int_lookup_claims
variable {α : Type}

/-- C7, as the code has it on the `int total_index` of the source:
`obs_data_lookup_block`, `obs_data_iget_value` and `obs_data_iget_std` fail with
the abort of the lookup if and only if the total index is not below the total
size. On an index that is not negative this is their only failure, so on a data
set without blocks they fail with it for every such index. A negative index
passes the guard: without blocks the three calls fail with the index abort of
the block vector instead, and with blocks the lookup returns the first block
with offset 0 and the two getters read before the start of its arrays. -/
theorem obs_data_lookup_int_fails_iff [Zero α] [Mul α] (d : obs_data α) (t : Int) :
    (obs_data_lookup_block_int d t = .error .lookup_abort ↔
      (obs_data_get_total_size d : Int) ≤ t) ∧
    (obs_data_iget_value_int d t = .error .lookup_abort ↔
      (obs_data_get_total_size d : Int) ≤ t) ∧
    (obs_data_iget_std_int d t = .error .lookup_abort ↔
      (obs_data_get_total_size d : Int) ≤ t) ∧
    (0 ≤ t →
      ((∃ e, obs_data_lookup_block_int d t = .error e) ↔
        (obs_data_get_total_size d : Int) ≤ t) ∧
      ((∃ e, obs_data_iget_value_int d t = .error e) ↔
        (obs_data_get_total_size d : Int) ≤ t) ∧
      ((∃ e, obs_data_iget_std_int d t = .error e) ↔
        (obs_data_get_total_size d : Int) ≤ t) ∧
      (d.data = [] →
        obs_data_lookup_block_int d t = .error .lookup_abort ∧
        obs_data_iget_value_int d t = .error .lookup_abort ∧
        obs_data_iget_std_int d t = .error .lookup_abort)) ∧
    (t < 0 →
      (d.data = [] →
        obs_data_lookup_block_int d t = .error .vector_index_abort ∧
        obs_data_iget_value_int d t = .error .vector_index_abort ∧
        obs_data_iget_std_int d t = .error .vector_index_abort) ∧
      (∀ b rest, d.data = b :: rest →
        obs_data_lookup_block_int d t = .ok (b, 0) ∧
        obs_data_iget_value_int d t = .error .undefined_read ∧
        obs_data_iget_std_int d t = .error .undefined_read)) := by
  rcases lt_or_le t 0 with ht | ht
  · obtain ⟨hnil, hcons⟩ := obs_data_lookup_block_int_neg d t ht
    obtain ⟨hgnil, hgcons⟩ := obs_data_iget_int_neg d t ht
    have hn : ¬ (obs_data_get_total_size d : Int) ≤ t := by omega
    have hneg : (t < 0 →
        (d.data = [] →
          obs_data_lookup_block_int d t = .error .vector_index_abort ∧
          obs_data_iget_value_int d t = .error .vector_index_abort ∧
          obs_data_iget_std_int d t = .error .vector_index_abort) ∧
        (∀ b rest, d.data = b :: rest →
          obs_data_lookup_block_int d t = .ok (b, 0) ∧
          obs_data_iget_value_int d t = .error .undefined_read ∧
          obs_data_iget_std_int d t = .error .undefined_read)) := by
      intro _
      refine ⟨fun hd => ⟨hnil hd, hgnil hd⟩, fun b rest hd => ⟨hcons b rest hd, ?_⟩⟩
      exact hgcons (by rw [hd]; exact List.cons_ne_nil b rest)
    refine ⟨?_, ?_, ?_, fun h0 => absurd h0 (not_le.mpr ht), hneg⟩
    · cases hd : d.data with
      | nil => simp [hnil hd, hn]
      | cons b rest => simp [hcons b rest hd, hn]
    · cases hd : d.data with
      | nil => simp [(hgnil hd).1, hn]
      | cons b rest =>
        have hne : d.data ≠ [] := by rw [hd]; exact List.cons_ne_nil b rest
        simp [(hgcons hne).1, hn]
    · cases hd : d.data with
      | nil => simp [(hgnil hd).2, hn]
      | cons b rest =>
        have hne : d.data ≠ [] := by rw [hd]; exact List.cons_ne_nil b rest
        simp [(hgcons hne).2, hn]
  · obtain ⟨n, rfl⟩ := Int.eq_ofNat_of_zero_le ht
    obtain ⟨h1, h2, h3, h4, h5, h6, -, -, -⟩ := lookup_fails_iff_nat d n
    rw [obs_data_lookup_block_int_natCast, obs_data_iget_value_int_natCast,
      obs_data_iget_std_int_natCast]
    simp only [Nat.cast_le]
    refine ⟨h1, h3, h5, fun _ => ⟨h2, h4, h6, fun hd => ?_⟩, fun hlt => ?_⟩
    · have hz : obs_data_get_total_size d ≤ n := by
        rw [obs_data_total_size_of_nil d hd]; exact Nat.zero_le n
      exact ⟨h1.mpr hz, h3.mpr hz, h5.mpr hz⟩
    · exact absurd hlt (by omega)

/-- The lookup on the data set of the second scenario (sizes 2 and 3) and on the
same data set after `obs_data_reset`: index 5 fails with the abort of the
lookup, index -1 returns the first block when there are blocks and fails with
the index abort of the block vector when there are none. -/
theorem obs_data_lookup_int_fails_iff_witness :
    ((0 : Int) ≤ 5 ∧
      ((∃ e, obs_data_lookup_block_int two_blocks 5 = .error e) ↔
        (obs_data_get_total_size two_blocks : Int) ≤ 5) ∧
      obs_data_lookup_block_int two_blocks 5 = .error .lookup_abort) ∧
    ((0 : Int) ≤ 0 ∧ (obs_data_reset two_blocks).data = [] ∧
      obs_data_lookup_block_int (obs_data_reset two_blocks) 0 = .error .lookup_abort) ∧
    ((-1 : Int) < 0 ∧ (obs_data_reset two_blocks).data = [] ∧
      obs_data_lookup_block_int (obs_data_reset two_blocks) (-1)
        = .error .vector_index_abort) ∧
    ((-1 : Int) < 0 ∧
      (∃ b, two_blocks.data[0]? = some b ∧ b.size = 2 ∧
        obs_data_lookup_block_int two_blocks (-1) = .ok (b, 0))) := by
  have h5 := obs_data_lookup_int_fails_iff two_blocks 5
  have h0 := obs_data_lookup_int_fails_iff (obs_data_reset two_blocks) 0
  have hm := obs_data_lookup_int_fails_iff (obs_data_reset two_blocks) (-1)
  have hb := obs_data_lookup_int_fails_iff two_blocks (-1)
  refine ⟨⟨by decide, (h5.2.2.2.1 (by decide)).1, h5.1.mpr (by decide)⟩,
    ⟨by decide, rfl, ((h0.2.2.2.1 (by decide)).2.2.2 rfl).1⟩,
    ⟨by decide, rfl, ((hm.2.2.2.2 (by decide)).1 rfl).1⟩,
    ⟨by decide, ?_⟩⟩
  exact ⟨_, rfl, rfl, ((hb.2.2.2.2 (by decide)).2 _ _ rfl).1⟩

/-- C7 does not hold on a negative index: on a data set without blocks the
lookup at index -1 fails although -1 is below the total size 0, and the failure
is the index abort of the block vector, not the abort of the lookup; the same
holds for the two getters. -/
theorem obs_data_lookup_negative_index_fault :
    obs_data_get_total_size (obs_data_alloc (1 : Int)) = 0 ∧
    ¬ ((obs_data_get_total_size (obs_data_alloc (1 : Int)) : Int) ≤ -1) ∧
    obs_data_lookup_block_int (obs_data_alloc (1 : Int)) (-1) = .error .vector_index_abort ∧
    obs_data_iget_value_int (obs_data_alloc (1 : Int)) (-1) = .error .vector_index_abort ∧
    obs_data_iget_std_int (obs_data_alloc (1 : Int)) (-1) = .error .vector_index_abort ∧
    obs_data_lookup_block_int (obs_data_alloc (1 : Int)) (-1) ≠ .error .lookup_abort ∧
    ¬ (∀ (d : obs_data Int) (t : Int), (∃ e, obs_data_lookup_block_int d t = .error e) ↔
        (obs_data_get_total_size d : Int) ≤ t) ∧
    ¬ (∀ (d : obs_data Int) (t : Int), d.data = [] →
        obs_data_lookup_block_int d t = .error .lookup_abort) := by
  have hl : obs_data_lookup_block_int (obs_data_alloc (1 : Int)) (-1)
      = .error .vector_index_abort := rfl
  refine ⟨rfl, by decide, hl, rfl, rfl, ?_, ?_, ?_⟩
  · rw [hl]; intro h; cases h
  · intro h
    have := (h (obs_data_alloc (1 : Int)) (-1)).mp ⟨_, hl⟩
    exact absurd this (by decide)
  · intro h
    have := h (obs_data_alloc (1 : Int)) (-1) rfl
    rw [hl] at this
    cases this

end int_lookup_claims

end ObsData
